import Mathlib

/-!
# ucommon thread primitives: embedding and verified properties

The development embeds the synchronisation classes of `src/thread.cpp`
(rexlock, rwlock, ConditionalLock, barrier, semaphore, queue, stack, Buffer,
PooledThread, LockedPointer, SharedPointer, shared_release, ReusableAllocator,
`Conditional::gettimeout`), the typed wrappers of `thread.h` (queueof,
stackof, bufferof) and `shell::parse` of `src/shell.cpp` as pure state
transformers.

* Machine integers are natural numbers reduced modulo the word size at every
  increment and decrement (`unsigned` is 32 bits wide, `size_t` 64 bits).
* A member function that may park the calling thread in `Conditional::wait`
  is cut at its wait points: it yields a `Step`, which is either the state in
  which the thread parks (the mutex is released there), the state, result and
  emitted events at its return, or an assertion failure or fault.  A separate
  `_resume` function continues the call from the wait point.
* Calls that leave the object (`signal`, `broadcast`, `retain`, `release` of a
  payload) are recorded as a list of events in program order.
-/

namespace ucommon

/-! ## Common definitions -/

/-- Calls that leave the object under study, in program order: the two wake-up
calls of `Conditional` and the reference counting calls on a payload `Object`. -/
inductive Event where
  | signal
  | broadcast
  | retain (o : Nat)
  | release (o : Nat)
  deriving DecidableEq, Repr

/-- Outcome of running a member function from a control point up to the next
point where the calling thread gives up the mutex. -/
inductive Step (σ : Type) (α : Type) where
  /-- The thread parks in `Conditional::wait` with the object in state `s`. -/
  | wait (s : σ)
  /-- The function returns `r`, leaving state `s`, having emitted `ev`. -/
  | ret (s : σ) (r : α) (ev : List Event)
  /-- An `assert` failed, or the call faulted. -/
  | abort
  deriving DecidableEq, Repr

/-- State left behind when the call returned. -/
def Step.state? {σ α : Type} : Step σ α → Option σ
  | .ret s _ _ => some s
  | _ => none

/-- Value returned, when the call returned. -/
def Step.result? {σ α : Type} : Step σ α → Option α
  | .ret _ r _ => some r
  | _ => none

/-- Events emitted, when the call returned. -/
def Step.events? {σ α : Type} : Step σ α → Option (List Event)
  | .ret _ _ ev => some ev
  | _ => none

/-- State in which the calling thread gives up the mutex, by parking or by
returning. -/
def Step.after? {σ α : Type} : Step σ α → Option σ
  | .wait s => some s
  | .ret s _ _ => some s
  | .abort => none

/-- Number of values of an `unsigned`. -/
def UINT_MOD : Nat := 4294967296

/-- Number of values of a `size_t`. -/
def SIZE_MOD : Nat := 18446744073709551616

/-- The C expression `++x` on an `unsigned`. -/
def uinc (x : Nat) : Nat := (x + 1) % UINT_MOD

/-- The C expression `--x` on an `unsigned`. -/
def udec (x : Nat) : Nat := (x + UINT_MOD - 1) % UINT_MOD

/-- The C expression `++x` on a `size_t`. -/
def zinc (x : Nat) : Nat := (x + 1) % SIZE_MOD

/-- The C expression `--x` on a `size_t`. -/
def zdec (x : Nat) : Nat := (x + SIZE_MOD - 1) % SIZE_MOD

/-- Modelled from the spec: `Timer::inf` is declared in ucommon/timers.h, which
is not among the sources.  It is the timeout value that selects the untimed
("infinite") wait of sections 4.3 and 4.8, the all-ones value of `timeout_t`;
all that the code below uses is that it differs from the non-blocking
timeout 0. -/
def Timer.inf : Nat := SIZE_MOD - 1

/-! ## rwlock -/

/-- The data members of `class rwlock` (thread.h); `writer` is the `pthread_t`
of the writing thread. -/
structure rwlock where
  waiting : Nat
  reading : Nat
  pending : Nat
  writers : Nat
  writer : Nat
  deriving DecidableEq, Repr

namespace rwlock

/-- The constructor `rwlock::rwlock()`: the four counters are cleared, `writer`
is left as found in memory. -/
def init (writer : Nat) : rwlock :=
  { waiting := 0, reading := 0, pending := 0, writers := 0, writer := writer }

/-- Every counter is a value of type `unsigned`. -/
def inRange (s : rwlock) : Prop :=
  s.waiting < UINT_MOD ∧ s.reading < UINT_MOD ∧ s.pending < UINT_MOD ∧ s.writers < UINT_MOD

instance (s : rwlock) : Decidable s.inRange := by
  unfold inRange; exact inferInstance

/-- No reader is active while a writer holds the lock. -/
def exclusive (s : rwlock) : Prop := s.reading = 0 ∨ s.writers = 0

instance (s : rwlock) : Decidable s.exclusive := by
  unfold exclusive; exact inferInstance

/-- The accessor `rwlock::getAccess`. -/
def getAccess (s : rwlock) : Nat := s.reading

/-- The accessor `rwlock::getModify`. -/
def getModify (s : rwlock) : Nat := s.writers

/-- The accessor `rwlock::getWaiting`. -/
def getWaiting (s : rwlock) : Nat := (s.waiting + s.pending) % UINT_MOD

/-- The part of `rwlock::modify` after its wait loop: the `max_sharing`
assertion, then the acquisition when `rtn` holds. `self` is `pthread_self()`. -/
def modify_exit (max_sharing self : Nat) (s : rwlock) (rtn : Bool) : Step rwlock Bool :=
  if max_sharing ≠ 0 ∧ ¬ s.writers < max_sharing then .abort
  else if rtn = true then
    .ret { s with
            writer := if s.writers = 0 then self else s.writer
            writers := uinc s.writers }
      true []
  else .ret s false []

/-- The wait loop of `rwlock::modify`, entered at its test with the local `rtn`.
With timeout 0 the body sets `rtn = false`, which ends the loop at the next
test. -/
def modify_loop (max_sharing self timeout : Nat) (s : rwlock) (rtn : Bool) :
    Step rwlock Bool :=
  if (s.writers ≠ 0 ∨ s.reading ≠ 0) ∧ rtn = true then
    if s.writers ≠ 0 ∧ s.writer = self then
      modify_exit max_sharing self s rtn
    else
      let s1 := { s with pending := uinc s.pending }
      if timeout = Timer.inf then .wait s1
      else if timeout ≠ 0 then .wait s1
      else modify_exit max_sharing self { s1 with pending := udec s1.pending } false
  else modify_exit max_sharing self s rtn

/-- The member function `rwlock::modify(timeout)` called by thread `self`. -/
def modify (max_sharing self timeout : Nat) (s : rwlock) : Step rwlock Bool :=
  modify_loop max_sharing self timeout s true

/-- Continuation of `rwlock::modify` when the parked thread is woken:
`signalled` is the value of the timed wait (the untimed wait has no value and
leaves `rtn` true); `--pending` runs and the loop test is taken again. -/
def modify_resume (max_sharing self timeout : Nat) (s : rwlock) (signalled : Bool) :
    Step rwlock Bool :=
  modify_loop max_sharing self timeout { s with pending := udec s.pending }
    (if timeout = Timer.inf then true else signalled)

/-- The part of `rwlock::access` after its wait loop. -/
def access_exit (max_sharing : Nat) (s : rwlock) (rtn : Bool) : Step rwlock Bool :=
  if max_sharing ≠ 0 ∧ ¬ s.reading < max_sharing then .abort
  else if rtn = true then .ret { s with reading := uinc s.reading } true []
  else .ret s false []

/-- The wait loop of `rwlock::access`, entered at its test with the local `rtn`. -/
def access_loop (max_sharing timeout : Nat) (s : rwlock) (rtn : Bool) : Step rwlock Bool :=
  if (s.writers ≠ 0 ∨ s.pending ≠ 0) ∧ rtn = true then
    let s1 := { s with waiting := uinc s.waiting }
    if timeout = Timer.inf then .wait s1
    else if timeout ≠ 0 then .wait s1
    else access_exit max_sharing { s1 with waiting := udec s1.waiting } false
  else access_exit max_sharing s rtn

/-- The member function `rwlock::access(timeout)`. -/
def access (max_sharing timeout : Nat) (s : rwlock) : Step rwlock Bool :=
  access_loop max_sharing timeout s true

/-- Continuation of `rwlock::access` when the parked thread is woken. -/
def access_resume (max_sharing timeout : Nat) (s : rwlock) (signalled : Bool) :
    Step rwlock Bool :=
  access_loop max_sharing timeout { s with waiting := udec s.waiting }
    (if timeout = Timer.inf then true else signalled)

/-- The member function `rwlock::release()`. -/
def release (s : rwlock) : Step rwlock Unit :=
  if ¬ (s.reading ≠ 0 ∨ s.writers ≠ 0) then .abort
  else if s.writers ≠ 0 then
    if s.reading ≠ 0 then .abort
    else
      let s1 := { s with writers := udec s.writers }
      if s1.waiting ≠ 0 ∧ s1.writers = 0 then .ret s1 () [Event.broadcast]
      else if s1.pending ≠ 0 ∧ s1.writers = 0 then .ret s1 () [Event.signal]
      else .ret s1 () []
  else if s.reading ≠ 0 then
    let s1 := { s with reading := udec s.reading }
    if s1.waiting ≠ 0 ∧ (s1.pending = 0 ∨ s1.reading = 0) then .ret s1 () [Event.broadcast]
    else if s1.reading = 0 ∧ s1.pending ≠ 0 then .ret s1 () [Event.signal]
    else .ret s1 () []
  else .ret s () []

/-! ### Threads sharing one rwlock

The lock is used by several threads; a thread is either outside the lock
functions or parked at the wait point of `modify` or `access`. One action is
one critical section: everything a thread does between taking the mutex and
giving it up again (by returning or by parking). A parked thread may be woken
at any time (condition variables allow spurious wake-ups, and a timed wait may
expire). -/

/-- Where a thread stands with respect to the lock functions. -/
inductive Pc where
  | idle
  | inModify (timeout : Nat)
  | inAccess (timeout : Nat)
  deriving DecidableEq, Repr

/-- The lock together with the control point of every thread. -/
structure Machine where
  lock : rwlock
  pc : Nat → Pc

/-- One critical section run by thread `t`. -/
inductive Action where
  | modify (t timeout : Nat)
  | modifyWake (t : Nat) (signalled : Bool)
  | access (t timeout : Nat)
  | accessWake (t : Nat) (signalled : Bool)
  | release (t : Nat)
  deriving DecidableEq, Repr

/-- A freshly constructed lock, no thread inside it. -/
def Machine.init (writer : Nat) : Machine :=
  { lock := rwlock.init writer, pc := fun _ => Pc.idle }

/-- Records the outcome of a critical section of thread `t`: it parks at
`park`, or it has returned; a failed assertion ends the program. -/
def Machine.settle {α : Type} (sys : Machine) (t : Nat) (park : Pc) : Step rwlock α → Option Machine
  | .wait l => some { lock := l, pc := Function.update sys.pc t park }
  | .ret l _ _ => some { lock := l, pc := Function.update sys.pc t Pc.idle }
  | .abort => none

/-- The successor state of an action, when the action is enabled. -/
def Machine.next (max_sharing : Nat) (sys : Machine) : Action → Option Machine
  | .modify t timeout =>
    if sys.pc t = Pc.idle then
      sys.settle t (Pc.inModify timeout) (rwlock.modify max_sharing t timeout sys.lock)
    else none
  | .modifyWake t signalled =>
    match sys.pc t with
    | Pc.inModify timeout =>
      sys.settle t (Pc.inModify timeout)
        (rwlock.modify_resume max_sharing t timeout sys.lock signalled)
    | _ => none
  | .access t timeout =>
    if sys.pc t = Pc.idle then
      sys.settle t (Pc.inAccess timeout) (rwlock.access max_sharing timeout sys.lock)
    else none
  | .accessWake t signalled =>
    match sys.pc t with
    | Pc.inAccess timeout =>
      sys.settle t (Pc.inAccess timeout)
        (rwlock.access_resume max_sharing timeout sys.lock signalled)
    | _ => none
  | .release t =>
    if sys.pc t = Pc.idle then sys.settle t Pc.idle (rwlock.release sys.lock) else none

/-- Runs a schedule of actions from `sys`. -/
def Machine.run (max_sharing : Nat) (sys : Machine) : List Action → Option Machine
  | [] => some sys
  | a :: rest => (sys.next max_sharing a).bind (fun sys1 => Machine.run max_sharing sys1 rest)

end rwlock

/-! ## Linked lists (linked.h)

A chain of nodes starting at a root pointer is a list of nodes, first node
first; a node is identified by the address of its storage. -/

/-- Modelled from the spec: `LinkedObject::enlist(LinkedObject **root)` is
defined in linked.cpp, which is not among the sources. It links the node in
front of the chain that starts at `root` (section 4.8: a node is spliced onto
the head of a stack, and returned to the freelist); the constructor
`LinkedObject(LinkedObject **root)` does the same. -/
def LinkedObject.enlist {α : Type} (root : List α) (node : α) : List α :=
  node :: root

/-- Modelled from the spec: `OrderedObject::enlist(OrderedIndex *root)` is
defined in linked.cpp, which is not among the sources. It splices the node
onto the tail of the ordered index (section 4.8); the constructor
`OrderedObject(OrderedIndex *)` does the same. -/
def OrderedObject.enlist {α : Type} (root : List α) (node : α) : List α :=
  root ++ [node]

/-- Modelled from the spec: `OrderedObject::delist(OrderedIndex *root)` is
defined in linked.cpp, which is not among the sources. It unlinks the node
whose storage is `node` from the ordered index and keeps the other nodes in
their order (section 4.8, `remove`). -/
def OrderedObject.delist {α : Type} (addr : α → Nat) (root : List α) (node : Nat) : List α :=
  root.eraseP (fun m => addr m == node)

/-! ## queue -/

/-- A node of a queue, `class queue::member`: its storage and the payload
pointer it holds. -/
structure queue.member where
  addr : Nat
  object : Nat
  deriving DecidableEq, Repr

/-- The data members of `class queue`: the inherited `OrderedIndex` (nodes from
`head` to `tail`), the chain of free nodes, and the two counters. The pager is
represented by the block it hands out, an argument of `post`. -/
structure queue where
  index : List queue.member
  freelist : List Nat
  used : Nat
  limit : Nat
  deriving DecidableEq, Repr

namespace queue

/-- The constructor `queue::queue(pager, size)`. -/
def init (size : Nat) : queue :=
  { index := [], freelist := [], used := 0, limit := size }

/-- The accessor `queue::getCount`. -/
def getCount (q : queue) : Nat := q.used

/-- The member function `queue::remove(o)`: the scan for the first node holding
`o`, then the unlinking of that node. -/
def remove (q : queue) (o : Nat) : Step queue Bool :=
  match q.index.find? (fun node => node.object == o) with
  | some node =>
    .ret { q with
            used := zdec q.used
            index := OrderedObject.delist queue.member.addr q.index node.addr
            freelist := LinkedObject.enlist q.freelist node.addr }
      true [Event.release node.object]
  | none => .ret q false []

/-- The part of `queue::lifo` after its wait loop. The node taken is the one
`head` points to. -/
def lifo_exit (q : queue) (rtn : Bool) : Step queue (Option Nat) :=
  match rtn, q.index with
  | true, node :: _ =>
    .ret { q with
            used := zdec q.used
            index := OrderedObject.delist queue.member.addr q.index node.addr
            freelist := LinkedObject.enlist q.freelist node.addr }
      (some node.object) [Event.signal]
  | true, [] => .ret q none [Event.signal]
  | false, _ => .ret q none []

/-- The wait loop of `queue::lifo` (`while(!tail && rtn)`). -/
def lifo_loop (q : queue) (timeout : Nat) (rtn : Bool) : Step queue (Option Nat) :=
  if q.index = [] ∧ rtn = true then
    if timeout = Timer.inf then .wait q
    else if timeout ≠ 0 then .wait q
    else lifo_exit q false
  else lifo_exit q rtn

/-- The member function `queue::lifo(timeout)`. -/
def lifo (q : queue) (timeout : Nat) : Step queue (Option Nat) :=
  lifo_loop q timeout true

/-- Continuation of `queue::lifo` when the parked thread is woken. -/
def lifo_resume (q : queue) (timeout : Nat) (signalled : Bool) : Step queue (Option Nat) :=
  lifo_loop q timeout (if timeout = Timer.inf then true else signalled)

/-- The part of `queue::fifo` after its wait loop: `head` advances to the next
node and the old first node goes to the freelist. -/
def fifo_exit (q : queue) (rtn : Bool) : Step queue (Option Nat) :=
  match rtn, q.index with
  | true, node :: rest =>
    .ret { q with
            used := zdec q.used
            index := rest
            freelist := LinkedObject.enlist q.freelist node.addr }
      (some node.object) [Event.signal]
  | true, [] => .ret q none [Event.signal]
  | false, _ => .ret q none []

/-- The wait loop of `queue::fifo` (`while(rtn && !head)`). -/
def fifo_loop (q : queue) (timeout : Nat) (rtn : Bool) : Step queue (Option Nat) :=
  if rtn = true ∧ q.index = [] then
    if timeout = Timer.inf then .wait q
    else if timeout ≠ 0 then .wait q
    else fifo_exit q false
  else fifo_exit q rtn

/-- The member function `queue::fifo(timeout)`. -/
def fifo (q : queue) (timeout : Nat) : Step queue (Option Nat) :=
  fifo_loop q timeout true

/-- Continuation of `queue::fifo` when the parked thread is woken. -/
def fifo_resume (q : queue) (timeout : Nat) (signalled : Bool) : Step queue (Option Nat) :=
  fifo_loop q timeout (if timeout = Timer.inf then true else signalled)

/-- The part of `queue::post` after its wait loop. The node is built in the
first free node when there is one, else in the block `fresh` obtained from the
pager or from the heap; the constructor of `member` links it at the tail and
retains the payload. -/
def post_exit (q : queue) (object fresh : Nat) (rtn : Bool) : Step queue Bool :=
  if rtn = false then .ret q false []
  else
    let q1 := { q with used := zinc q.used }
    match q1.freelist with
    | mem :: rest =>
      .ret { q1 with
              freelist := rest
              index := OrderedObject.enlist q1.index { addr := mem, object := object } }
        true [Event.retain object, Event.signal]
    | [] =>
      .ret { q1 with index := OrderedObject.enlist q1.index { addr := fresh, object := object } }
        true [Event.retain object, Event.signal]

/-- The wait loop of `queue::post` (`while(rtn && limit && used == limit)`). -/
def post_loop (q : queue) (object timeout fresh : Nat) (rtn : Bool) : Step queue Bool :=
  if rtn = true ∧ q.limit ≠ 0 ∧ q.used = q.limit then
    if timeout = Timer.inf then .wait q
    else if timeout ≠ 0 then .wait q
    else post_exit q object fresh false
  else post_exit q object fresh rtn

/-- The member function `queue::post(object, timeout)`. -/
def post (q : queue) (object timeout fresh : Nat) : Step queue Bool :=
  post_loop q object timeout fresh true

/-- Continuation of `queue::post` when the parked thread is woken. -/
def post_resume (q : queue) (object timeout fresh : Nat) (signalled : Bool) : Step queue Bool :=
  post_loop q object timeout fresh (if timeout = Timer.inf then true else signalled)

/-- The counter `used` agrees with the number of enqueued nodes. -/
def counted (q : queue) : Prop := q.used = q.index.length % SIZE_MOD

instance (q : queue) : Decidable q.counted := by
  unfold counted; exact inferInstance

/-- The calls `post(x, 0)` for each `(x, fresh)` of the list, one after the
other: the final queue and the values returned. -/
def postAll : queue → List (Nat × Nat) → Option (queue × List Bool)
  | q, [] => some (q, [])
  | q, (x, fresh) :: rest =>
    match q.post x 0 fresh with
    | .ret q1 r _ => (postAll q1 rest).map (fun p => (p.1, r :: p.2))
    | _ => none

/-- The call `fifo(0)` made `n` times in a row: the final queue and the values
returned. -/
def fifoAll : queue → Nat → Option (queue × List (Option Nat))
  | q, 0 => some (q, [])
  | q, n + 1 =>
    match q.fifo 0 with
    | .ret q1 r _ => (fifoAll q1 n).map (fun p => (p.1, r :: p.2))
    | _ => none

end queue

/-! ## stack -/

/-- A node of a stack, `class stack::member`. -/
structure stack.member where
  addr : Nat
  object : Nat
  deriving DecidableEq, Repr

/-- The data members of `class stack`: the chain of used nodes (top first), the
chain of free nodes, and the two counters. -/
structure stack where
  usedlist : List stack.member
  freelist : List Nat
  used : Nat
  limit : Nat
  deriving DecidableEq, Repr

namespace stack

/-- The constructor `stack::stack(pager, size)`. -/
def init (size : Nat) : stack :=
  { usedlist := [], freelist := [], used := 0, limit := size }

/-- The accessor `stack::getCount`. -/
def getCount (s : stack) : Nat := s.used

/-- The part of `stack::pull` after its wait loop: on `!rtn` it returns NULL,
else the top node is unlinked, put on the freelist, and `signal` is called. -/
def pull_exit (s : stack) (rtn : Bool) : Step stack (Option Nat) :=
  match rtn, s.usedlist with
  | false, _ => .ret s none []
  | true, node :: rest =>
    .ret { s with
            usedlist := rest
            freelist := LinkedObject.enlist s.freelist node.addr }
      (some node.object) [Event.signal]
  | true, [] => .ret s none [Event.signal]

/-- The wait loop of `stack::pull` (`while(rtn && !usedlist)`). -/
def pull_loop (s : stack) (timeout : Nat) (rtn : Bool) : Step stack (Option Nat) :=
  if rtn = true ∧ s.usedlist = [] then
    if timeout = Timer.inf then .wait s
    else if timeout ≠ 0 then .wait s
    else pull_exit s false
  else pull_exit s rtn

/-- The member function `stack::pull(timeout)`. -/
def pull (s : stack) (timeout : Nat) : Step stack (Option Nat) :=
  pull_loop s timeout true

/-- Continuation of `stack::pull` when the parked thread is woken. -/
def pull_resume (s : stack) (timeout : Nat) (signalled : Bool) : Step stack (Option Nat) :=
  pull_loop s timeout (if timeout = Timer.inf then true else signalled)

/-- The part of `stack::push` after its wait loop; the constructor of `member`
links the node in front of `usedlist` and retains the payload. -/
def push_exit (s : stack) (object fresh : Nat) (rtn : Bool) : Step stack Bool :=
  if rtn = false then .ret s false []
  else
    let s1 := { s with used := zinc s.used }
    match s1.freelist with
    | mem :: rest =>
      .ret { s1 with
              freelist := rest
              usedlist := LinkedObject.enlist s1.usedlist { addr := mem, object := object } }
        true [Event.retain object, Event.signal]
    | [] =>
      .ret { s1 with
              usedlist := LinkedObject.enlist s1.usedlist { addr := fresh, object := object } }
        true [Event.retain object, Event.signal]

/-- The wait loop of `stack::push` (`while(rtn && limit && used == limit)`). -/
def push_loop (s : stack) (object timeout fresh : Nat) (rtn : Bool) : Step stack Bool :=
  if rtn = true ∧ s.limit ≠ 0 ∧ s.used = s.limit then
    if timeout = Timer.inf then .wait s
    else if timeout ≠ 0 then .wait s
    else push_exit s object fresh false
  else push_exit s object fresh rtn

/-- The member function `stack::push(object, timeout)`. -/
def push (s : stack) (object timeout fresh : Nat) : Step stack Bool :=
  push_loop s object timeout fresh true

/-- Continuation of `stack::push` when the parked thread is woken. -/
def push_resume (s : stack) (object timeout fresh : Nat) (signalled : Bool) : Step stack Bool :=
  push_loop s object timeout fresh (if timeout = Timer.inf then true else signalled)

end stack

/-! ## rexlock -/

/-- The data members of `class rexlock` (thread.h); `locker` is the `pthread_t`
of the owning thread. -/
structure rexlock where
  waiting : Nat
  lockers : Nat
  locker : Nat
  deriving DecidableEq, Repr

namespace rexlock

/-- The constructor `rexlock::rexlock()`: the two counters are cleared, `locker`
is left as found in memory. -/
def init (locker : Nat) : rexlock :=
  { waiting := 0, lockers := 0, locker := locker }

/-- The accessor `rexlock::getWaiting`. -/
def getWaiting (s : rexlock) : Nat := s.waiting

/-- The accessor `rexlock::getLocking`. -/
def getLocking (s : rexlock) : Nat := s.lockers

/-- The part of `rexlock::lock` after its wait loop: the caller becomes the
owner when the lock is free, and `lockers` is incremented. -/
def lock_exit (self : Nat) (s : rexlock) : Step rexlock Unit :=
  .ret { s with
          locker := if s.lockers = 0 then self else s.locker
          lockers := uinc s.lockers }
    () []

/-- The wait loop of `rexlock::lock`, entered at its test: `while(lockers)`,
left by `break` when the caller is the owner; otherwise the thread registers in
`waiting` and parks. -/
def lock_loop (self : Nat) (s : rexlock) : Step rexlock Unit :=
  if s.lockers ≠ 0 then
    if s.locker = self then lock_exit self s
    else .wait { s with waiting := uinc s.waiting }
  else lock_exit self s

/-- The member function `rexlock::lock()` called by thread `self`. -/
def lock (self : Nat) (s : rexlock) : Step rexlock Unit :=
  lock_loop self s

/-- Continuation of `rexlock::lock` when the parked thread is woken: `--waiting`
runs and the loop test is taken again. -/
def lock_resume (self : Nat) (s : rexlock) : Step rexlock Unit :=
  lock_loop self { s with waiting := udec s.waiting }

/-- The member function `rexlock::release()`: `--lockers`, then one `signal`
when the lock became free and a thread is waiting. The function contains no
assertion. -/
def release (s : rexlock) : Step rexlock Unit :=
  let s1 := { s with lockers := udec s.lockers }
  if s1.lockers = 0 ∧ s1.waiting ≠ 0 then .ret s1 () [Event.signal]
  else .ret s1 () []

/-- A call made on a rexlock. -/
inductive Call where
  | lock
  | release
  deriving DecidableEq, Repr

/-- The calls of `calls` made one after the other by thread `self`; `none` when
one of them parks the thread. -/
def replay (self : Nat) : rexlock → List Call → Option rexlock
  | s, [] => some s
  | s, Call.lock :: rest => (s.lock self).state?.bind (fun s1 => replay self s1 rest)
  | s, Call.release :: rest => s.release.state?.bind (fun s1 => replay self s1 rest)

end rexlock

/-! ## barrier -/

/-- The data members of `class barrier` (thread.h): the number of parties
required and the number arrived. -/
structure barrier where
  count : Nat
  waits : Nat
  deriving DecidableEq, Repr

namespace barrier

/-- The constructor `barrier::barrier(limit)`. -/
def init (limit : Nat) : barrier :=
  { count := limit, waits := 0 }

/-- One pass through the body of the loop `for(;;)` of the destructor
`barrier::~barrier()`: `broadcast` when a party is waiting; the state is not
changed. -/
def destructor_body (s : barrier) : List Event :=
  if s.waits ≠ 0 then [Event.broadcast] else []

/-- The destructor `barrier::~barrier()`. Its loop `for(;;)` has no condition
and its body holds no `break` and no `return`; `fuel` bounds the number of
passes that are run, and the value is the list of events emitted if the
destructor is left within that bound. -/
def destructor : Nat → barrier → List Event → Option (List Event)
  | 0, _, _ => none
  | fuel + 1, s, ev => destructor fuel s (ev ++ destructor_body s)

/-- The events emitted by the first `n` passes of the destructor's loop. -/
def destructor_events (s : barrier) : Nat → List Event
  | 0 => []
  | n + 1 => destructor_events s n ++ destructor_body s

/-- The member function `barrier::set(limit)`. -/
def set (limit : Nat) (s : barrier) : Step barrier Unit :=
  let s1 := { s with count := limit }
  if s1.count ≤ s1.waits then .ret { s1 with waits := 0 } () [Event.broadcast]
  else .ret s1 () []

/-- The member function `barrier::wait()`: it returns at once when `count` is 0;
the party that makes `++waits` reach `count` resets `waits`, broadcasts and
returns; any other party parks in `Conditional::wait`. -/
def wait (s : barrier) : Step barrier Unit :=
  if s.count = 0 then .ret s () []
  else
    let s1 := { s with waits := uinc s.waits }
    if s1.waits ≥ s1.count then .ret { s1 with waits := 0 } () [Event.broadcast]
    else .wait s1

/-- Continuation of `barrier::wait()` when the parked thread is woken: the
function unlocks and returns. -/
def wait_resume (s : barrier) : Step barrier Unit :=
  .ret s () []

/-- The call `wait()` made by `n` parties one after the other, each taken up to
the point where it parks or returns. -/
def arrive : barrier → Nat → Option barrier
  | s, 0 => some s
  | s, n + 1 => s.wait.after?.bind (fun s1 => arrive s1 n)

end barrier

/-! ## semaphore -/

/-- The data members of `class semaphore` (thread.h). -/
structure semaphore where
  count : Nat
  waits : Nat
  used : Nat
  deriving DecidableEq, Repr

namespace semaphore

/-- The constructor `semaphore::semaphore(limit)`. -/
def init (limit : Nat) : semaphore :=
  { count := limit, waits := 0, used := 0 }

/-- The accessor `semaphore::getUsed`. -/
def getUsed (s : semaphore) : Nat := s.used

/-- The accessor `semaphore::getCount`. -/
def getCount (s : semaphore) : Nat := s.count

/-- No more units are handed out than the semaphore has. -/
def bounded (s : semaphore) : Prop := s.used ≤ s.count

instance (s : semaphore) : Decidable s.bounded := by
  unfold bounded; exact inferInstance

/-- The end of `semaphore::request(size, timeout)`: `if(result) used += size`,
the sum being taken in `unsigned`. -/
def request_exit (size : Nat) (s : semaphore) (result : Bool) : Step semaphore Bool :=
  if result = true then .ret { s with used := (s.used + size) % UINT_MOD } true []
  else .ret s false []

/-- The loop `while(used + size > count && result)` of
`semaphore::request(size, timeout)`, entered at its test; `waits` has been
incremented before the loop and is decremented after it. The sum `used + size`
is an `unsigned` sum. -/
def request_loop (size timeout : Nat) (s : semaphore) (result : Bool) : Step semaphore Bool :=
  if (s.used + size) % UINT_MOD > s.count ∧ result = true then
    if timeout = Timer.inf then .wait s
    else if timeout ≠ 0 then .wait s
    else request_exit size { s with waits := udec s.waits } false
  else request_exit size { s with waits := udec s.waits } result

/-- The member function `semaphore::request(size, timeout)`. -/
def request (size timeout : Nat) (s : semaphore) : Step semaphore Bool :=
  if (s.used + size) % UINT_MOD > s.count then
    request_loop size timeout { s with waits := uinc s.waits } true
  else request_exit size s true

/-- Continuation of `semaphore::request(size, timeout)` when the parked thread is
woken. -/
def request_resume (size timeout : Nat) (s : semaphore) (signalled : Bool) :
    Step semaphore Bool :=
  request_loop size timeout s (if timeout = Timer.inf then true else signalled)

/-- The member function `semaphore::wait(timeout)`. -/
def wait_timeout (timeout : Nat) (s : semaphore) : Step semaphore Bool :=
  request 1 timeout s

/-- The loop `while(used >= count)` of `semaphore::wait()`, entered at its test,
followed by `--waits` and `++used`. -/
def wait_loop (s : semaphore) : Step semaphore Unit :=
  if s.used ≥ s.count then .wait s
  else .ret { s with waits := udec s.waits, used := uinc s.used } () []

/-- The member function `semaphore::wait()`. -/
def wait (s : semaphore) : Step semaphore Unit :=
  if s.used ≥ s.count then wait_loop { s with waits := uinc s.waits }
  else .ret { s with used := uinc s.used } () []

/-- Continuation of `semaphore::wait()` when the parked thread is woken. -/
def wait_resume (s : semaphore) : Step semaphore Unit :=
  wait_loop s

/-- The loop `while(used + size > count)` of `semaphore::request(size)`, entered
at its test, followed by `--waits` and `used += size`. -/
def request_blocking_loop (size : Nat) (s : semaphore) : Step semaphore Unit :=
  if (s.used + size) % UINT_MOD > s.count then .wait s
  else .ret { s with waits := udec s.waits, used := (s.used + size) % UINT_MOD } () []

/-- The member function `semaphore::request(size)`, the overload without
timeout. -/
def request_blocking (size : Nat) (s : semaphore) : Step semaphore Unit :=
  if (s.used + size) % UINT_MOD > s.count then
    request_blocking_loop size { s with waits := uinc s.waits }
  else .ret { s with used := (s.used + size) % UINT_MOD } () []

/-- Continuation of `semaphore::request(size)` when the parked thread is woken. -/
def request_blocking_resume (size : Nat) (s : semaphore) : Step semaphore Unit :=
  request_blocking_loop size s

/-- The member function `semaphore::release()`. -/
def release (s : semaphore) : Step semaphore Unit :=
  let s1 := if s.used ≠ 0 then { s with used := udec s.used } else s
  if s1.waits ≠ 0 then .ret s1 () [Event.signal] else .ret s1 () []

/-! ### Threads sharing one semaphore -/

/-- Where a thread stands with respect to the semaphore functions. -/
inductive Pc where
  | idle
  | inWait
  | inRequest (size timeout : Nat)
  | inRequestBlocking (size : Nat)
  deriving DecidableEq, Repr

/-- The semaphore together with the control point of every thread. -/
structure Machine where
  sem : semaphore
  pc : Nat → Pc

/-- One critical section run by thread `t`; `wait(timeout)` is
`request 1 timeout`. -/
inductive Action where
  | wait (t : Nat)
  | waitWake (t : Nat)
  | request (t size timeout : Nat)
  | requestWake (t : Nat) (signalled : Bool)
  | requestBlocking (t size : Nat)
  | requestBlockingWake (t : Nat)
  | release (t : Nat)
  deriving DecidableEq, Repr

/-- A freshly constructed semaphore, no thread inside it. -/
def Machine.init (limit : Nat) : Machine :=
  { sem := semaphore.init limit, pc := fun _ => Pc.idle }

/-- Records the outcome of a critical section of thread `t`. -/
def Machine.settle {α : Type} (m : Machine) (t : Nat) (park : Pc) :
    Step semaphore α → Option Machine
  | .wait s => some { sem := s, pc := Function.update m.pc t park }
  | .ret s _ _ => some { sem := s, pc := Function.update m.pc t Pc.idle }
  | .abort => none

/-- The successor state of an action, when the action is enabled. -/
def Machine.next (m : Machine) : Action → Option Machine
  | .wait t =>
    if m.pc t = Pc.idle then m.settle t Pc.inWait m.sem.wait else none
  | .waitWake t =>
    if m.pc t = Pc.inWait then m.settle t Pc.inWait m.sem.wait_resume else none
  | .request t size timeout =>
    if m.pc t = Pc.idle then
      m.settle t (Pc.inRequest size timeout) (m.sem.request size timeout)
    else none
  | .requestWake t signalled =>
    match m.pc t with
    | Pc.inRequest size timeout =>
      m.settle t (Pc.inRequest size timeout) (m.sem.request_resume size timeout signalled)
    | _ => none
  | .requestBlocking t size =>
    if m.pc t = Pc.idle then
      m.settle t (Pc.inRequestBlocking size) (m.sem.request_blocking size)
    else none
  | .requestBlockingWake t =>
    match m.pc t with
    | Pc.inRequestBlocking size =>
      m.settle t (Pc.inRequestBlocking size) (m.sem.request_blocking_resume size)
    | _ => none
  | .release t =>
    if m.pc t = Pc.idle then m.settle t Pc.idle m.sem.release else none

/-- Runs a schedule of actions from `m`. -/
def Machine.run (m : Machine) : List Action → Option Machine
  | [] => some m
  | a :: rest => (m.next a).bind (fun m1 => Machine.run m1 rest)

end semaphore

/-! ## ConditionalLock -/

/-- The data members of `class ConditionalLock` (thread.h). -/
structure ConditionalLock where
  pending : Nat
  sharing : Nat
  waiting : Nat
  deriving DecidableEq, Repr

namespace ConditionalLock

/-- The constructor `ConditionalLock::ConditionalLock()`. -/
def init : ConditionalLock :=
  { pending := 0, sharing := 0, waiting := 0 }

/-- The accessor `ConditionalLock::getReaders`. -/
def getReaders (s : ConditionalLock) : Nat := s.sharing

/-- The accessor `ConditionalLock::getWaiters`. -/
def getWaiters (s : ConditionalLock) : Nat := (s.pending + s.waiting) % UINT_MOD

/-- The wait loop `while(sharing)` of `ConditionalLock::modify`, entered at its
test. The function returns without unlocking the mutex. -/
def modify_loop (s : ConditionalLock) : Step ConditionalLock Unit :=
  if s.sharing ≠ 0 then .wait { s with pending := uinc s.pending }
  else .ret s () []

/-- The member function `ConditionalLock::modify()`. -/
def modify (s : ConditionalLock) : Step ConditionalLock Unit :=
  modify_loop s

/-- Continuation of `ConditionalLock::modify` when the parked thread is woken. -/
def modify_resume (s : ConditionalLock) : Step ConditionalLock Unit :=
  modify_loop { s with pending := udec s.pending }

/-- The member function `ConditionalLock::commit()`, called with the mutex held:
it wakes the waiting threads and unlocks. -/
def commit (s : ConditionalLock) : Step ConditionalLock Unit :=
  if s.waiting ≠ 0 then .ret s () [Event.broadcast]
  else if s.pending ≠ 0 then .ret s () [Event.signal]
  else .ret s () []

/-- The member function `ConditionalLock::release()`. -/
def release (s : ConditionalLock) : Step ConditionalLock Unit :=
  if s.sharing = 0 then .abort
  else
    let s1 := { s with sharing := udec s.sharing }
    if s1.waiting ≠ 0 ∧ (s1.pending = 0 ∨ s1.sharing = 0) then .ret s1 () [Event.broadcast]
    else if s1.pending ≠ 0 ∧ s1.sharing = 0 then .ret s1 () [Event.signal]
    else .ret s1 () []

/-- The wait loop `while(pending && !sharing)` of `ConditionalLock::protect`,
entered at its test, followed by `++sharing`. -/
def protect_loop (s : ConditionalLock) : Step ConditionalLock Unit :=
  if s.pending ≠ 0 ∧ s.sharing = 0 then .wait { s with waiting := uinc s.waiting }
  else .ret { s with sharing := uinc s.sharing } () []

/-- The member function `ConditionalLock::protect()`. -/
def protect (max_sharing : Nat) (s : ConditionalLock) : Step ConditionalLock Unit :=
  if max_sharing ≠ 0 ∧ ¬ s.sharing < max_sharing then .abort
  else protect_loop s

/-- Continuation of `ConditionalLock::protect` when the parked thread is woken. -/
def protect_resume (s : ConditionalLock) : Step ConditionalLock Unit :=
  protect_loop { s with waiting := udec s.waiting }

/-- The wait loop `while(pending)` of `ConditionalLock::access`, entered at its
test, followed by `++sharing`. -/
def access_loop (s : ConditionalLock) : Step ConditionalLock Unit :=
  if s.pending ≠ 0 then .wait { s with waiting := uinc s.waiting }
  else .ret { s with sharing := uinc s.sharing } () []

/-- The member function `ConditionalLock::access()`. -/
def access (max_sharing : Nat) (s : ConditionalLock) : Step ConditionalLock Unit :=
  if max_sharing ≠ 0 ∧ ¬ s.sharing < max_sharing then .abort
  else access_loop s

/-- Continuation of `ConditionalLock::access` when the parked thread is woken. -/
def access_resume (s : ConditionalLock) : Step ConditionalLock Unit :=
  access_loop { s with waiting := udec s.waiting }

/-- The wait loop `while(sharing)` of `ConditionalLock::exclusive`, entered at
its test. The function returns without unlocking the mutex. -/
def exclusive_loop (s : ConditionalLock) : Step ConditionalLock Unit :=
  if s.sharing ≠ 0 then .wait { s with pending := uinc s.pending }
  else .ret s () []

/-- The member function `ConditionalLock::exclusive()`: `assert(sharing)`, then the
caller's own hold is withdrawn (`--sharing`) and the other sharers are awaited. -/
def exclusive (s : ConditionalLock) : Step ConditionalLock Unit :=
  if s.sharing = 0 then .abort
  else exclusive_loop { s with sharing := udec s.sharing }

/-- Continuation of `ConditionalLock::exclusive` when the parked thread is woken. -/
def exclusive_resume (s : ConditionalLock) : Step ConditionalLock Unit :=
  exclusive_loop { s with pending := udec s.pending }

/-- The member function `ConditionalLock::share()`, called with the mutex held:
`assert(!sharing)`, `++sharing`, unlock. -/
def share (s : ConditionalLock) : Step ConditionalLock Unit :=
  if s.sharing ≠ 0 then .abort
  else .ret { s with sharing := uinc s.sharing } () []

/-! ### Threads sharing one ConditionalLock

`modify` and `exclusive` return with the mutex of the `Conditional` base still
locked; `commit` and `share` unlock it. The mutex is therefore part of the
state: the other functions start with `lock()`, and a woken thread has to take
the mutex again, so none of them runs while a thread holds the mutex. -/

/-- Where a thread stands: outside the lock functions, parked at a wait point,
or between `modify` and `commit` (`modifying`), or between `exclusive` and
`share` (`converted`), holding the mutex. -/
inductive Pc where
  | idle
  | inProtect
  | inAccess
  | inModify
  | inExclusive
  | modifying
  | converted
  deriving DecidableEq, Repr

/-- The lock, the holder of its mutex between critical sections, and the control
point of every thread. -/
structure Machine where
  lock : ConditionalLock
  mutex : Option Nat
  pc : Nat → Pc

/-- One critical section run by thread `t`. -/
inductive Action where
  | protect (t : Nat)
  | protectWake (t : Nat)
  | access (t : Nat)
  | accessWake (t : Nat)
  | release (t : Nat)
  | modify (t : Nat)
  | modifyWake (t : Nat)
  | commit (t : Nat)
  | exclusive (t : Nat)
  | exclusiveWake (t : Nat)
  | share (t : Nat)
  deriving DecidableEq, Repr

/-- A freshly constructed lock, its mutex free, no thread inside it. -/
def Machine.init : Machine :=
  { lock := ConditionalLock.init, mutex := none, pc := fun _ => Pc.idle }

/-- Records the outcome of a critical section of thread `t` that ends with the
mutex unlocked: the thread parks at `park`, or it has returned. -/
def Machine.settle (m : Machine) (t : Nat) (park : Pc) :
    Step ConditionalLock Unit → Option Machine
  | .wait s => some { lock := s, mutex := none, pc := Function.update m.pc t park }
  | .ret s _ _ => some { lock := s, mutex := none, pc := Function.update m.pc t Pc.idle }
  | .abort => none

/-- Records the outcome of a critical section of thread `t` of a function that
returns with the mutex locked: the thread parks at `park` (the mutex is free
while it waits), or it has returned and is at `held` with the mutex. -/
def Machine.settleHeld (m : Machine) (t : Nat) (park held : Pc) :
    Step ConditionalLock Unit → Option Machine
  | .wait s => some { lock := s, mutex := none, pc := Function.update m.pc t park }
  | .ret s _ _ => some { lock := s, mutex := some t, pc := Function.update m.pc t held }
  | .abort => none

/-- The successor state of an action, when the action is enabled. -/
def Machine.next (max_sharing : Nat) (m : Machine) : Action → Option Machine
  | .protect t =>
    if m.mutex = none ∧ m.pc t = Pc.idle then
      m.settle t Pc.inProtect (m.lock.protect max_sharing)
    else none
  | .protectWake t =>
    if m.mutex = none ∧ m.pc t = Pc.inProtect then
      m.settle t Pc.inProtect m.lock.protect_resume
    else none
  | .access t =>
    if m.mutex = none ∧ m.pc t = Pc.idle then
      m.settle t Pc.inAccess (m.lock.access max_sharing)
    else none
  | .accessWake t =>
    if m.mutex = none ∧ m.pc t = Pc.inAccess then
      m.settle t Pc.inAccess m.lock.access_resume
    else none
  | .release t =>
    if m.mutex = none ∧ m.pc t = Pc.idle then m.settle t Pc.idle m.lock.release else none
  | .modify t =>
    if m.mutex = none ∧ m.pc t = Pc.idle then
      m.settleHeld t Pc.inModify Pc.modifying m.lock.modify
    else none
  | .modifyWake t =>
    if m.mutex = none ∧ m.pc t = Pc.inModify then
      m.settleHeld t Pc.inModify Pc.modifying m.lock.modify_resume
    else none
  | .commit t =>
    if m.mutex = some t ∧ (m.pc t = Pc.modifying ∨ m.pc t = Pc.converted) then
      m.settle t Pc.idle m.lock.commit
    else none
  | .exclusive t =>
    if m.mutex = none ∧ m.pc t = Pc.idle then
      m.settleHeld t Pc.inExclusive Pc.converted m.lock.exclusive
    else none
  | .exclusiveWake t =>
    if m.mutex = none ∧ m.pc t = Pc.inExclusive then
      m.settleHeld t Pc.inExclusive Pc.converted m.lock.exclusive_resume
    else none
  | .share t =>
    if m.mutex = some t ∧ (m.pc t = Pc.modifying ∨ m.pc t = Pc.converted) then
      m.settle t Pc.idle m.lock.share
    else none

/-- Runs a schedule of actions from `m`. -/
def Machine.run (max_sharing : Nat) (m : Machine) : List Action → Option Machine
  | [] => some m
  | a :: rest => (m.next max_sharing a).bind (fun m1 => Machine.run max_sharing m1 rest)

/-- A thread that is between `modify` and `commit` or between `exclusive` and
`share` holds the mutex, and no sharer is counted. -/
def Machine.held (m : Machine) : Prop :=
  ∀ t, (m.pc t = Pc.modifying ∨ m.pc t = Pc.converted) → m.mutex = some t ∧ m.lock.sharing = 0

end ConditionalLock

/-! ## Sequences of calls -/

/-- Runs `k` from the state in which `st` returned and joins the events of the
two; a call that parks or aborts ends the sequence there. -/
def Step.seq {σ α β : Type} (st : Step σ α) (k : σ → Step σ β) : Step σ β :=
  match st with
  | .ret s _ ev =>
    match k s with
    | .ret s1 r ev1 => .ret s1 r (ev ++ ev1)
    | .wait s1 => .wait s1
    | .abort => .abort
  | .wait s => .wait s
  | .abort => .abort

/-- The member function `semaphore::release(size)`: `while(size--) release();`,
the calls of `release()` taken one after the other. -/
def semaphore.release_n : Nat → semaphore → Step semaphore Unit
  | 0, s => .ret s () []
  | n + 1, s => (semaphore.release s).seq (semaphore.release_n n)

/-! ## Buffer

Addresses (`caddr_t`) are natural numbers, 0 being NULL; the block obtained
from `malloc` is the list `store` of its bytes, the byte at address `buf + i`
being `store[i]`. A store through a pointer that does not lie inside the block
ends the call abnormally (outcome `abort`). -/

/-- The data members of `class Buffer` (thread.h), with the bytes of the block
that `buf` points to. -/
structure Buffer where
  size : Nat
  objsize : Nat
  buf : Nat
  head : Nat
  tail : Nat
  count : Nat
  limit : Nat
  store : List Nat
  deriving DecidableEq, Repr

namespace Buffer

/-- The constructor `Buffer::Buffer(osize, c)`. Its first statement is
`size = osize * count`, which reads the member `count` before the constructor
has given it a value: `count0` is the value found there. `block` is the address
returned by `malloc(size)` (the program is aborted by `crit` when it is NULL);
the content of the fresh block is taken as zero bytes. -/
def init (osize c count0 block : Nat) : Buffer :=
  let size := (osize * count0) % SIZE_MOD
  let buf := if osize ≠ 0 then block else 0
  { size := size, objsize := osize, buf := buf, head := buf, tail := buf,
    count := 0, limit := c % UINT_MOD, store := List.replicate size 0 }

/-- The accessor `Buffer::getCount`, computed from the cursors: pointer
differences are signed, and are converted to `size_t` for the division by
`objsize`; the quotient is converted to `unsigned`. -/
def getCount (s : Buffer) : Nat :=
  if s.tail > s.head then ((s.tail - s.head) / s.objsize) % UINT_MOD
  else if s.head > s.tail then
    ((((s.buf + s.size : Int) - s.head) + ((s.tail : Int) - s.buf)) % SIZE_MOD).toNat
      / s.objsize % UINT_MOD
  else 0

/-- The accessor `Buffer::getSize`: `size / objsize` as an `unsigned` (the
division is undefined in C when `objsize` is 0). -/
def getSize (s : Buffer) : Nat := (s.size / s.objsize) % UINT_MOD

/-- The `objsize` bytes stored at address `p` of the block. -/
def slot (s : Buffer) (p : Nat) : List Nat :=
  (s.store.drop (p - s.buf)).take s.objsize

/-- The wait loop `while(!count)` of `Buffer::get()`, entered at its test; the
value returned is `head`. -/
def get_loop (s : Buffer) : Step Buffer Nat :=
  if s.count = 0 then .wait s else .ret s s.head []

/-- The member function `Buffer::get()`. -/
def get (s : Buffer) : Step Buffer Nat :=
  get_loop s

/-- Continuation of `Buffer::get()` when the parked thread is woken. -/
def get_resume (s : Buffer) : Step Buffer Nat :=
  get_loop s

/-- The part of `Buffer::get(timeout)` after its wait loop: `head` when
`count && rtn`, else NULL. -/
def get_timeout_exit (s : Buffer) (rtn : Bool) : Step Buffer Nat :=
  if s.count ≠ 0 ∧ rtn = true then .ret s s.head [] else .ret s 0 []

/-- The wait loop `while(!count && rtn)` of `Buffer::get(timeout)`. -/
def get_timeout_loop (s : Buffer) (timeout : Nat) (rtn : Bool) : Step Buffer Nat :=
  if s.count = 0 ∧ rtn = true then
    if timeout = Timer.inf then .wait s
    else if timeout ≠ 0 then .wait s
    else get_timeout_exit s false
  else get_timeout_exit s rtn

/-- The member function `Buffer::get(timeout)`. -/
def get_timeout (s : Buffer) (timeout : Nat) : Step Buffer Nat :=
  get_timeout_loop s timeout true

/-- Continuation of `Buffer::get(timeout)` when the parked thread is woken. -/
def get_timeout_resume (s : Buffer) (timeout : Nat) (signalled : Bool) : Step Buffer Nat :=
  get_timeout_loop s timeout (if timeout = Timer.inf then true else signalled)

/-- The member function `Buffer::release()`: `head` advances by `objsize` and
goes back to `buf` at the end of the block; `--count`; `signal`. -/
def release (s : Buffer) : Step Buffer Unit :=
  let h1 := s.head + s.objsize
  .ret { s with
          head := if h1 ≥ s.buf + s.size then s.buf else h1
          count := udec s.count }
    () [Event.signal]

/-- The effect of `memcpy(p, dbuf, n)` on the block: the `n` bytes at offset `off`
are replaced by the first `n` bytes of `data`. -/
def memcpy (store : List Nat) (off n : Nat) (data : List Nat) : List Nat :=
  store.take off ++ (List.range n).map (fun i => data.getD i 0) ++ store.drop (off + n)

/-- The statements of `Buffer::put` that store an element, returning `r`:
`memcpy(tail, dbuf, objsize); tail += objsize; if(tail >= buf + size) tail = 0;
++count; signal();`. The copy faults when its target is not inside the block. -/
def put_store {α : Type} (s : Buffer) (data : List Nat) (r : α) : Step Buffer α :=
  if s.objsize ≠ 0 ∧ ¬ (s.buf ≤ s.tail ∧ s.tail + s.objsize ≤ s.buf + s.store.length) then
    .abort
  else
    let t1 := s.tail + s.objsize
    .ret { s with
            store := memcpy s.store (s.tail - s.buf) s.objsize data
            tail := if t1 ≥ s.buf + s.size then 0 else t1
            count := uinc s.count }
      r [Event.signal]

/-- The wait loop `while(count == limit)` of `Buffer::put(dbuf)`, entered at its
test, followed by the store. -/
def put_loop (s : Buffer) (data : List Nat) : Step Buffer Unit :=
  if s.count = s.limit then .wait s else put_store s data ()

/-- The member function `Buffer::put(dbuf)`; `data` are the bytes at `dbuf`. -/
def put (s : Buffer) (data : List Nat) : Step Buffer Unit :=
  put_loop s data

/-- Continuation of `Buffer::put(dbuf)` when the parked thread is woken. -/
def put_resume (s : Buffer) (data : List Nat) : Step Buffer Unit :=
  put_loop s data

/-- The part of `Buffer::put(dbuf, timeout)` after its wait loop: the store is
made when `rtn && count < limit`; `rtn` is returned. -/
def put_timeout_exit (s : Buffer) (data : List Nat) (rtn : Bool) : Step Buffer Bool :=
  if rtn = true ∧ s.count < s.limit then put_store s data rtn
  else .ret s rtn []

/-- The wait loop `while(count == limit && rtn)` of `Buffer::put(dbuf, timeout)`. -/
def put_timeout_loop (s : Buffer) (data : List Nat) (timeout : Nat) (rtn : Bool) :
    Step Buffer Bool :=
  if s.count = s.limit ∧ rtn = true then
    if timeout = Timer.inf then .wait s
    else if timeout ≠ 0 then .wait s
    else put_timeout_exit s data false
  else put_timeout_exit s data rtn

/-- The member function `Buffer::put(dbuf, timeout)`. -/
def put_timeout (s : Buffer) (data : List Nat) (timeout : Nat) : Step Buffer Bool :=
  put_timeout_loop s data timeout true

/-- Continuation of `Buffer::put(dbuf, timeout)` when the parked thread is
woken. -/
def put_timeout_resume (s : Buffer) (data : List Nat) (timeout : Nat) (signalled : Bool) :
    Step Buffer Bool :=
  put_timeout_loop s data timeout (if timeout = Timer.inf then true else signalled)

end Buffer

/-! ## PooledThread -/

/-- The counters of `class PooledThread` (thread.h): the target number of
workers, the number of active workers, and the number of workers parked on the
conditional. -/
structure PooledThread where
  poolsize : Nat
  poolused : Nat
  waits : Nat
  deriving DecidableEq, Repr

namespace PooledThread

/-- The constructor `PooledThread::PooledThread(size)`. -/
def init : PooledThread :=
  { poolsize := 0, poolused := 0, waits := 0 }

/-- The member function `PooledThread::sync()`: it returns at once when fewer
than two workers are active; the worker that makes `++waits` equal to
`poolused` broadcasts and resets `waits`; any other worker parks. -/
def sync (s : PooledThread) : Step PooledThread Unit :=
  if s.poolused < 2 then .ret s () []
  else
    let s1 := { s with waits := uinc s.waits }
    if s1.waits = s1.poolused then .ret { s1 with waits := 0 } () [Event.broadcast]
    else .wait s1

/-- Continuation of `PooledThread::sync()` when the parked worker is woken. -/
def sync_resume (s : PooledThread) : Step PooledThread Unit :=
  .ret s () []

/-- The member function `PooledThread::suspend()`: `++waits`, then the worker
parks. -/
def suspend (s : PooledThread) : Step PooledThread Unit :=
  .wait { s with waits := uinc s.waits }

/-- Continuation of `PooledThread::suspend()` when the parked worker is woken:
`--waits`. -/
def suspend_resume (s : PooledThread) : Step PooledThread Unit :=
  .ret { s with waits := udec s.waits } () []

/-- The member function `PooledThread::suspend(timeout)`: `++waits`, then the
worker parks in the timed wait. -/
def suspend_timeout (s : PooledThread) : Step PooledThread Bool :=
  .wait { s with waits := uinc s.waits }

/-- Continuation of `PooledThread::suspend(timeout)`: `--waits`; the value of
the timed wait is returned. -/
def suspend_timeout_resume (s : PooledThread) (signalled : Bool) : Step PooledThread Bool :=
  .ret { s with waits := udec s.waits } signalled []

/-- The pool after one suspended worker has resumed (the state left by
`suspend_resume`). -/
def resumed (s : PooledThread) : PooledThread :=
  { s with waits := udec s.waits }

/-- The loop of `PooledThread::wakeup(limit)`, entered at its test with the
local `waiting` and the events emitted so far. One pass signals, gives up the
mutex, yields and takes the mutex again; `yield` is what the other threads do
to the counters in the meantime. `fuel` bounds the number of tests made; the
value is `none` when the loop is still running at that bound. -/
def wakeup_loop (yield : PooledThread → PooledThread) (limit : Nat) :
    Nat → PooledThread → Nat → List Event → Option (PooledThread × Nat × List Event)
  | 0, _, _, _ => none
  | fuel + 1, s, waiting, ev =>
    if s.waits ≥ limit then
      wakeup_loop yield limit fuel (yield s) (uinc waiting) (ev ++ [Event.signal])
    else some (s, waiting, ev)

/-- The member function `PooledThread::wakeup(limit)`: the final counters, the
value returned and the events emitted, when the loop is left within `fuel`
tests. -/
def wakeup (yield : PooledThread → PooledThread) (limit fuel : Nat) (s : PooledThread) :
    Option (PooledThread × Nat × List Event) :=
  wakeup_loop yield limit fuel s 0 []

/-- The call `sync()` made by `n` workers one after the other, each taken up to
the point where it parks or returns. -/
def rendezvous : PooledThread → Nat → Option PooledThread
  | s, 0 => some s
  | s, n + 1 => s.sync.after?.bind (fun s1 => rendezvous s1 n)

end PooledThread

/-! ## Reference counted objects and LockedPointer -/

/-- Modelled from the spec: `class Object` (ucommon/object.h) is not among the
sources. It is the external reference-counted object abstraction of section 6:
`retain()` adds one reference to the object and `release()` drops one. The
function gives the reference counts after an event from the counts before
it. -/
def Object.count (refs : Nat → Nat) : Event → Nat → Nat
  | .retain o => Function.update refs o (refs o + 1)
  | .release o => Function.update refs o (refs o - 1)
  | _ => refs

/-- The reference counts after a list of events. -/
def Object.counts (refs : Nat → Nat) (evs : List Event) : Nat → Nat :=
  evs.foldl Object.count refs

/-- The data member `pointer` of `class LockedPointer` (thread.h); `none` is
NULL. -/
structure LockedPointer where
  pointer : Option Nat
  deriving DecidableEq, Repr

namespace LockedPointer

/-- The constructor `LockedPointer::LockedPointer()`. -/
def init : LockedPointer :=
  { pointer := none }

/-- The member function `LockedPointer::replace(obj)`: `obj->retain()`, then the
previous pointee, if any, is released, then `pointer = obj`. -/
def replace (obj : Nat) (p : LockedPointer) : Step LockedPointer Unit :=
  match p.pointer with
  | some old => .ret { pointer := some obj } () [Event.retain obj, Event.release old]
  | none => .ret { pointer := some obj } () [Event.retain obj]

/-- The member function `LockedPointer::dup()`: the pointee is retained, if
there is one, and returned. -/
def dup (p : LockedPointer) : Step LockedPointer (Option Nat) :=
  match p.pointer with
  | some o => .ret p (some o) [Event.retain o]
  | none => .ret p none []

/-- The calls `replace(obj)` for the objects of the list, one after the
other. -/
def replaceAll : List Nat → LockedPointer → Step LockedPointer Unit
  | [], p => .ret p () []
  | obj :: rest, p => (replace obj p).seq (replaceAll rest)

end LockedPointer

/-! ## SharedPointer and shared_release -/

/-- The state of `class SharedPointer` (thread.h): the `ConditionalLock` base
and the data member `pointer` (`none` is NULL). -/
structure SharedPointer where
  lock : ConditionalLock
  pointer : Option Nat
  deriving DecidableEq, Repr

namespace SharedPointer

/-- The constructor `SharedPointer::SharedPointer()`. -/
def init : SharedPointer :=
  { lock := ConditionalLock.init, pointer := none }

/-- Carries an outcome of a function of the `ConditionalLock` base over to the
`SharedPointer`, returning `r`. -/
def lift {α : Type} (p : SharedPointer) (r : α) : Step ConditionalLock Unit → Step SharedPointer α
  | .wait l => .wait { p with lock := l }
  | .ret l _ ev => .ret { p with lock := l } r ev
  | .abort => .abort

/-- The member function `SharedPointer::share()`: `ConditionalLock::access()`,
then `pointer` is returned. -/
def share (max_sharing : Nat) (p : SharedPointer) : Step SharedPointer (Option Nat) :=
  p.lift p.pointer (p.lock.access max_sharing)

/-- Continuation of `SharedPointer::share()` when the thread parked in `access`
is woken. -/
def share_resume (p : SharedPointer) : Step SharedPointer (Option Nat) :=
  p.lift p.pointer p.lock.access_resume

end SharedPointer

/-- The data member `ptr` of `class shared_release` (thread.h): the address of
the SharedPointer the guard is bound to, `none` being NULL. -/
structure shared_release where
  ptr : Option Nat
  deriving DecidableEq, Repr

namespace shared_release

/-- Pairs the guard `g` with an outcome on the SharedPointer it is bound to. -/
def bind {α : Type} (g : shared_release) :
    Step SharedPointer α → Step (shared_release × SharedPointer) Unit
  | .wait p => .wait (g, p)
  | .ret p _ ev => .ret (g, p) () ev
  | .abort => .abort

/-- The default constructor `shared_release::shared_release()`. -/
def init : shared_release :=
  { ptr := none }

/-- The constructor `shared_release::shared_release(SharedPointer &p)`, `addr`
being the address of `p`: `ptr = &p; p.share();`. -/
def construct (max_sharing addr : Nat) (p : SharedPointer) :
    Step (shared_release × SharedPointer) Unit :=
  bind { ptr := some addr } (p.share max_sharing)

/-- The copy constructor `shared_release::shared_release(const shared_release &)`:
`ptr = copy.ptr`. -/
def copy (g : shared_release) : shared_release :=
  { ptr := g.ptr }

/-- The member function `shared_release::release()`, `p` being the SharedPointer
that `ptr` points to when it is not NULL: `if(ptr) ptr->release(); ptr = NULL;`. -/
def release (g : shared_release) (p : SharedPointer) :
    Step (shared_release × SharedPointer) Unit :=
  match g.ptr with
  | some _ => bind { ptr := none } (p.lift () p.lock.release)
  | none => .ret ({ ptr := none }, p) () []

/-- The destructor `shared_release::~shared_release()`: it calls `release()`. -/
def destructor (g : shared_release) (p : SharedPointer) :
    Step (shared_release × SharedPointer) Unit :=
  release g p

end shared_release

/-! ## Conditional::gettimeout and the timed barrier wait -/

/-- The fields of `struct timespec`: seconds and nanoseconds. Both are natural
numbers here; the values met stay far below the range of `time_t` and `long`. -/
structure timespec where
  tv_sec : Nat
  tv_nsec : Nat
  deriving DecidableEq, Repr

/-- The loop `while(ts->tv_nsec > 1000000000l) { ++ts->tv_sec;
ts->tv_nsec -= 1000000000l; }` of `Conditional::gettimeout`. -/
def Conditional.gettimeout_loop (ts : timespec) : timespec :=
  if 1000000000 < ts.tv_nsec then
    Conditional.gettimeout_loop { tv_sec := ts.tv_sec + 1, tv_nsec := ts.tv_nsec - 1000000000 }
  else ts
termination_by ts.tv_nsec
decreasing_by simp_wf; omega

/-- The static member function `Conditional::gettimeout(msec, ts)`, `now` being
the time the clock reports (`clock_gettime`, or `gettimeofday` with
`tv_usec * 1000`): the seconds and the milliseconds of `msec` are added, then
the loop carries whole seconds out of `tv_nsec`. -/
def Conditional.gettimeout (now : timespec) (msec : Nat) : timespec :=
  Conditional.gettimeout_loop
    { tv_sec := now.tv_sec + msec / 1000, tv_nsec := now.tv_nsec + (msec % 1000) * 1000000 }

/-- The instant a `timespec` denotes, in nanoseconds. -/
def timespec.nanos (ts : timespec) : Nat := ts.tv_sec * 1000000000 + ts.tv_nsec

/-- The member function `barrier::wait(timeout)`: as `barrier::wait()`, but it
returns `true` where that one returns, and the parked party is in the timed
wait `Conditional::wait(timeout)`. -/
def barrier.wait_timeout (s : barrier) : Step barrier Bool :=
  if s.count = 0 then .ret s true []
  else
    let s1 := { s with waits := uinc s.waits }
    if s1.waits ≥ s1.count then .ret { s1 with waits := 0 } true [Event.broadcast]
    else .wait s1

/-- Continuation of `barrier::wait(timeout)` when the timed wait ends,
`signalled` being its value (`false` when the timeout elapsed): the function
unlocks and returns that value. -/
def barrier.wait_timeout_resume (s : barrier) (signalled : Bool) : Step barrier Bool :=
  .ret s signalled []

/-! ## shell::parse (shell.cpp)

Characters are byte values. An item pointer is an index into the copy of the
parsed string that `mempager::dup` makes; a read or a write outside that copy
is a fault. -/

/-- The result of `shell::parse`: the data members `_argc` and `_argv` (the
array of item pointers, closed by NULL, which is `none`), and the memory the
items point into. -/
structure shell where
  _argc : Nat
  _argv : List (Option Nat)
  mem : List Nat
  deriving DecidableEq, Repr

namespace shell

/-- The function `isspace` of the C locale: space, and the controls from
horizontal tab (9) to carriage return (13). -/
def isspace (c : Nat) : Bool := c == 32 || (9 ≤ c && c ≤ 13)

/-- The locals of `shell::parse` together with `_argc` and the chain of `args`
from `first` to `last` (the item pointers, in order). -/
structure parse_state where
  mem : List Nat
  cp : Nat
  quote : Nat
  active : Bool
  _argc : Nat
  items : List Nat
  deriving DecidableEq, Repr

/-- The code at the label `inactive`: `active = false; *(cp++) = 0;`. -/
def inactive (st : parse_state) : parse_state :=
  { st with active := false, mem := st.mem.set st.cp 0, cp := st.cp + 1 }

/-- The code at the label `argument`: `++_argc; active = true;`, a new `args`
with `item = (cp++)` is linked after `last`. -/
def argument (st : parse_state) : parse_state :=
  { st with _argc := st._argc + 1, active := true, items := st.items ++ [st.cp], cp := st.cp + 1 }

/-- The last two statements of the loop body of `shell::parse`: the test that
opens an unquoted argument, and `++cp`. -/
def parse_tail (st : parse_state) (c : Nat) : parse_state :=
  if isspace c = false ∧ st.active = false then argument st
  else { st with cp := st.cp + 1 }

/-- One pass through the body of the loop `while(*cp)` of `shell::parse`, `c`
being `*cp`; the tests are those of the source, in its order (39 is the single
quote, 34 the double quote). The value is `none` when `cp[1]` is read outside
the copy. -/
def parse_pass (st : parse_state) (c : Nat) : Option parse_state :=
  if isspace c = true ∧ st.active = true ∧ st.quote = 0 then some (inactive st)
  else if c = 39 ∧ st.active = false then some (argument { st with quote := c })
  else if c = 34 ∧ st.active = false then
    some (argument { st with quote := c, cp := st.cp + 1 })
  else if c = st.quote ∧ st.active = true then
    if st.quote = 34 then some (inactive st)
    else
      match st.mem.get? (st.cp + 1) with
      | none => none
      | some d =>
        if isspace d = true then some (inactive { st with cp := st.cp + 1 })
        else some (parse_tail st c)
  else some (parse_tail st c)

/-- The loop `while(*cp)` of `shell::parse`. Each pass moves `cp` forward, so
the loop is left after at most as many passes as the copy has bytes; `fuel`
bounds the number of tests made and the value is `none` when the loop is still
running at that bound. The loop faults when `*cp` is read outside the copy. -/
def parse_loop : Nat → parse_state → Option (Step parse_state Unit)
  | 0, _ => none
  | fuel + 1, st =>
    match st.mem.get? st.cp with
    | none => some .abort
    | some c =>
      if c = 0 then some (.ret st () [])
      else
        match parse_pass st c with
        | none => some .abort
        | some st1 => parse_loop fuel st1

/-- The member function `shell::collapse()`: the item pointers of the chain are
copied into the array `_argv`, which is closed by NULL. -/
def collapse (st : parse_state) : shell :=
  { _argc := st._argc, _argv := st.items.map some ++ [none], mem := st.mem }

/-- The member function `shell::parse(string)`, `string` being the bytes before
the terminating 0: the copy is the string with its terminator, and the loop is
given one test for each byte of the copy. The value returned is `_argv`. -/
def parse (string : List Nat) : Option (Step shell (List (Option Nat))) :=
  (parse_loop (string.length + 1)
      { mem := string ++ [0], cp := 0, quote := 0, active := false, _argc := 0, items := [] }).map
    (fun r =>
      match r with
      | .ret st _ ev => .ret (collapse st) (collapse st)._argv ev
      | .wait st => .wait (collapse st)
      | .abort => .abort)

/-- The C string that starts at index `p` of `mem`: the bytes up to the first 0. -/
def cstr (mem : List Nat) (p : Nat) : List Nat :=
  (mem.drop p).takeWhile (fun c => c != 0)

/-- The arguments of a parsed shell: the strings that the pointers of `_argv`
before its first NULL point to. -/
def arguments (s : shell) : List (List Nat) :=
  (s._argv.takeWhile Option.isSome).filterMap (fun p => p.map (cstr s.mem))

/-- The arguments that `shell::parse(string)` produces, when it returns. -/
def parsed (string : List Nat) : Option (Nat × List (List Nat)) :=
  match parse string with
  | some (.ret s _ _) => some (s._argc, s.arguments)
  | _ => none

/-- The bytes of a string of ASCII characters. -/
def bytes (s : String) : List Nat := s.toList.map Char.toNat

end shell

/-! ## The typed wrappers queueof, stackof and bufferof (thread.h) -/

/-- The member function `queueof<T>::post(obj, timeout)`, whose body is
`return queue::post(obj);`: the call names one argument, so the default
argument `timeout = 0` of `queue::post` is what the queue receives. -/
def queueof.post (q : queue) (obj timeout fresh : Nat) : Step queue Bool :=
  let _ := timeout
  queue.post q obj 0 fresh

/-- The member function `stackof<T>::push(obj, timeout)`, whose body is
`return stack::push(obj);`: the default argument `timeout = 0` of `stack::push`
is what the stack receives. -/
def stackof.push (s : stack) (obj timeout fresh : Nat) : Step stack Bool :=
  let _ := timeout
  stack.push s obj 0 fresh

/-- The member function `bufferof<T>::get()`, whose body is
`return static_cast<T*>(get());`. The name `get` is looked up in the scope of
`bufferof` first, where the two overloads declared there hide those of
`Buffer`; without an argument the call selects `bufferof<T>::get()` itself.
`depth` bounds the number of nested calls; the value is `none` when the
innermost call has not returned at that depth. -/
def bufferof.get : Nat → Buffer → Option (Step Buffer Nat)
  | 0, _ => none
  | depth + 1, s => bufferof.get depth s

/-- The member function `bufferof<T>::put(obj)`, whose body is `put(obj);`: the
call selects `bufferof<T>::put(T *)` itself. `depth` bounds the number of
nested calls. -/
def bufferof.put : Nat → Buffer → List Nat → Option (Step Buffer Unit)
  | 0, _, _ => none
  | depth + 1, s, obj => bufferof.put depth s obj

/-! ## ReusableAllocator

The heap is a map from addresses to pointer-sized words; address 0 is NULL,
and a load or a store through it is a fault. -/

/-- Modelled from the spec: `LinkedObject::enlist(LinkedObject **root)` is
defined in linked.cpp, which is not among the sources. It links the object in
front of the chain that starts at the pointer `*root`: `next = *root;
*root = this;`. `next_offset` is the offset of the member `next` in the object
(it follows the virtual table pointer). The value is `none` when `root` is
NULL. -/
def LinkedObject.enlist_heap (next_offset : Nat) (heap : Nat → Nat) (root this : Nat) :
    Option (Nat → Nat) :=
  if root = 0 then none
  else some (Function.update (Function.update heap (this + next_offset) (heap root)) root this)

/-- The data members of `class ReusableAllocator` (thread.h): `freelist`, the
address of the first free object (0 is NULL), and `waiting`; with them the heap
that holds the objects. -/
structure ReusableAllocator where
  freelist : Nat
  waiting : Nat
  heap : Nat → Nat

namespace ReusableAllocator

/-- The constructor `ReusableAllocator::ReusableAllocator()`. -/
def init (heap : Nat → Nat) : ReusableAllocator :=
  { freelist := 0, waiting := 0, heap := heap }

/-- The member function `ReusableAllocator::release(obj)`. The root handed to
`enlist` is `ru = (LinkedObject **)freelist`: the value of `freelist`, taken as
the address of a pointer. -/
def release (next_offset obj : Nat) (s : ReusableAllocator) : Step ReusableAllocator Unit :=
  let ru := s.freelist
  match LinkedObject.enlist_heap next_offset s.heap ru obj with
  | none => .abort
  | some heap1 =>
    .ret { s with heap := heap1 } ()
      ([Event.retain obj, Event.release obj] ++ (if s.waiting ≠ 0 then [Event.signal] else []))

/-- The chain of objects that starts at address `p`, following the member
`next`, cut after `n` objects. -/
def chain (next_offset : Nat) (heap : Nat → Nat) : Nat → Nat → List Nat
  | 0, _ => []
  | n + 1, p => if p = 0 then [] else p :: chain next_offset heap n (heap (p + next_offset))

end ReusableAllocator

/-! # Verified properties -/

/-! ## Arithmetic of the machine counters -/

theorem Timer.inf_ne_zero : (0 : Nat) ≠ Timer.inf := by decide

theorem zdec_zinc_mod (n : Nat) : zdec (zinc n % SIZE_MOD) = n % SIZE_MOD := by
  unfold zdec zinc SIZE_MOD; omega

theorem zinc_mod (n : Nat) : zinc (n % SIZE_MOD) = (n + 1) % SIZE_MOD := by
  unfold zinc SIZE_MOD; omega

theorem zdec_succ_mod (n : Nat) : zdec ((n + 1) % SIZE_MOD) = n % SIZE_MOD := by
  unfold zdec SIZE_MOD; omega

theorem zinc_zero : zinc 0 = 1 := by decide

theorem zdec_one : zdec 1 = 0 := by decide

theorem udec_uinc (x : Nat) (h : x < UINT_MOD) : udec (uinc x) = x := by
  unfold udec uinc UINT_MOD at *; omega

/-! ## rwlock: lemmas -/

namespace rwlock

theorem modify_exit_after (max_sharing t : Nat) (s s1 : rwlock) (rtn : Bool)
    (h : (modify_exit max_sharing t s rtn).after? = some s1) :
    (rtn = false ∧ s1 = s) ∨
    (rtn = true ∧
      s1 = { s with writer := if s.writers = 0 then t else s.writer, writers := uinc s.writers }) := by
  unfold modify_exit at h
  by_cases hA : max_sharing ≠ 0 ∧ ¬ s.writers < max_sharing
  · rw [if_pos hA] at h; simp [Step.after?] at h
  · rw [if_neg hA] at h
    cases rtn
    · left; simp [Step.after?] at h; exact ⟨rfl, h.symm⟩
    · right; simp [Step.after?] at h; exact ⟨rfl, h.symm⟩

/-- The outcomes of one pass through the wait loop of modify: the thread parks
with pending incremented, gives up (timeout 0) with pending incremented and
decremented, leaves with rtn false, or acquires the lock, which it does only
on re-entry or when the lock is idle. -/
theorem modify_loop_after (max_sharing t timeout : Nat) (s s1 : rwlock) (rtn : Bool)
    (h : (modify_loop max_sharing t timeout s rtn).after? = some s1) :
    s1 = { s with pending := uinc s.pending } ∨
    s1 = { s with pending := udec (uinc s.pending) } ∨
    s1 = s ∨
    (rtn = true ∧ ((s.writers ≠ 0 ∧ s.writer = t) ∨ (s.writers = 0 ∧ s.reading = 0)) ∧
      s1 = { s with writer := if s.writers = 0 then t else s.writer, writers := uinc s.writers }) := by
  unfold modify_loop at h
  by_cases hc : (s.writers ≠ 0 ∨ s.reading ≠ 0) ∧ rtn = true
  · rw [if_pos hc] at h
    by_cases hre : s.writers ≠ 0 ∧ s.writer = t
    · rw [if_pos hre] at h
      rcases modify_exit_after _ _ _ _ _ h with ⟨hr, _⟩ | ⟨hr, hs⟩
      · rw [hc.2] at hr; cases hr
      · exact Or.inr (Or.inr (Or.inr ⟨hr, Or.inl hre, hs⟩))
    · rw [if_neg hre] at h
      by_cases hinf : timeout = Timer.inf
      · simp only [if_pos hinf, Step.after?, Option.some.injEq] at h
        exact Or.inl h.symm
      · by_cases hz : timeout ≠ 0
        · simp only [if_neg hinf, if_pos hz, Step.after?, Option.some.injEq] at h
          exact Or.inl h.symm
        · simp only [if_neg hinf, if_neg hz] at h
          rcases modify_exit_after _ _ _ _ _ h with ⟨_, hs⟩ | ⟨hr, _⟩
          · exact Or.inr (Or.inl hs)
          · cases hr
  · rw [if_neg hc] at h
    rcases modify_exit_after _ _ _ _ _ h with ⟨_, hs⟩ | ⟨hr, hs⟩
    · exact Or.inr (Or.inr (Or.inl hs))
    · refine Or.inr (Or.inr (Or.inr ⟨hr, Or.inr ?_, hs⟩))
      by_contra hne
      apply hc
      refine ⟨?_, hr⟩
      by_cases hw : s.writers = 0
      · right; intro hrd; exact hne ⟨hw, hrd⟩
      · left; exact hw

theorem modify_loop_exclusive (max_sharing t timeout : Nat) (s s1 : rwlock) (rtn : Bool)
    (h : (modify_loop max_sharing t timeout s rtn).after? = some s1) (hs : s.exclusive) :
    s1.exclusive := by
  unfold exclusive at hs ⊢
  rcases modify_loop_after _ _ _ _ _ _ h with h1 | h1 | h1 | ⟨_, hc, h1⟩
  · subst h1; exact hs
  · subst h1; exact hs
  · subst h1; exact hs
  · subst h1
    rcases hc with ⟨hw, _⟩ | ⟨_, hr⟩
    · left; rcases hs with hs | hs
      · exact hs
      · exact absurd hs hw
    · left; exact hr

theorem access_exit_after (max_sharing : Nat) (s s1 : rwlock) (rtn : Bool)
    (h : (access_exit max_sharing s rtn).after? = some s1) :
    (rtn = false ∧ s1 = s) ∨ (rtn = true ∧ s1 = { s with reading := uinc s.reading }) := by
  unfold access_exit at h
  by_cases hA : max_sharing ≠ 0 ∧ ¬ s.reading < max_sharing
  · rw [if_pos hA] at h; simp [Step.after?] at h
  · rw [if_neg hA] at h
    cases rtn
    · left; simp [Step.after?] at h; exact ⟨rfl, h.symm⟩
    · right; simp [Step.after?] at h; exact ⟨rfl, h.symm⟩

/-- The outcomes of one pass through the wait loop of access: the thread parks
with waiting incremented, gives up (timeout 0), leaves with rtn false, or
becomes a reader, which it does only when no writer is active or pending. -/
theorem access_loop_after (max_sharing timeout : Nat) (s s1 : rwlock) (rtn : Bool)
    (h : (access_loop max_sharing timeout s rtn).after? = some s1) :
    s1 = { s with waiting := uinc s.waiting } ∨
    s1 = { s with waiting := udec (uinc s.waiting) } ∨
    s1 = s ∨
    (rtn = true ∧ s.writers = 0 ∧ s.pending = 0 ∧ s1 = { s with reading := uinc s.reading }) := by
  unfold access_loop at h
  by_cases hc : (s.writers ≠ 0 ∨ s.pending ≠ 0) ∧ rtn = true
  · rw [if_pos hc] at h
    by_cases hinf : timeout = Timer.inf
    · simp only [if_pos hinf, Step.after?, Option.some.injEq] at h
      exact Or.inl h.symm
    · by_cases hz : timeout ≠ 0
      · simp only [if_neg hinf, if_pos hz, Step.after?, Option.some.injEq] at h
        exact Or.inl h.symm
      · simp only [if_neg hinf, if_neg hz] at h
        rcases access_exit_after _ _ _ _ h with ⟨_, hs⟩ | ⟨hr, _⟩
        · exact Or.inr (Or.inl hs)
        · cases hr
  · rw [if_neg hc] at h
    rcases access_exit_after _ _ _ _ h with ⟨_, hs⟩ | ⟨hr, hs⟩
    · exact Or.inr (Or.inr (Or.inl hs))
    · refine Or.inr (Or.inr (Or.inr ⟨hr, ?_, ?_, hs⟩))
      · by_contra hne; exact hc ⟨Or.inl hne, hr⟩
      · by_contra hne; exact hc ⟨Or.inr hne, hr⟩

theorem access_loop_exclusive (max_sharing timeout : Nat) (s s1 : rwlock) (rtn : Bool)
    (h : (access_loop max_sharing timeout s rtn).after? = some s1) (hs : s.exclusive) :
    s1.exclusive := by
  unfold exclusive at hs ⊢
  rcases access_loop_after _ _ _ _ _ h with h1 | h1 | h1 | ⟨_, hw, _, h1⟩
  · subst h1; exact hs
  · subst h1; exact hs
  · subst h1; exact hs
  · subst h1; right; exact hw

/-- The outcomes of release: a writer release (no reader active) or a reader
release (no writer active). -/
theorem release_after (s s1 : rwlock) (h : (release s).after? = some s1) :
    (s.writers ≠ 0 ∧ s.reading = 0 ∧ s1 = { s with writers := udec s.writers }) ∨
    (s.writers = 0 ∧ s.reading ≠ 0 ∧ s1 = { s with reading := udec s.reading }) := by
  unfold release at h
  by_cases hheld : ¬ (s.reading ≠ 0 ∨ s.writers ≠ 0)
  · rw [if_pos hheld] at h; simp [Step.after?] at h
  · rw [if_neg hheld] at h
    by_cases hw : s.writers ≠ 0
    · rw [if_pos hw] at h
      by_cases hr : s.reading ≠ 0
      · rw [if_pos hr] at h; simp [Step.after?] at h
      · rw [if_neg hr] at h
        left
        refine ⟨hw, not_not.mp hr, ?_⟩
        dsimp only at h
        split_ifs at h <;> simp only [Step.after?, Option.some.injEq] at h <;> exact h.symm
    · rw [if_neg hw] at h
      have hr : s.reading ≠ 0 := by
        rcases not_not.mp hheld with h1 | h1
        · exact h1
        · exact absurd h1 hw
      rw [if_pos hr] at h
      right
      refine ⟨not_not.mp hw, hr, ?_⟩
      dsimp only at h
      split_ifs at h <;> simp only [Step.after?, Option.some.injEq] at h <;> exact h.symm

theorem release_exclusive (s s1 : rwlock) (h : (release s).after? = some s1)
    (_hs : s.exclusive) : s1.exclusive := by
  unfold exclusive
  rcases release_after s s1 h with ⟨_, hr, h1⟩ | ⟨hw, _, h1⟩
  · subst h1; left; exact hr
  · subst h1; right; exact hw

theorem udec_le (w : Nat) (h : w ≠ 0) : udec w < w := by
  unfold udec UINT_MOD; omega

theorem uinc_zero : uinc 0 = 1 := by decide

theorem settle_after {α : Type} (sys sys1 : Machine) (t : Nat) (park : Pc) (st : Step rwlock α)
    (h : sys.settle t park st = some sys1) : st.after? = some sys1.lock := by
  cases st with
  | wait l => simp only [Machine.settle, Option.some.injEq] at h; subst h; rfl
  | ret l r ev => simp only [Machine.settle, Option.some.injEq] at h; subst h; rfl
  | abort => simp [Machine.settle] at h

/-- What one action does to the lock: the outcome of a pass through the loop of
modify or access, taken from the current state or from the state with the
thread's pending or waiting registration withdrawn, or a release. -/
theorem next_after (max_sharing : Nat) (sys sys1 : Machine) (a : Action)
    (h : sys.next max_sharing a = some sys1) :
    (∃ t timeout s rtn, ((∃ tm, a = Action.modify t tm) ∨ (∃ b, a = Action.modifyWake t b)) ∧
      (s = sys.lock ∨ s = { sys.lock with pending := udec sys.lock.pending }) ∧
      (modify_loop max_sharing t timeout s rtn).after? = some sys1.lock) ∨
    (∃ timeout s rtn,
      (s = sys.lock ∨ s = { sys.lock with waiting := udec sys.lock.waiting }) ∧
      (access_loop max_sharing timeout s rtn).after? = some sys1.lock) ∨
    (release sys.lock).after? = some sys1.lock := by
  cases a with
  | modify t tm =>
    simp only [Machine.next] at h
    split at h
    · exact Or.inl ⟨t, tm, _, true, Or.inl ⟨tm, rfl⟩, Or.inl rfl, settle_after _ _ _ _ _ h⟩
    · cases h
  | modifyWake t b =>
    simp only [Machine.next] at h
    split at h
    · exact Or.inl ⟨t, _, _, _, Or.inr ⟨b, rfl⟩, Or.inr rfl, settle_after _ _ _ _ _ h⟩
    · cases h
  | access t tm =>
    simp only [Machine.next] at h
    split at h
    · exact Or.inr (Or.inl ⟨tm, _, true, Or.inl rfl, settle_after _ _ _ _ _ h⟩)
    · cases h
  | accessWake t b =>
    simp only [Machine.next] at h
    split at h
    · exact Or.inr (Or.inl ⟨_, _, _, Or.inr rfl, settle_after _ _ _ _ _ h⟩)
    · cases h
  | release t =>
    simp only [Machine.next] at h
    split at h
    · exact Or.inr (Or.inr (settle_after _ _ _ _ _ h))
    · cases h

theorem next_exclusive (max_sharing : Nat) (sys sys1 : Machine) (a : Action)
    (h : sys.next max_sharing a = some sys1) (hs : sys.lock.exclusive) : sys1.lock.exclusive := by
  rcases next_after _ _ _ _ h with ⟨t, tm, s, rtn, _, hs0, hl⟩ | ⟨tm, s, rtn, hs0, hl⟩ | hl
  · refine modify_loop_exclusive _ _ _ _ _ _ hl ?_
    unfold exclusive at hs ⊢
    rcases hs0 with h0 | h0 <;> subst h0 <;> exact hs
  · refine access_loop_exclusive _ _ _ _ _ hl ?_
    unfold exclusive at hs ⊢
    rcases hs0 with h0 | h0 <;> subst h0 <;> exact hs
  · exact release_exclusive _ _ hl hs

theorem run_exclusive (max_sharing : Nat) (acts : List Action) :
    ∀ sys sys1 : Machine, sys.run max_sharing acts = some sys1 → sys.lock.exclusive →
      sys1.lock.exclusive := by
  induction acts with
  | nil => intro sys sys1 h hs; simp only [Machine.run, Option.some.injEq] at h; subst h; exact hs
  | cons a rest ih =>
    intro sys sys1 h hs
    simp only [Machine.run] at h
    cases hn : sys.next max_sharing a with
    | none => rw [hn] at h; simp at h
    | some sys2 =>
      rw [hn] at h
      exact ih sys2 sys1 (by simpa using h) (next_exclusive _ _ _ _ hn hs)

/-- An action that raises writers to a value above 1 is a modify by the thread
recorded as writer, made while that thread holds the lock for writing. -/
theorem next_writers (max_sharing : Nat) (sys sys1 : Machine) (a : Action)
    (h : sys.next max_sharing a = some sys1)
    (hlt : sys.lock.writers < sys1.lock.writers) (hgt : 1 < sys1.lock.writers) :
    ∃ t, ((∃ tm, a = Action.modify t tm) ∨ (∃ b, a = Action.modifyWake t b)) ∧
      sys.lock.writer = t ∧ 0 < sys.lock.writers ∧ sys1.lock.writer = t := by
  rcases next_after _ _ _ _ h with ⟨t, tm, s, rtn, ha, hs0, hl⟩ | ⟨tm, s, rtn, hs0, hl⟩ | hl
  · have hw : s.writers = sys.lock.writers ∧ s.writer = sys.lock.writer ∧
        s.reading = sys.lock.reading := by
      rcases hs0 with h0 | h0 <;> subst h0 <;> exact ⟨rfl, rfl, rfl⟩
    rcases modify_loop_after _ _ _ _ _ _ hl with h1 | h1 | h1 | ⟨_, hc, h1⟩
    · rw [h1] at hlt; simp only at hlt; omega
    · rw [h1] at hlt; simp only at hlt; omega
    · rw [h1] at hlt; omega
    · rcases hc with ⟨hne, hself⟩ | ⟨hz, _⟩
      · refine ⟨t, ha, by rw [← hw.2.1, hself], by omega, ?_⟩
        rw [h1]; simp only [if_neg hne]; exact hself
      · rw [h1] at hgt; simp only [hz, uinc_zero] at hgt; omega
  · have hw : s.writers = sys.lock.writers := by
      rcases hs0 with h0 | h0 <;> subst h0 <;> rfl
    rcases access_loop_after _ _ _ _ _ hl with h1 | h1 | h1 | ⟨_, _, _, h1⟩ <;>
      (rw [h1] at hlt; try simp only at hlt
       omega)
  · rcases release_after _ _ hl with ⟨hne, _, h1⟩ | ⟨_, _, h1⟩
    · rw [h1] at hlt; simp only at hlt
      have := udec_le _ hne
      omega
    · rw [h1] at hlt; simp only at hlt; omega

theorem access_exit_true (max_sharing : Nat) (s s1 : rwlock) (rtn : Bool) (ev : List Event)
    (h : access_exit max_sharing s rtn = Step.ret s1 true ev) : rtn = true := by
  unfold access_exit at h
  cases rtn
  · by_cases hA : max_sharing ≠ 0 ∧ ¬ s.reading < max_sharing
    · rw [if_pos hA] at h; cases h
    · rw [if_neg hA, if_neg (by decide)] at h
      injection h with _ h2 _
  · rfl

theorem access_loop_true (max_sharing timeout : Nat) (s s1 : rwlock) (rtn : Bool)
    (ev : List Event) (h : access_loop max_sharing timeout s rtn = Step.ret s1 true ev) :
    s.writers = 0 ∧ s.pending = 0 := by
  unfold access_loop at h
  by_cases hc : (s.writers ≠ 0 ∨ s.pending ≠ 0) ∧ rtn = true
  · rw [if_pos hc] at h
    dsimp only at h
    by_cases hinf : timeout = Timer.inf
    · rw [if_pos hinf] at h; cases h
    · rw [if_neg hinf] at h
      by_cases hz : timeout ≠ 0
      · rw [if_pos hz] at h; cases h
      · rw [if_neg hz] at h
        have := access_exit_true _ _ _ _ _ h
        cases this
  · rw [if_neg hc] at h
    have hr := access_exit_true _ _ _ _ _ h
    constructor
    · by_contra hne; exact hc ⟨Or.inl hne, hr⟩
    · by_contra hne; exact hc ⟨Or.inr hne, hr⟩

theorem access_zero_blocked (max_sharing : Nat) (s : rwlock)
    (hc : s.writers ≠ 0 ∨ s.pending ≠ 0) (hrange : s.waiting < UINT_MOD)
    (hmax : max_sharing = 0 ∨ s.reading < max_sharing) :
    access max_sharing 0 s = Step.ret s false [] := by
  have hA : ¬ (max_sharing ≠ 0 ∧ ¬ s.reading < max_sharing) := by
    rintro ⟨h1, h2⟩
    rcases hmax with h | h
    · exact h1 h
    · exact h2 h
  have hinf : ¬ (0 = Timer.inf) := Timer.inf_ne_zero
  unfold access access_loop
  rw [if_pos ⟨hc, rfl⟩]
  dsimp only
  rw [if_neg hinf, if_neg (by simp)]
  unfold access_exit
  dsimp only
  rw [if_neg hA, if_neg (by decide), udec_uinc _ hrange]

theorem modify_zero (max_sharing t : Nat) (s : rwlock) (hrange : s.pending < UINT_MOD)
    (hmax : max_sharing = 0 ∨ s.writers < max_sharing) :
    modify max_sharing t 0 s =
      if (s.writers ≠ 0 ∧ s.writer = t) ∨ (s.writers = 0 ∧ s.reading = 0) then
        Step.ret { s with writer := if s.writers = 0 then t else s.writer,
                          writers := uinc s.writers } true []
      else Step.ret s false [] := by
  have hA : ¬ (max_sharing ≠ 0 ∧ ¬ s.writers < max_sharing) := by
    rintro ⟨h1, h2⟩
    rcases hmax with h | h
    · exact h1 h
    · exact h2 h
  have hinf : ¬ (0 = Timer.inf) := Timer.inf_ne_zero
  unfold modify modify_loop
  by_cases hc : s.writers ≠ 0 ∨ s.reading ≠ 0
  · rw [if_pos ⟨hc, rfl⟩]
    by_cases hre : s.writers ≠ 0 ∧ s.writer = t
    · rw [if_pos hre, if_pos (Or.inl hre)]
      unfold modify_exit
      rw [if_neg hA, if_pos rfl]
    · have hnot : ¬ ((s.writers ≠ 0 ∧ s.writer = t) ∨ (s.writers = 0 ∧ s.reading = 0)) := by
        rintro (h | ⟨h1, h2⟩)
        · exact hre h
        · rcases hc with h | h
          · exact h h1
          · exact h h2
      rw [if_neg hre, if_neg hnot]
      dsimp only
      rw [if_neg hinf, if_neg (by simp)]
      unfold modify_exit
      dsimp only
      rw [if_neg hA, if_neg (by decide), udec_uinc _ hrange]
  · have hidle : s.writers = 0 ∧ s.reading = 0 := by
      constructor
      · by_contra h; exact hc (Or.inl h)
      · by_contra h; exact hc (Or.inr h)
    rw [if_neg (fun h => hc h.1), if_pos (Or.inr hidle)]
    unfold modify_exit
    rw [if_neg hA, if_pos rfl]

end rwlock

/-! ## queue: lemmas -/

namespace queue

theorem post_zero (q : queue) (x fresh : Nat) :
    q.post x 0 fresh =
      if q.limit ≠ 0 ∧ q.used = q.limit then Step.ret q false []
      else q.post_exit x fresh true := by
  have h := Timer.inf_ne_zero
  simp only [post, post_loop, post_exit, true_and]
  split <;> simp [h]

theorem fifo_zero (q : queue) :
    q.fifo 0 = if q.index = [] then Step.ret q none [] else q.fifo_exit true := by
  have h := Timer.inf_ne_zero
  simp only [fifo, fifo_loop, true_and]
  split <;> simp [h, fifo_exit]

theorem post_exit_true (q : queue) (x fresh : Nat) :
    ∃ a, q.post_exit x fresh true =
      Step.ret { q with used := zinc q.used, freelist := q.freelist.tail,
                        index := q.index ++ [{ addr := a, object := x }] }
        true [Event.retain x, Event.signal] := by
  unfold post_exit
  cases hf : q.freelist with
  | nil => exact ⟨fresh, by simp [hf, OrderedObject.enlist]⟩
  | cons mem rest => exact ⟨mem, by simp [hf, OrderedObject.enlist]⟩

theorem postAll_ok (ps : List (Nat × Nat)) :
    ∀ q : queue, q.counted → (q.limit = 0 ∨ q.index.length + ps.length ≤ q.limit) →
      ∃ q1, q.postAll ps = some (q1, List.replicate ps.length true) ∧
        q1.index.map queue.member.object = q.index.map queue.member.object ++ ps.map Prod.fst ∧
        q1.counted ∧ q1.limit = q.limit := by
  induction ps with
  | nil => intro q hc _; exact ⟨q, by simp [postAll], by simp, hc, rfl⟩
  | cons p rest ih =>
    intro q hc hl
    obtain ⟨x, fresh⟩ := p
    have hnb : ¬ (q.limit ≠ 0 ∧ q.used = q.limit) := by
      rintro ⟨h0, hu⟩
      have hc1 : q.used = q.index.length % SIZE_MOD := hc
      have hle : q.index.length % SIZE_MOD ≤ q.index.length := Nat.mod_le _ _
      simp only [List.length_cons] at hl
      omega
    obtain ⟨a, ha⟩ := q.post_exit_true x fresh
    have hpost : q.post x 0 fresh = _ := (q.post_zero x fresh).trans ((if_neg hnb).trans ha)
    have hc1 : queue.counted { q with used := zinc q.used, freelist := q.freelist.tail,
                                      index := q.index ++ [{ addr := a, object := x }] } := by
      have hc0 : q.used = q.index.length % SIZE_MOD := hc
      simp only [counted, List.length_append, List.length_singleton, hc0, zinc_mod]
    obtain ⟨q1, h1, h2, h3, h4⟩ := ih _ hc1 (by
      simp only [List.length_cons] at hl
      simp only [List.length_append, List.length_singleton]
      omega)
    refine ⟨q1, ?_, ?_, h3, h4⟩
    · simp only [postAll, hpost, h1, Option.map_some', List.length_cons, List.replicate_succ]
    · simp [h2]

theorem fifoAll_ok (l : List queue.member) :
    ∀ q : queue, q.index = l → q.counted →
      ∃ q2, q.fifoAll l.length = some (q2, l.map (fun m => some m.object)) ∧
        q2.index = [] ∧ q2.used = 0 := by
  induction l with
  | nil =>
    intro q hq hc
    refine ⟨q, by simp [fifoAll], hq, ?_⟩
    have hc0 : q.used = q.index.length % SIZE_MOD := hc
    simp [hc0, hq]
  | cons m rest ih =>
    intro q hq hc
    have hc0 : q.used = q.index.length % SIZE_MOD := hc
    have hfifo : q.fifo 0 =
        Step.ret { q with used := zdec q.used, index := rest, freelist := m.addr :: q.freelist }
          (some m.object) [Event.signal] := by
      rw [fifo_zero, if_neg (by simp [hq])]
      simp [fifo_exit, hq, LinkedObject.enlist]
    obtain ⟨q2, h1, h2, h3⟩ :=
      ih { q with used := zdec q.used, index := rest, freelist := m.addr :: q.freelist } rfl (by
        simp only [counted, hc0, hq, List.length_cons, zdec_succ_mod])
    exact ⟨q2, by simp [fifoAll, hfifo, h1], h2, h3⟩

theorem post_fifo_limit_one (a b fa fb : Nat) : ∃ q1 q2 q3,
    (queue.init 1).post a 0 fa = Step.ret q1 true [Event.retain a, Event.signal] ∧
    q1.post b 0 fb = Step.ret q1 false [] ∧
    q1.fifo 0 = Step.ret q2 (some a) [Event.signal] ∧
    q2.post b 0 fb = Step.ret q3 true [Event.retain b, Event.signal] := by
  refine ⟨{ index := [⟨fa, a⟩], freelist := [], used := 1, limit := 1 },
    { index := [], freelist := [fa], used := 0, limit := 1 },
    { index := [⟨fa, b⟩], freelist := [], used := 1, limit := 1 }, ?_, ?_, ?_, ?_⟩
  · simp [post_zero, init, post_exit, OrderedObject.enlist, zinc_zero]
  · simp [post_zero]
  · simp [fifo_zero, fifo_exit, LinkedObject.enlist, zdec_one]
  · simp [post_zero, post_exit, OrderedObject.enlist, zinc_zero]

theorem split_first (o : Nat) (l : List queue.member) (h : o ∈ l.map queue.member.object) :
    ∃ pre node post, l = pre ++ node :: post ∧ node.object = o ∧ ∀ m ∈ pre, m.object ≠ o := by
  induction l with
  | nil => simp at h
  | cons m rest ih =>
    by_cases hm : m.object = o
    · exact ⟨[], m, rest, rfl, hm, by simp⟩
    · have hrest : o ∈ rest.map queue.member.object := by
        rcases List.mem_map.mp h with ⟨m1, hm1, ho⟩
        rcases List.mem_cons.mp hm1 with heq | hin
        · exact absurd (heq ▸ ho) hm
        · exact List.mem_map.mpr ⟨m1, hin, ho⟩
      obtain ⟨pre, node, post, h1, h2, h3⟩ := ih hrest
      refine ⟨m :: pre, node, post, by simp [h1], h2, ?_⟩
      intro m1 hm1
      rcases List.mem_cons.mp hm1 with heq | hin
      · exact heq ▸ hm
      · exact h3 m1 hin

theorem find_first (o : Nat) (pre post : List queue.member) (node : queue.member)
    (ho : node.object = o) (hpre : ∀ m ∈ pre, m.object ≠ o) :
    (pre ++ node :: post).find? (fun n => n.object == o) = some node := by
  induction pre with
  | nil => simp [ho]
  | cons m rest ih =>
    have hm : m.object ≠ o := hpre m (List.mem_cons_self _ _)
    have hrest : ∀ m1 ∈ rest, m1.object ≠ o := fun m1 h1 => hpre m1 (List.mem_cons_of_mem _ h1)
    have hb : (m.object == o) = false := by simpa using hm
    rw [List.cons_append, List.find?_cons, hb]
    exact ih hrest

theorem delist_at (pre post : List queue.member) (node : queue.member)
    (hn : ((pre ++ node :: post).map queue.member.addr).Nodup) :
    OrderedObject.delist queue.member.addr (pre ++ node :: post) node.addr = pre ++ post := by
  unfold OrderedObject.delist
  have hpre : ∀ m ∈ pre, ¬ ((fun m => m.addr == node.addr) m = true) := by
    intro m hm heq
    have heq1 : m.addr = node.addr := by simpa using heq
    rw [List.map_append, List.map_cons, List.nodup_append] at hn
    exact hn.2.2 (List.mem_map.mpr ⟨m, hm, rfl⟩) (heq1 ▸ List.mem_cons_self _ _)
  rw [List.eraseP_append_right _ hpre, List.eraseP_cons_of_pos (by simp)]

end queue

/-! ## queue and stack: claims -/

/-- C1: BoundedQueue FIFO round trip. For every empty queue (whatever its
freelist) whose limit is 0 or at least n, and every sequence of n objects
(distinct or not), the calls post(x1,0)..post(xn,0) all return true, the
following n calls fifo(0) return x1..xn in that order, and getCount() is 0
afterwards. -/
theorem C1_queue_fifo_round_trip (q : queue) (ps : List (Nat × Nat))
    (hempty : q.index = []) (hused : q.used = 0)
    (hlimit : q.limit = 0 ∨ ps.length ≤ q.limit) :
    ∃ q1 q2, q.postAll ps = some (q1, List.replicate ps.length true) ∧
      q1.fifoAll ps.length = some (q2, ps.map (fun p => some p.1)) ∧
      q2.getCount = 0 := by
  have hc : q.counted := by simp [queue.counted, hempty, hused]
  obtain ⟨q1, h1, h2, h3, _⟩ := queue.postAll_ok ps q hc (by simpa [hempty] using hlimit)
  obtain ⟨q2, h5, _, h7⟩ := queue.fifoAll_ok q1.index q1 rfl h3
  have hmap : q1.index.map queue.member.object = ps.map Prod.fst := by simpa [hempty] using h2
  have hlen : q1.index.length = ps.length := by
    have := congrArg List.length hmap
    simpa using this
  refine ⟨q1, q2, h1, ?_, h7⟩
  rw [← hlen, h5]
  have hm : q1.index.map (fun m => some m.object) = ps.map (fun p => some p.1) := by
    have := congrArg (List.map some) hmap
    simpa [List.map_map, Function.comp] using this
  rw [hm]

/-- C1 at a queue of limit 2 holding a free node, with the objects 7 and 9. -/
theorem C1_queue_fifo_round_trip_witness :
    ∃ q1 q2,
      queue.postAll { index := [], freelist := [50], used := 0, limit := 2 } [(7, 100), (9, 101)]
        = some (q1, List.replicate 2 true) ∧
      q1.fifoAll 2 = some (q2, [some 7, some 9]) ∧ q2.getCount = 0 :=
  C1_queue_fifo_round_trip { index := [], freelist := [50], used := 0, limit := 2 }
    [(7, 100), (9, 101)] rfl rfl (Or.inr (by decide))

/-- C2 (what the code does): on the queue obtained from a fresh unbounded queue
by post(1,0) and post(2,0), lifo(0) returns object 1, the one posted first (the
head of the ordered list), and leaves object 2, the one posted last, enqueued. -/
theorem C2_lifo_returns_head :
    ∃ q1 q2, (queue.init 0).postAll [(1, 100), (2, 101)] = some (q1, [true, true]) ∧
      q1.lifo 0 = Step.ret q2 (some 1) [Event.signal] ∧
      q2.index.map queue.member.object = [2] ∧ q2.getCount = 1 := by
  refine ⟨_, _, rfl, rfl, rfl, rfl⟩

/-- C3 (what the code does): on a fresh stack of capacity 1, push(1,0) returns
true and pull(0) returns object 1 and empties the used list, yet getCount() is
still 1 and a further push(2,0) on the emptied stack returns false. -/
theorem C3_pull_keeps_count :
    ∃ s1 s2, (stack.init 1).push 1 0 100 = Step.ret s1 true [Event.retain 1, Event.signal] ∧
      s1.pull 0 = Step.ret s2 (some 1) [Event.signal] ∧
      s2.usedlist = [] ∧ s2.getCount = 1 ∧ (stack.init 1).getCount = 0 ∧
      s2.push 2 0 101 = Step.ret s2 false [] := by
  refine ⟨_, _, rfl, rfl, rfl, rfl, rfl, rfl⟩

/-- C4: non-blocking post on a full queue. For every queue, post(x, 0) returns,
and it returns false if and only if limit > 0 and used == limit; when it
returns false the whole state (used list, freelist, used) is unchanged and
nothing is signalled; when it returns true used is incremented (by exactly one
unless used is the largest size_t). With limit 1, post(A,0) succeeds, post(B,0)
then fails, and after one fifo(0), which returns A, post(B,0) succeeds. With
limit 0 post never fails. -/
theorem C4_post_nonblocking (q : queue) (x fresh : Nat) :
    (∃ q1 r ev, q.post x 0 fresh = Step.ret q1 r ev) ∧
    ((q.post x 0 fresh).result? = some false ↔ (0 < q.limit ∧ q.used = q.limit)) ∧
    ((q.post x 0 fresh).result? = some false → q.post x 0 fresh = Step.ret q false []) ∧
    (∀ q1 ev, q.post x 0 fresh = Step.ret q1 true ev →
      q1.used = zinc q.used ∧ (q.used + 1 < SIZE_MOD → q1.used = q.used + 1)) ∧
    (∀ a b fa fb : Nat, ∃ q1 q2 q3,
      (queue.init 1).post a 0 fa = Step.ret q1 true [Event.retain a, Event.signal] ∧
      q1.post b 0 fb = Step.ret q1 false [] ∧
      q1.fifo 0 = Step.ret q2 (some a) [Event.signal] ∧
      q2.post b 0 fb = Step.ret q3 true [Event.retain b, Event.signal]) ∧
    (q.limit = 0 → (q.post x 0 fresh).result? = some true) := by
  obtain ⟨a, ha⟩ := q.post_exit_true x fresh
  have hz := q.post_zero x fresh
  by_cases hfull : q.limit ≠ 0 ∧ q.used = q.limit
  · rw [if_pos hfull] at hz
    refine ⟨⟨_, _, _, hz⟩, ?_, ?_, ?_, ?_, ?_⟩
    · simp only [hz, Step.result?, true_iff]
      exact ⟨Nat.pos_of_ne_zero hfull.1, hfull.2⟩
    · intro _; exact hz
    · intro q1 ev h; rw [hz] at h; cases h
    · exact queue.post_fifo_limit_one
    · intro h0; exact absurd h0 hfull.1
  · rw [if_neg hfull, ha] at hz
    refine ⟨⟨_, _, _, hz⟩, ?_, ?_, ?_, ?_, ?_⟩
    · simp only [hz, Step.result?, Option.some.injEq, Bool.true_eq_false, false_iff]
      rintro ⟨h1, h2⟩; exact hfull ⟨Nat.pos_iff_ne_zero.mp h1, h2⟩
    · intro h; simp [hz, Step.result?] at h
    · intro q1 ev h
      rw [hz] at h
      injection h with h1 _ _
      subst h1
      refine ⟨rfl, fun hlt => ?_⟩
      show zinc q.used = q.used + 1
      unfold zinc; exact Nat.mod_eq_of_lt hlt
    · exact queue.post_fifo_limit_one
    · intro _; simp [hz, Step.result?]

/-- C4 at a queue of limit 3 holding two objects: post(9,0) returns true and
used goes from 2 to 3. -/
theorem C4_post_nonblocking_witness :
    (queue.post { index := [⟨100, 7⟩, ⟨101, 8⟩], freelist := [], used := 2, limit := 3 }
        9 0 102).result? = some true ∧
    ∀ q1 ev,
      queue.post { index := [⟨100, 7⟩, ⟨101, 8⟩], freelist := [], used := 2, limit := 3 } 9 0 102
        = Step.ret q1 true ev → q1.used = 2 + 1 :=
  ⟨rfl, fun q1 ev h =>
    ((C4_post_nonblocking { index := [⟨100, 7⟩, ⟨101, 8⟩], freelist := [], used := 2, limit := 3 }
      9 102).2.2.2.1 q1 ev h).2 (by decide)⟩

/-- C5: queue::remove(o) returns true if and only if o is currently enqueued.
When it does, it removes exactly the first node holding o (the nodes before and
after it keep their order), decrements used by one, releases one reference on
o, and puts that node on the freelist; when it returns false the queue state is
unchanged. The queue is well formed: its nodes are distinct blocks of storage
and used counts them. -/
theorem C5_queue_remove (q : queue) (o : Nat)
    (hnodes : (q.index.map queue.member.addr).Nodup)
    (hcount : q.counted) (hsize : q.index.length < SIZE_MOD) :
    ((q.remove o).result? = some true ↔ o ∈ q.index.map queue.member.object) ∧
    (o ∈ q.index.map queue.member.object →
      ∃ pre node post, q.index = pre ++ node :: post ∧ node.object = o ∧
        (∀ m ∈ pre, m.object ≠ o) ∧ 0 < q.used ∧
        q.remove o = Step.ret
          { index := pre ++ post, freelist := node.addr :: q.freelist,
            used := q.used - 1, limit := q.limit }
          true [Event.release o]) ∧
    (o ∉ q.index.map queue.member.object → q.remove o = Step.ret q false []) := by
  have hin : o ∈ q.index.map queue.member.object →
      ∃ pre node post, q.index = pre ++ node :: post ∧ node.object = o ∧
        (∀ m ∈ pre, m.object ≠ o) ∧ 0 < q.used ∧
        q.remove o = Step.ret
          { index := pre ++ post, freelist := node.addr :: q.freelist,
            used := q.used - 1, limit := q.limit }
          true [Event.release o] := by
    intro h
    obtain ⟨pre, node, post, h1, h2, h3⟩ := queue.split_first o q.index h
    have hc0 : q.used = q.index.length % SIZE_MOD := hcount
    have hu : q.used = q.index.length := by rw [hc0]; exact Nat.mod_eq_of_lt hsize
    have hpos : 0 < q.used := by rw [hu, h1]; simp
    have hdec : zdec q.used = q.used - 1 := by
      rw [hu] at hpos ⊢
      unfold zdec
      have : q.index.length + SIZE_MOD - 1 = (q.index.length - 1) + SIZE_MOD := by omega
      rw [this, Nat.add_mod_right]
      exact Nat.mod_eq_of_lt (by omega)
    refine ⟨pre, node, post, h1, h2, h3, hpos, ?_⟩
    have hfind := queue.find_first o pre post node h2 h3
    have hdel := queue.delist_at pre post node (h1 ▸ hnodes)
    simp only [queue.remove, h1, hfind, hdel, hdec, h2, LinkedObject.enlist]
  have hout : o ∉ q.index.map queue.member.object → q.remove o = Step.ret q false [] := by
    intro h
    have hnone : q.index.find? (fun node => node.object == o) = none := by
      rw [List.find?_eq_none]
      intro m hm heq
      exact h (List.mem_map.mpr ⟨m, hm, by simpa using heq⟩)
    simp only [queue.remove, hnone]
  refine ⟨⟨fun h => ?_, fun h => ?_⟩, hin, hout⟩
  · by_contra hne
    rw [hout hne] at h
    simp [Step.result?] at h
  · obtain ⟨_, _, _, _, _, _, _, hr⟩ := hin h
    rw [hr]; rfl

/-- C5 at a queue holding the objects 7, 8, 7: remove(8) takes out the middle
node and puts it on the freelist. -/
theorem C5_queue_remove_witness :
    (queue.remove { index := [⟨100, 7⟩, ⟨101, 8⟩, ⟨102, 7⟩], freelist := [], used := 3, limit := 0 }
      8).result? = some true ↔
    8 ∈ (queue.mk [⟨100, 7⟩, ⟨101, 8⟩, ⟨102, 7⟩] [] 3 0).index.map queue.member.object :=
  (C5_queue_remove { index := [⟨100, 7⟩, ⟨101, 8⟩, ⟨102, 7⟩], freelist := [], used := 3, limit := 0 }
    8 (by decide) rfl (by decide)).1

/-! ## rwlock: claims -/

/-- C6: ReaderWriterLock mutual exclusion. In every state reached from a freshly
constructed rwlock by critical sections of modify, access and release (a
release that finds the lock unheld fails its assertion and is not a step), it
is never the case that reading > 0 and writers > 0; and a step that raises
writers to a value above 1 is a modify made by the thread recorded as writer
while writers > 0, that is, a re-entry. -/
theorem C6_rwlock_mutual_exclusion (max_sharing writer : Nat) (acts : List rwlock.Action)
    (sys : rwlock.Machine)
    (hrun : (rwlock.Machine.init writer).run max_sharing acts = some sys) :
    ¬ (0 < sys.lock.reading ∧ 0 < sys.lock.writers) ∧
    ∀ a sys1, sys.next max_sharing a = some sys1 →
      sys.lock.writers < sys1.lock.writers → 1 < sys1.lock.writers →
      ∃ t, ((∃ tm, a = rwlock.Action.modify t tm) ∨ (∃ b, a = rwlock.Action.modifyWake t b)) ∧
        sys.lock.writer = t ∧ 0 < sys.lock.writers ∧ sys1.lock.writer = t := by
  constructor
  · have h0 : (rwlock.Machine.init writer).lock.exclusive := Or.inl rfl
    have h1 : sys.lock.exclusive := rwlock.run_exclusive _ _ _ _ hrun h0
    unfold rwlock.exclusive at h1
    omega
  · intro a sys1 h hlt hgt
    exact rwlock.next_writers _ _ _ _ h hlt hgt

/-- C6 on a schedule in which thread 1 takes the write lock twice, thread 2
parks in access, thread 1 releases twice and thread 2 is woken. -/
theorem C6_rwlock_mutual_exclusion_witness :
    ∃ sys, (rwlock.Machine.init 0).run 0
        [rwlock.Action.modify 1 0, rwlock.Action.modify 1 0, rwlock.Action.access 2 5,
          rwlock.Action.release 1, rwlock.Action.release 1, rwlock.Action.accessWake 2 true]
        = some sys ∧
      sys.lock.reading = 1 ∧ ¬ (0 < sys.lock.reading ∧ 0 < sys.lock.writers) :=
  ⟨((rwlock.Machine.init 0).run 0
      [rwlock.Action.modify 1 0, rwlock.Action.modify 1 0, rwlock.Action.access 2 5,
        rwlock.Action.release 1, rwlock.Action.release 1, rwlock.Action.accessWake 2 true]).get rfl,
    (Option.some_get _).symm, rfl,
    (C6_rwlock_mutual_exclusion 0 0
      [rwlock.Action.modify 1 0, rwlock.Action.modify 1 0, rwlock.Action.access 2 5,
        rwlock.Action.release 1, rwlock.Action.release 1, rwlock.Action.accessWake 2 true]
      _ (Option.some_get _).symm).1⟩

/-- C7: writer preference. rwlock::access, on its first pass or after a wake-up,
never returns true from a state where pending > 0 or writers > 0; and
access(0) called while a writer is pending returns false and leaves the whole
state (reading, writers, pending, waiting) unchanged, whether or not a reader
or writer holds the lock. -/
theorem C7_access_writer_preference (max_sharing timeout : Nat) (s s1 : rwlock)
    (ev : List Event) :
    (rwlock.access max_sharing timeout s = Step.ret s1 true ev →
      s.writers = 0 ∧ s.pending = 0) ∧
    (∀ signalled, rwlock.access_resume max_sharing timeout s signalled = Step.ret s1 true ev →
      s.writers = 0 ∧ s.pending = 0) ∧
    (0 < s.pending → s.waiting < UINT_MOD → (max_sharing = 0 ∨ s.reading < max_sharing) →
      rwlock.access max_sharing 0 s = Step.ret s false []) := by
  refine ⟨fun h => ?_, fun b h => ?_, fun hp hr hm => ?_⟩
  · unfold rwlock.access at h
    exact rwlock.access_loop_true _ _ _ _ _ _ h
  · unfold rwlock.access_resume at h
    have h1 := rwlock.access_loop_true _ _ _ _ _ _ h
    exact h1
  · exact rwlock.access_zero_blocked _ _ (Or.inr (by omega)) hr hm

/-- C7 at an idle lock with one pending writer: access(0) returns false. -/
theorem C7_access_writer_preference_witness :
    rwlock.access 0 0 { waiting := 0, reading := 0, pending := 1, writers := 0, writer := 7 }
      = Step.ret { waiting := 0, reading := 0, pending := 1, writers := 0, writer := 7 } false [] :=
  (C7_access_writer_preference 0 0
    { waiting := 0, reading := 0, pending := 1, writers := 0, writer := 7 }
    { waiting := 0, reading := 0, pending := 1, writers := 0, writer := 7 } []).2.2
    (by decide) (by decide) (Or.inl rfl)

/-- C8 (as stated, refuted): with one writer active, one writer pending and one
reader waiting, the release that brings the lock to idle issues broadcast(),
not a single signal(). -/
theorem C8_release_pending_counterexample :
    ¬ (∀ s s1 : rwlock, ∀ ev : List Event, rwlock.release s = Step.ret s1 () ev →
        0 < s.pending →
        ((0 < s.writers ∧ s1.writers = 0) ∨ (s.writers = 0 ∧ 0 < s.reading ∧ s1.reading = 0)) →
        ev = [Event.signal]) := by
  intro h
  have h1 := h { waiting := 1, reading := 0, pending := 1, writers := 1, writer := 0 }
    { waiting := 1, reading := 0, pending := 1, writers := 0, writer := 0 } [Event.broadcast]
    (by decide) (by decide) (Or.inl (by decide))
  cases h1

/-- C8 (amended): whenever a release brings the lock to idle (writers becomes 0
on a writer release, or reading becomes 0 on a reader release) while
pending > 0, release issues exactly one signal() and no broadcast when no
reader is waiting, and exactly one broadcast() and no signal when waiting > 0. -/
theorem C8_release_pending (s s1 : rwlock) (ev : List Event)
    (hrel : rwlock.release s = Step.ret s1 () ev) (hpending : 0 < s.pending)
    (hidle : (0 < s.writers ∧ s1.writers = 0) ∨
      (s.writers = 0 ∧ 0 < s.reading ∧ s1.reading = 0)) :
    ev = if s.waiting = 0 then [Event.signal] else [Event.broadcast] := by
  have hp : s.pending ≠ 0 := by omega
  rcases rwlock.release_after s s1 (by rw [hrel]; rfl) with ⟨hw, hr, h1⟩ | ⟨hw, hr, h1⟩
  · have hz : udec s.writers = 0 := by
      rcases hidle with ⟨_, h2⟩ | ⟨h2, _⟩
      · rw [h1] at h2; exact h2
      · exact absurd h2 hw
    unfold rwlock.release at hrel
    rw [if_neg (by simp [hw]), if_pos hw, if_neg (by simp [hr])] at hrel
    dsimp only at hrel
    by_cases hwait : s.waiting = 0
    · have c1 : ¬ (s.waiting ≠ 0 ∧ udec s.writers = 0) := fun h => h.1 hwait
      have c2 : s.pending ≠ 0 ∧ udec s.writers = 0 := ⟨hp, hz⟩
      rw [if_neg c1, if_pos c2] at hrel
      have h3 := (Step.ret.inj hrel).2.2
      rw [if_pos hwait]; exact h3.symm
    · have c1 : s.waiting ≠ 0 ∧ udec s.writers = 0 := ⟨hwait, hz⟩
      rw [if_pos c1] at hrel
      have h3 := (Step.ret.inj hrel).2.2
      rw [if_neg hwait]; exact h3.symm
  · have hz : udec s.reading = 0 := by
      rcases hidle with ⟨h2, _⟩ | ⟨_, _, h2⟩
      · omega
      · rw [h1] at h2; exact h2
    unfold rwlock.release at hrel
    rw [if_neg (by simp [hr]), if_neg (by simp [hw]), if_pos hr] at hrel
    dsimp only at hrel
    by_cases hwait : s.waiting = 0
    · have c1 : ¬ (s.waiting ≠ 0 ∧ (s.pending = 0 ∨ udec s.reading = 0)) := fun h => h.1 hwait
      have c2 : udec s.reading = 0 ∧ s.pending ≠ 0 := ⟨hz, hp⟩
      rw [if_neg c1, if_pos c2] at hrel
      have h3 := (Step.ret.inj hrel).2.2
      rw [if_pos hwait]; exact h3.symm
    · have c1 : s.waiting ≠ 0 ∧ (s.pending = 0 ∨ udec s.reading = 0) := ⟨hwait, Or.inr hz⟩
      rw [if_pos c1] at hrel
      have h3 := (Step.ret.inj hrel).2.2
      rw [if_neg hwait]; exact h3.symm

/-- C8 (amended) at the release of the last reader with one writer pending and
no reader waiting: one signal. -/
theorem C8_release_pending_witness :
    [Event.signal] = if (0 : Nat) = 0 then [Event.signal] else [Event.broadcast] :=
  C8_release_pending { waiting := 0, reading := 1, pending := 1, writers := 0, writer := 0 }
    { waiting := 0, reading := 0, pending := 1, writers := 0, writer := 0 } [Event.signal]
    (by decide) (by decide) (Or.inr ⟨rfl, by decide, rfl⟩)

/-- C9: rwlock::release with no pending writer. For every state with
writers == 1, pending == 0 and waiting > 0, a release() that returns has set
writers to 0 and issued exactly one broadcast(), never a single signal(); and
release() does return whenever no reader is counted, which is what its
assertion on a writer release checks. -/
theorem C9_release_broadcast (s : rwlock)
    (hwriters : s.writers = 1) (_hpending : s.pending = 0) (hwaiting : 0 < s.waiting) :
    (∀ s1 ev, rwlock.release s = Step.ret s1 () ev →
      s1 = { s with writers := 0 } ∧ ev = [Event.broadcast]) ∧
    (s.reading = 0 →
      rwlock.release s = Step.ret { s with writers := 0 } () [Event.broadcast]) := by
  have hz : udec 1 = 0 := by decide
  have hw : s.writers ≠ 0 := by omega
  have hret : s.reading = 0 →
      rwlock.release s = Step.ret { s with writers := 0 } () [Event.broadcast] := by
    intro hreading
    unfold rwlock.release
    rw [if_neg (by simp [hw]), if_pos hw, if_neg (by simp [hreading])]
    dsimp only
    rw [hwriters, hz, if_pos ⟨by omega, rfl⟩]
  refine ⟨fun s1 ev h => ?_, hret⟩
  by_cases hreading : s.reading = 0
  · rw [hret hreading] at h
    have h1 := Step.ret.inj h
    exact ⟨h1.1.symm, h1.2.2.symm⟩
  · unfold rwlock.release at h
    rw [if_neg (by simp [hw]), if_pos hw, if_pos hreading] at h
    cases h

/-- C9 at a lock held by one writer with three readers waiting. -/
theorem C9_release_broadcast_witness :
    rwlock.release { waiting := 3, reading := 0, pending := 0, writers := 1, writer := 4 }
      = Step.ret { waiting := 3, reading := 0, pending := 0, writers := 0, writer := 4 } ()
          [Event.broadcast] :=
  (C9_release_broadcast { waiting := 3, reading := 0, pending := 0, writers := 1, writer := 4 }
    rfl rfl (by decide)).2 rfl

/-- C10: non-blocking rwlock::modify. For every lock state and calling thread
t, modify(0) returns, and it returns true if and only if either writers > 0
and writer == t (re-entry), or writers == 0 and reading == 0. On true writers
is incremented (by exactly one unless it is the largest unsigned), writer is
t and the other counters are unchanged; on false the whole state (reading,
writers, pending, waiting) is unchanged. -/
theorem C10_modify_nonblocking (max_sharing t : Nat) (s : rwlock)
    (hrange : s.pending < UINT_MOD)
    (hmax : max_sharing = 0 ∨ s.writers < max_sharing) :
    (∃ s1 r, rwlock.modify max_sharing t 0 s = Step.ret s1 r []) ∧
    ((rwlock.modify max_sharing t 0 s).result? = some true ↔
      ((0 < s.writers ∧ s.writer = t) ∨ (s.writers = 0 ∧ s.reading = 0))) ∧
    (∀ s1 ev, rwlock.modify max_sharing t 0 s = Step.ret s1 true ev →
      s1.writers = uinc s.writers ∧ (s.writers + 1 < UINT_MOD → s1.writers = s.writers + 1) ∧
      s1.writer = t ∧ s1.reading = s.reading ∧ s1.pending = s.pending ∧
      s1.waiting = s.waiting) ∧
    (∀ s1 ev, rwlock.modify max_sharing t 0 s = Step.ret s1 false ev → s1 = s) := by
  have hz := rwlock.modify_zero max_sharing t s hrange hmax
  by_cases hc : (s.writers ≠ 0 ∧ s.writer = t) ∨ (s.writers = 0 ∧ s.reading = 0)
  · rw [if_pos hc] at hz
    have hc1 : (0 < s.writers ∧ s.writer = t) ∨ (s.writers = 0 ∧ s.reading = 0) := by
      rcases hc with ⟨h1, h2⟩ | h
      · exact Or.inl ⟨Nat.pos_of_ne_zero h1, h2⟩
      · exact Or.inr h
    refine ⟨⟨_, _, hz⟩, ?_, ?_, ?_⟩
    · rw [hz]; simp only [Step.result?, true_iff]; exact hc1
    · intro s1 ev h
      rw [hz] at h
      injection h with h1 _ _
      subst h1
      refine ⟨rfl, fun hlt => ?_, ?_, rfl, rfl, rfl⟩
      · show uinc s.writers = s.writers + 1
        unfold uinc; exact Nat.mod_eq_of_lt hlt
      · show (if s.writers = 0 then t else s.writer) = t
        rcases hc with ⟨h1, h2⟩ | ⟨h1, _⟩
        · rw [if_neg h1]; exact h2
        · rw [if_pos h1]
    · intro s1 ev h
      rw [hz] at h
      injection h with _ h2 _
      cases h2
  · rw [if_neg hc] at hz
    refine ⟨⟨_, _, hz⟩, ?_, ?_, ?_⟩
    · rw [hz]
      simp only [Step.result?, Option.some.injEq, Bool.false_eq_true, false_iff]
      rintro (⟨h1, h2⟩ | h)
      · exact hc (Or.inl ⟨by omega, h2⟩)
      · exact hc (Or.inr h)
    · intro s1 ev h
      rw [hz] at h
      injection h with _ h2 _
      cases h2
    · intro s1 ev h
      rw [hz] at h
      injection h with h1 _ _
      exact h1.symm

/-- C10 at a lock that thread 4 holds for writing: modify(0) by thread 4
succeeds (re-entry), modify(0) by thread 5 would not. -/
theorem C10_modify_nonblocking_witness :
    (rwlock.modify 0 4 0
        { waiting := 0, reading := 0, pending := 2, writers := 1, writer := 4 }).result?
      = some true ↔
    ((0 < 1 ∧ 4 = 4) ∨ (1 = 0 ∧ 0 = 0)) :=
  (C10_modify_nonblocking 0 4
    { waiting := 0, reading := 0, pending := 2, writers := 1, writer := 4 }
    (by decide) (Or.inl rfl)).2.1

/-! ## rexlock: lemmas -/

theorem uinc_mod (n : Nat) : uinc (n % UINT_MOD) = (n + 1) % UINT_MOD := by
  unfold uinc UINT_MOD; omega

theorem udec_mod (n : Nat) (h : 0 < n) : udec (n % UINT_MOD) = (n - 1) % UINT_MOD := by
  unfold udec UINT_MOD; omega

namespace rexlock

/-- Replaying calls whose every prefix has at most `b` more releases than locks,
from a state in which the caller holds the lock `b` times and nobody waits. -/
theorem replay_balanced (self : Nat) (calls : List Call) :
    ∀ (s : rexlock) (b : Nat), s.waiting = 0 → s.lockers = b % UINT_MOD →
      (0 < b → s.locker = self) →
      (∀ k, (calls.take k).count Call.release ≤ b + (calls.take k).count Call.lock) →
      ∃ s1, replay self s calls = some s1 ∧ s1.waiting = 0 ∧
        s1.lockers = (b + calls.count Call.lock - calls.count Call.release) % UINT_MOD := by
  induction calls with
  | nil =>
    intro s b hw hl _ _
    exact ⟨s, rfl, hw, by simpa using hl⟩
  | cons c rest ih =>
    intro s b hw hl hown hbal
    cases c with
    | lock =>
      have hstep : s.lock self = lock_exit self s := by
        unfold lock lock_loop
        by_cases h0 : s.lockers ≠ 0
        · have hb : 0 < b := by
            rcases Nat.eq_zero_or_pos b with hb | hb
            · rw [hb, Nat.zero_mod] at hl; exact absurd hl h0
            · exact hb
          rw [if_pos h0, if_pos (hown hb)]
        · rw [if_neg h0]
      have hrest : ∀ k, (rest.take k).count Call.release ≤
          (b + 1) + (rest.take k).count Call.lock := by
        intro k
        have := hbal (k + 1)
        simp only [List.take_succ_cons, List.count_cons, beq_iff_eq, reduceCtorEq, if_false,
          if_true, Nat.add_zero] at this
        omega
      have hl1 : uinc s.lockers = (b + 1) % UINT_MOD := by rw [hl, uinc_mod]
      have hown1 : 0 < b + 1 → (if s.lockers = 0 then self else s.locker) = self := by
        intro _
        by_cases h0 : s.lockers = 0
        · rw [if_pos h0]
        · rw [if_neg h0]
          apply hown
          rcases Nat.eq_zero_or_pos b with hb | hb
          · rw [hb, Nat.zero_mod] at hl; exact absurd hl h0
          · exact hb
      obtain ⟨s1, h1, h2, h3⟩ := ih
        { s with locker := if s.lockers = 0 then self else s.locker, lockers := uinc s.lockers }
        (b + 1) hw hl1 hown1 hrest
      have hrun : replay self s (Call.lock :: rest) = some s1 := by
        rw [replay, hstep, lock_exit]
        exact h1
      have hcount : b + (Call.lock :: rest).count Call.lock -
          (Call.lock :: rest).count Call.release =
          b + 1 + rest.count Call.lock - rest.count Call.release := by
        simp only [List.count_cons, beq_iff_eq, reduceCtorEq, if_false, if_true, Nat.add_zero]
        omega
      exact ⟨s1, hrun, h2, by rw [hcount]; exact h3⟩
    | release =>
      have hb : 0 < b := by
        have := hbal 1
        simp only [List.take_succ_cons, List.take_zero, List.count_cons, List.count_nil,
          beq_iff_eq, reduceCtorEq, if_false, if_true] at this
        omega
      have hstep : s.release = Step.ret { s with lockers := udec s.lockers } () [] := by
        unfold release
        dsimp only
        rw [if_neg (fun h => h.2 hw)]
      have hrest : ∀ k, (rest.take k).count Call.release ≤
          (b - 1) + (rest.take k).count Call.lock := by
        intro k
        have := hbal (k + 1)
        simp only [List.take_succ_cons, List.count_cons, beq_iff_eq, reduceCtorEq, if_false,
          if_true, Nat.add_zero] at this
        omega
      have hl1 : udec s.lockers = (b - 1) % UINT_MOD := by rw [hl, udec_mod b hb]
      obtain ⟨s1, h1, h2, h3⟩ := ih { s with lockers := udec s.lockers } (b - 1) hw hl1
        (fun _ => hown hb) hrest
      have hrun : replay self s (Call.release :: rest) = some s1 := by
        rw [replay, hstep]
        exact h1
      have hcount : b + (Call.release :: rest).count Call.lock -
          (Call.release :: rest).count Call.release =
          b - 1 + rest.count Call.lock - rest.count Call.release := by
        simp only [List.count_cons, beq_iff_eq, reduceCtorEq, if_false, if_true, Nat.add_zero]
        omega
      exact ⟨s1, hrun, h2, by rw [hcount]; exact h3⟩

end rexlock

/-! ## rexlock: claims -/

/-- C11: RecursiveLock depth equals net balance. For every sequence of lock()
and release() calls made by a single thread on a freshly constructed rexlock in
which no prefix contains more releases than locks, no call blocks (after every
prefix, too), waiting stays 0, and getLocking() afterwards is the number of
lock() calls minus the number of release() calls, as an unsigned: exactly that
number whenever it is below 2^32. -/
theorem C11_rexlock_depth (self locker0 : Nat) (calls : List rexlock.Call)
    (hbal : ∀ k, (calls.take k).count rexlock.Call.release ≤
      (calls.take k).count rexlock.Call.lock) :
    (∃ s, rexlock.replay self (rexlock.init locker0) calls = some s ∧ s.getWaiting = 0 ∧
      s.getLocking =
        (calls.count rexlock.Call.lock - calls.count rexlock.Call.release) % UINT_MOD ∧
      (calls.count rexlock.Call.lock - calls.count rexlock.Call.release < UINT_MOD →
        s.getLocking = calls.count rexlock.Call.lock - calls.count rexlock.Call.release)) ∧
    (∀ k, ∃ s, rexlock.replay self (rexlock.init locker0) (calls.take k) = some s ∧
      s.getWaiting = 0) := by
  constructor
  · obtain ⟨s, h1, h2, h3⟩ := rexlock.replay_balanced self calls (rexlock.init locker0) 0 rfl
      (Nat.zero_mod _).symm (fun h => absurd h (Nat.lt_irrefl 0)) (fun k => by simpa using hbal k)
    rw [Nat.zero_add] at h3
    exact ⟨s, h1, h2, h3, fun hlt => by
      show s.lockers = _
      rw [h3]; exact Nat.mod_eq_of_lt hlt⟩
  · intro k
    obtain ⟨s, h1, h2, _⟩ := rexlock.replay_balanced self (calls.take k) (rexlock.init locker0) 0
      rfl (Nat.zero_mod _).symm (fun h => absurd h (Nat.lt_irrefl 0)) (fun j => by
        rw [List.take_take]
        simpa using hbal (min j k))
    exact ⟨s, h1, h2⟩

/-- C11 on the sequence lock, lock, release, lock made by thread 4: the depth is
2 afterwards. -/
theorem C11_rexlock_depth_witness :
    ∃ s, rexlock.replay 4 (rexlock.init 0)
        [rexlock.Call.lock, rexlock.Call.lock, rexlock.Call.release, rexlock.Call.lock] = some s ∧
      s.getWaiting = 0 ∧ s.getLocking = (3 - 1) % UINT_MOD :=
  have h := (C11_rexlock_depth 4 0
    [rexlock.Call.lock, rexlock.Call.lock, rexlock.Call.release, rexlock.Call.lock]
    (fun k => by
      rcases k with _ | _ | _ | _ | k <;> simp [List.count_cons])).1
  h.imp (fun _ hs => ⟨hs.1, hs.2.1, hs.2.2.1⟩)

/-- C12 (what the code does): release() on a freshly constructed rexlock, whose
lockers is 0, returns without any assertion and leaves lockers at 4294967295,
the largest unsigned. -/
theorem C12_release_unheld_wraps :
    rexlock.release (rexlock.init 0) =
      Step.ret { waiting := 0, lockers := 4294967295, locker := 0 } () [] ∧
    ∀ s : rexlock, rexlock.release s ≠ Step.abort := by
  refine ⟨rfl, fun s => ?_⟩
  unfold rexlock.release
  dsimp only
  split_ifs <;> exact fun h => by cases h

/-! ## rwlock accessors: claims -/

/-- C13 (what the code does): getModify() returns writers, the depth of the
active writer, for every state; after a single successful modify(0) on a fresh
lock, with no thread waiting to modify (pending is 0), it returns 1. -/
theorem C13_getModify_returns_writers :
    (∀ s : rwlock, s.getModify = s.writers) ∧
    ∃ sys, (rwlock.Machine.init 0).run 0 [rwlock.Action.modify 1 0] = some sys ∧
      sys.lock.pending = 0 ∧ sys.lock.getModify = 1 :=
  ⟨fun _ => rfl,
    ((rwlock.Machine.init 0).run 0 [rwlock.Action.modify 1 0]).get rfl,
    (Option.some_get _).symm, rfl, rfl⟩

/-- C14 (what the code does): getWaiting() returns waiting + pending for every
state; when thread 1 holds the write lock and thread 2 is parked in modify, no
reader is waiting (waiting is 0) and yet getWaiting() returns 1. -/
theorem C14_getWaiting_counts_pending :
    (∀ s : rwlock, s.getWaiting = (s.waiting + s.pending) % UINT_MOD) ∧
    ∃ sys, (rwlock.Machine.init 0).run 0
        [rwlock.Action.modify 1 0, rwlock.Action.modify 2 Timer.inf] = some sys ∧
      sys.lock.waiting = 0 ∧ sys.lock.pending = 1 ∧ sys.lock.getWaiting = 1 :=
  ⟨fun _ => rfl,
    ((rwlock.Machine.init 0).run 0
      [rwlock.Action.modify 1 0, rwlock.Action.modify 2 Timer.inf]).get rfl,
    (Option.some_get _).symm, rfl, rfl, rfl⟩

/-! ## barrier: lemmas -/

namespace barrier

theorem wait_park (n k : Nat) (hk : k + 1 < n) (hn : n < UINT_MOD) :
    wait { count := n, waits := k } = Step.wait { count := n, waits := k + 1 } := by
  have hinc : uinc k = k + 1 := by
    unfold uinc; exact Nat.mod_eq_of_lt (by omega)
  unfold wait
  rw [if_neg (by show ¬ n = 0; omega)]
  dsimp only
  rw [hinc, if_neg (by show ¬ k + 1 ≥ n; omega)]

theorem wait_last (n : Nat) (h1 : 1 ≤ n) (hn : n < UINT_MOD) :
    wait { count := n, waits := n - 1 } =
      Step.ret { count := n, waits := 0 } () [Event.broadcast] := by
  have hinc : uinc (n - 1) = n := by
    unfold uinc
    have : n - 1 + 1 = n := by omega
    rw [this]; exact Nat.mod_eq_of_lt hn
  unfold wait
  rw [if_neg (by show ¬ n = 0; omega)]
  dsimp only
  rw [hinc, if_pos (by show n ≥ n; omega)]

theorem arrive_park (n : Nat) (hn : n < UINT_MOD) (j : Nat) :
    ∀ k, k + j < n → arrive { count := n, waits := k } j = some { count := n, waits := k + j } := by
  induction j with
  | zero => intro k _; rfl
  | succ j ih =>
    intro k hk
    rw [arrive, wait_park n k (by omega) hn]
    simp only [Step.after?, Option.some_bind]
    rw [ih (k + 1) (by omega)]
    congr 2
    omega

end barrier

/-! ## barrier: claims -/

/-- C16: barrier cycle. For every N >= 1 (an unsigned), on a barrier with
count == N: a call to wait() that finds fewer than N - 1 parties arrived
increments waits and parks without broadcasting, so from waits == 0 the first
N - 1 calls leave waits == N - 1; the N-th call resets waits to 0, broadcasts
and returns; the state after the N-th call is the initial state again. -/
theorem C16_barrier_cycle (n : Nat) (h1 : 1 ≤ n) (hn : n < UINT_MOD) :
    (∀ k, k + 1 < n →
      barrier.wait { count := n, waits := k } = Step.wait { count := n, waits := k + 1 }) ∧
    (∀ j, j < n → (barrier.init n).arrive j = some { count := n, waits := j }) ∧
    barrier.wait { count := n, waits := n - 1 } =
      Step.ret (barrier.init n) () [Event.broadcast] ∧
    (barrier.init n).arrive n = some (barrier.init n) := by
  have hpark : ∀ j, j < n → (barrier.init n).arrive j = some { count := n, waits := j } := by
    intro j hj
    have := barrier.arrive_park n hn j 0 (by omega)
    rw [Nat.zero_add] at this
    exact this
  refine ⟨fun k hk => barrier.wait_park n k hk hn, hpark, barrier.wait_last n h1 hn, ?_⟩
  obtain ⟨m, rfl⟩ : ∃ m, n = m + 1 := ⟨n - 1, by omega⟩
  have hsplit : ∀ (j : Nat) (s : barrier), s.arrive (j + 1) = (s.arrive j).bind
      (fun s1 => s1.wait.after?) := by
    intro j
    induction j with
    | zero => intro s; simp [barrier.arrive]
    | succ j ih =>
      intro s
      rw [barrier.arrive]
      cases hs : s.wait.after? with
      | none => simp [barrier.arrive, hs]
      | some s1 =>
        simp only [Option.some_bind]
        rw [ih s1]
        conv_rhs => rw [barrier.arrive, hs]
        simp only [Option.some_bind]
  rw [hsplit, hpark m (by omega)]
  simp only [Option.some_bind]
  have := barrier.wait_last (m + 1) h1 hn
  simp only [Nat.add_sub_cancel] at this
  rw [this]
  rfl

/-- C16 for three parties. -/
theorem C16_barrier_cycle_witness :
    (barrier.init 3).arrive 2 = some { count := 3, waits := 2 } ∧
    (barrier.init 3).arrive 3 = some (barrier.init 3) :=
  ⟨(C16_barrier_cycle 3 (by decide) (by decide)).2.1 2 (by decide),
    (C16_barrier_cycle 3 (by decide) (by decide)).2.2.2⟩

/-- C17: barrier::set(n) sets the party count to n; if n is at most the current
number of arrived parties it resets that number to 0 and broadcasts, otherwise
the number of arrived parties is unchanged and nothing is woken. -/
theorem C17_barrier_set (s : barrier) (n : Nat) :
    (n ≤ s.waits →
      barrier.set n s = Step.ret { count := n, waits := 0 } () [Event.broadcast]) ∧
    (s.waits < n → barrier.set n s = Step.ret { count := n, waits := s.waits } () []) := by
  constructor
  · intro h
    unfold barrier.set
    dsimp only
    rw [if_pos h]
  · intro h
    unfold barrier.set
    dsimp only
    rw [if_neg (by omega)]

/-- C17 at a barrier of 5 parties with 2 arrived: set(2) releases, set(3) does
not. -/
theorem C17_barrier_set_witness :
    barrier.set 2 { count := 5, waits := 2 } =
      Step.ret { count := 2, waits := 0 } () [Event.broadcast] ∧
    barrier.set 3 { count := 5, waits := 2 } = Step.ret { count := 3, waits := 2 } () [] :=
  ⟨(C17_barrier_set { count := 5, waits := 2 } 2).1 (by decide),
    (C17_barrier_set { count := 5, waits := 2 } 3).2 (by decide)⟩

/-- C18 (what the code does): the destructor of a barrier does broadcast on
every pass of its loop while a party is waiting, but it is never left: for
every barrier state and every bound on the number of passes, the loop is still
running when the bound is reached. -/
theorem C18_destructor_never_returns :
    (∀ (fuel : Nat) (s : barrier) (ev : List Event), barrier.destructor fuel s ev = none) ∧
    (∀ (s : barrier) (n : Nat), barrier.destructor_events s n =
      if s.waits ≠ 0 then List.replicate n Event.broadcast else []) := by
  refine ⟨fun fuel => ?_, fun s n => ?_⟩
  · induction fuel with
    | zero => intro s ev; rfl
    | succ fuel ih => intro s ev; rw [barrier.destructor]; exact ih s _
  · by_cases h : s.waits ≠ 0
    · rw [if_pos h]
      induction n with
      | zero => rfl
      | succ n ih =>
        rw [barrier.destructor_events, ih, barrier.destructor_body, if_pos h,
          List.replicate_succ']
    · rw [if_neg h]
      induction n with
      | zero => rfl
      | succ n ih =>
        rw [barrier.destructor_events, ih, barrier.destructor_body, if_neg h]
        rfl

/-! ## semaphore: lemmas -/

namespace semaphore

theorem request_exit_bounded (size : Nat) (s s1 : semaphore) (result : Bool)
    (h : (request_exit size s result).after? = some s1) (hs : s.used ≤ s.count)
    (hfit : result = true → (s.used + size) % UINT_MOD ≤ s.count) : s1.used ≤ s1.count := by
  unfold request_exit at h
  by_cases hr : result = true
  · rw [if_pos hr] at h
    simp only [Step.after?, Option.some.injEq] at h
    subst h
    exact hfit hr
  · rw [if_neg hr] at h
    simp only [Step.after?, Option.some.injEq] at h
    subst h
    exact hs

theorem request_loop_bounded (size timeout : Nat) (s s1 : semaphore) (result : Bool)
    (h : (request_loop size timeout s result).after? = some s1) (hs : s.used ≤ s.count) :
    s1.used ≤ s1.count := by
  unfold request_loop at h
  by_cases hc : (s.used + size) % UINT_MOD > s.count ∧ result = true
  · rw [if_pos hc] at h
    by_cases hinf : timeout = Timer.inf
    · rw [if_pos hinf] at h
      simp only [Step.after?, Option.some.injEq] at h
      subst h; exact hs
    · rw [if_neg hinf] at h
      by_cases hz : timeout ≠ 0
      · rw [if_pos hz] at h
        simp only [Step.after?, Option.some.injEq] at h
        subst h; exact hs
      · rw [if_neg hz] at h
        exact request_exit_bounded _ _ _ _ h hs (fun hf => by cases hf)
  · rw [if_neg hc] at h
    refine request_exit_bounded _ _ _ _ h hs (fun hr => ?_)
    show (s.used + size) % UINT_MOD ≤ s.count
    by_contra hne
    exact hc ⟨by omega, hr⟩

theorem request_bounded (size timeout : Nat) (s s1 : semaphore)
    (h : (request size timeout s).after? = some s1) (hs : s.used ≤ s.count) :
    s1.used ≤ s1.count := by
  unfold request at h
  by_cases hc : (s.used + size) % UINT_MOD > s.count
  · rw [if_pos hc] at h
    exact request_loop_bounded _ _ _ _ _ h hs
  · rw [if_neg hc] at h
    exact request_exit_bounded _ _ _ _ h hs (fun _ => by omega)

theorem uinc_le (x : Nat) : uinc x ≤ x + 1 := by
  unfold uinc; exact Nat.mod_le _ _

theorem wait_loop_bounded (s s1 : semaphore) (h : (wait_loop s).after? = some s1)
    (hs : s.used ≤ s.count) : s1.used ≤ s1.count := by
  unfold wait_loop at h
  by_cases hc : s.used ≥ s.count
  · rw [if_pos hc] at h
    simp only [Step.after?, Option.some.injEq] at h
    subst h; exact hs
  · rw [if_neg hc] at h
    simp only [Step.after?, Option.some.injEq] at h
    subst h
    have := uinc_le s.used
    show uinc s.used ≤ s.count
    omega

theorem wait_bounded (s s1 : semaphore) (h : (wait s).after? = some s1)
    (hs : s.used ≤ s.count) : s1.used ≤ s1.count := by
  unfold wait at h
  by_cases hc : s.used ≥ s.count
  · rw [if_pos hc] at h
    exact wait_loop_bounded _ _ h hs
  · rw [if_neg hc] at h
    simp only [Step.after?, Option.some.injEq] at h
    subst h
    have := uinc_le s.used
    show uinc s.used ≤ s.count
    omega

theorem request_blocking_loop_bounded (size : Nat) (s s1 : semaphore)
    (h : (request_blocking_loop size s).after? = some s1) (hs : s.used ≤ s.count) :
    s1.used ≤ s1.count := by
  unfold request_blocking_loop at h
  by_cases hc : (s.used + size) % UINT_MOD > s.count
  · rw [if_pos hc] at h
    simp only [Step.after?, Option.some.injEq] at h
    subst h; exact hs
  · rw [if_neg hc] at h
    simp only [Step.after?, Option.some.injEq] at h
    subst h
    show (s.used + size) % UINT_MOD ≤ s.count
    omega

theorem request_blocking_bounded (size : Nat) (s s1 : semaphore)
    (h : (request_blocking size s).after? = some s1) (hs : s.used ≤ s.count) :
    s1.used ≤ s1.count := by
  unfold request_blocking at h
  by_cases hc : (s.used + size) % UINT_MOD > s.count
  · rw [if_pos hc] at h
    exact request_blocking_loop_bounded _ _ _ h hs
  · rw [if_neg hc] at h
    simp only [Step.after?, Option.some.injEq] at h
    subst h
    show (s.used + size) % UINT_MOD ≤ s.count
    omega

theorem release_bounded (s s1 : semaphore) (h : (release s).after? = some s1)
    (hs : s.used ≤ s.count) : s1.used ≤ s1.count := by
  unfold release at h
  dsimp only at h
  have hdec : s.used ≠ 0 → udec s.used ≤ s.used := by
    intro h0; unfold udec UINT_MOD; omega
  by_cases hu : s.used ≠ 0
  · rw [if_pos hu] at h
    have hle : udec s.used ≤ s.count := Nat.le_trans (hdec hu) hs
    split_ifs at h <;> simp only [Step.after?, Option.some.injEq] at h <;> subst h <;> exact hle
  · rw [if_neg hu] at h
    split_ifs at h <;> simp only [Step.after?, Option.some.injEq] at h <;> subst h <;> exact hs

theorem sem_settle_after {α : Type} (m m1 : Machine) (t : Nat) (park : Pc)
    (st : Step semaphore α)
    (h : m.settle t park st = some m1) : st.after? = some m1.sem := by
  cases st with
  | wait l => simp only [Machine.settle, Option.some.injEq] at h; subst h; rfl
  | ret l r ev => simp only [Machine.settle, Option.some.injEq] at h; subst h; rfl
  | abort => simp [Machine.settle] at h

theorem next_bounded (m m1 : Machine) (a : Action) (h : m.next a = some m1)
    (hs : m.sem.used ≤ m.sem.count) : m1.sem.used ≤ m1.sem.count := by
  cases a with
  | wait t =>
    simp only [Machine.next] at h
    split at h
    · exact wait_bounded _ _ (sem_settle_after _ _ _ _ _ h) hs
    · cases h
  | waitWake t =>
    simp only [Machine.next] at h
    split at h
    · exact wait_loop_bounded _ _ (sem_settle_after _ _ _ _ _ h) hs
    · cases h
  | request t size timeout =>
    simp only [Machine.next] at h
    split at h
    · exact request_bounded _ _ _ _ (sem_settle_after _ _ _ _ _ h) hs
    · cases h
  | requestWake t b =>
    simp only [Machine.next] at h
    split at h
    · exact request_loop_bounded _ _ _ _ _ (sem_settle_after _ _ _ _ _ h) hs
    · cases h
  | requestBlocking t size =>
    simp only [Machine.next] at h
    split at h
    · exact request_blocking_bounded _ _ _ (sem_settle_after _ _ _ _ _ h) hs
    · cases h
  | requestBlockingWake t =>
    simp only [Machine.next] at h
    split at h
    · exact request_blocking_loop_bounded _ _ _ (sem_settle_after _ _ _ _ _ h) hs
    · cases h
  | release t =>
    simp only [Machine.next] at h
    split at h
    · exact release_bounded _ _ (sem_settle_after _ _ _ _ _ h) hs
    · cases h

theorem run_bounded (acts : List Action) :
    ∀ m m1 : Machine, m.run acts = some m1 → m.sem.used ≤ m.sem.count →
      m1.sem.used ≤ m1.sem.count := by
  induction acts with
  | nil => intro m m1 h hs; simp only [Machine.run, Option.some.injEq] at h; subst h; exact hs
  | cons a rest ih =>
    intro m m1 h hs
    simp only [Machine.run] at h
    cases hn : m.next a with
    | none => rw [hn] at h; simp at h
    | some m2 =>
      rw [hn] at h
      exact ih m2 m1 (by simpa using h) (next_bounded _ _ _ hn hs)

end semaphore

/-! ## semaphore: claims -/

/-- C19: semaphore bound. In every state reached from a freshly constructed
semaphore by critical sections of wait(), wait(timeout), request(n),
request(n, timeout) and release() of any number of threads (no set()),
used <= count, the sums being taken modulo 2^32 as the code does. -/
theorem C19_semaphore_bound (limit : Nat) (acts : List semaphore.Action) (m : semaphore.Machine)
    (hrun : (semaphore.Machine.init limit).run acts = some m) :
    m.sem.getUsed ≤ m.sem.getCount :=
  semaphore.run_bounded acts _ _ hrun (Nat.zero_le _)

/-- C19 on a schedule over a semaphore of 2 units: two requests are granted, a
third thread parks in wait(), one unit is released and the parked thread gets
it. -/
theorem C19_semaphore_bound_witness :
    ∃ m, (semaphore.Machine.init 2).run
        [semaphore.Action.request 1 1 0, semaphore.Action.requestBlocking 2 1,
          semaphore.Action.wait 3, semaphore.Action.release 1, semaphore.Action.waitWake 3]
        = some m ∧ m.sem.getUsed = 2 ∧ m.sem.getUsed ≤ m.sem.getCount :=
  ⟨((semaphore.Machine.init 2).run
      [semaphore.Action.request 1 1 0, semaphore.Action.requestBlocking 2 1,
        semaphore.Action.wait 3, semaphore.Action.release 1, semaphore.Action.waitWake 3]).get rfl,
    (Option.some_get _).symm, rfl,
    C19_semaphore_bound 2
      [semaphore.Action.request 1 1 0, semaphore.Action.requestBlocking 2 1,
        semaphore.Action.wait 3, semaphore.Action.release 1, semaphore.Action.waitWake 3]
      _ (Option.some_get _).symm⟩

/-- C20 (what the code does): on a semaphore of 5 units of which one wait() has
taken 1, request(4294967295, 0) returns true although 1 + 4294967295 exceeds 5:
the unsigned sum used + size wraps to 0, the test `used + size > count` fails,
and used becomes 0 instead of growing by 4294967295. -/
theorem C20_request_wraps :
    ∃ s1, (semaphore.init 5).wait = Step.ret s1 () [] ∧ s1.used = 1 ∧ s1.count = 5 ∧
      s1.request 4294967295 0 = Step.ret { count := 5, waits := 0, used := 0 } true [] ∧
      ¬ (s1.used + 4294967295 ≤ s1.count) :=
  ⟨{ count := 5, waits := 0, used := 1 }, rfl, rfl, rfl, rfl, by decide⟩

/-! ## ConditionalLock: lemmas -/

namespace ConditionalLock

theorem modify_loop_ret (s s1 : ConditionalLock) (ev : List Event)
    (h : modify_loop s = Step.ret s1 () ev) : s1.sharing = 0 := by
  unfold modify_loop at h
  by_cases hc : s.sharing ≠ 0
  · rw [if_pos hc] at h; cases h
  · rw [if_neg hc] at h
    have h1 := (Step.ret.inj h).1
    rw [← h1]; exact not_not.mp hc

theorem exclusive_loop_ret (s s1 : ConditionalLock) (ev : List Event)
    (h : exclusive_loop s = Step.ret s1 () ev) : s1.sharing = 0 := by
  unfold exclusive_loop at h
  by_cases hc : s.sharing ≠ 0
  · rw [if_pos hc] at h; cases h
  · rw [if_neg hc] at h
    have h1 := (Step.ret.inj h).1
    rw [← h1]; exact not_not.mp hc

theorem exclusive_ret (s s1 : ConditionalLock) (ev : List Event)
    (h : exclusive s = Step.ret s1 () ev) : s1.sharing = 0 := by
  unfold exclusive at h
  by_cases hc : s.sharing = 0
  · rw [if_pos hc] at h; cases h
  · rw [if_neg hc] at h
    exact exclusive_loop_ret _ _ _ h

theorem settle_held (m m1 : Machine) (t : Nat) (park : Pc) (st : Step ConditionalLock Unit)
    (h : m.settle t park st = some m1)
    (hpark : ¬ (park = Pc.modifying ∨ park = Pc.converted))
    (hothers : ∀ u, u ≠ t → ¬ (m.pc u = Pc.modifying ∨ m.pc u = Pc.converted)) : m1.held := by
  intro u hu
  exfalso
  cases st with
  | wait s =>
    simp only [Machine.settle, Option.some.injEq] at h
    subst h
    by_cases hut : u = t
    · subst hut; simp only [Function.update_same] at hu; exact hpark hu
    · simp only [Function.update_noteq hut] at hu; exact hothers u hut hu
  | ret s r ev =>
    simp only [Machine.settle, Option.some.injEq] at h
    subst h
    by_cases hut : u = t
    · subst hut; simp only [Function.update_same] at hu
      rcases hu with hu | hu <;> cases hu
    · simp only [Function.update_noteq hut] at hu; exact hothers u hut hu
  | abort => simp [Machine.settle] at h

theorem settleHeld_held (m m1 : Machine) (t : Nat) (park held : Pc)
    (st : Step ConditionalLock Unit) (h : m.settleHeld t park held st = some m1)
    (hpark : ¬ (park = Pc.modifying ∨ park = Pc.converted))
    (hothers : ∀ u, u ≠ t → ¬ (m.pc u = Pc.modifying ∨ m.pc u = Pc.converted))
    (hret : ∀ s1 ev, st = Step.ret s1 () ev → s1.sharing = 0) : m1.held := by
  intro u hu
  cases st with
  | wait s =>
    exfalso
    simp only [Machine.settleHeld, Option.some.injEq] at h
    subst h
    by_cases hut : u = t
    · subst hut; simp only [Function.update_same] at hu; exact hpark hu
    · simp only [Function.update_noteq hut] at hu; exact hothers u hut hu
  | ret s r ev =>
    simp only [Machine.settleHeld, Option.some.injEq] at h
    subst h
    by_cases hut : u = t
    · subst hut
      exact ⟨rfl, hret s ev rfl⟩
    · exfalso
      simp only [Function.update_noteq hut] at hu; exact hothers u hut hu
  | abort => simp [Machine.settleHeld] at h

theorem free_others (m : Machine) (hm : m.held) (hfree : m.mutex = none) (t : Nat) :
    ∀ u, u ≠ t → ¬ (m.pc u = Pc.modifying ∨ m.pc u = Pc.converted) := by
  intro u _ hu
  have := (hm u hu).1
  rw [hfree] at this
  cases this

theorem owner_others (m : Machine) (hm : m.held) (t : Nat) (hown : m.mutex = some t) :
    ∀ u, u ≠ t → ¬ (m.pc u = Pc.modifying ∨ m.pc u = Pc.converted) := by
  intro u hut hu
  have := (hm u hu).1
  rw [hown] at this
  exact hut (Option.some.inj this).symm

theorem next_held (max_sharing : Nat) (m m1 : Machine) (a : Action)
    (h : m.next max_sharing a = some m1) (hm : m.held) : m1.held := by
  cases a with
  | protect t =>
    simp only [Machine.next] at h
    split at h
    · rename_i hc
      exact settle_held _ _ _ _ _ h (by simp) (free_others m hm hc.1 t)
    · cases h
  | protectWake t =>
    simp only [Machine.next] at h
    split at h
    · rename_i hc
      exact settle_held _ _ _ _ _ h (by simp) (free_others m hm hc.1 t)
    · cases h
  | access t =>
    simp only [Machine.next] at h
    split at h
    · rename_i hc
      exact settle_held _ _ _ _ _ h (by simp) (free_others m hm hc.1 t)
    · cases h
  | accessWake t =>
    simp only [Machine.next] at h
    split at h
    · rename_i hc
      exact settle_held _ _ _ _ _ h (by simp) (free_others m hm hc.1 t)
    · cases h
  | release t =>
    simp only [Machine.next] at h
    split at h
    · rename_i hc
      exact settle_held _ _ _ _ _ h (by simp) (free_others m hm hc.1 t)
    · cases h
  | modify t =>
    simp only [Machine.next] at h
    split at h
    · rename_i hc
      exact settleHeld_held _ _ _ _ _ _ h (by simp) (free_others m hm hc.1 t)
        (fun s1 ev hr => modify_loop_ret _ _ _ hr)
    · cases h
  | modifyWake t =>
    simp only [Machine.next] at h
    split at h
    · rename_i hc
      exact settleHeld_held _ _ _ _ _ _ h (by simp) (free_others m hm hc.1 t)
        (fun s1 ev hr => modify_loop_ret _ _ _ hr)
    · cases h
  | commit t =>
    simp only [Machine.next] at h
    split at h
    · rename_i hc
      exact settle_held _ _ _ _ _ h (by simp) (owner_others m hm t hc.1)
    · cases h
  | exclusive t =>
    simp only [Machine.next] at h
    split at h
    · rename_i hc
      exact settleHeld_held _ _ _ _ _ _ h (by simp) (free_others m hm hc.1 t)
        (fun s1 ev hr => exclusive_ret _ _ _ hr)
    · cases h
  | exclusiveWake t =>
    simp only [Machine.next] at h
    split at h
    · rename_i hc
      exact settleHeld_held _ _ _ _ _ _ h (by simp) (free_others m hm hc.1 t)
        (fun s1 ev hr => exclusive_loop_ret _ _ _ hr)
    · cases h
  | share t =>
    simp only [Machine.next] at h
    split at h
    · rename_i hc
      exact settle_held _ _ _ _ _ h (by simp) (owner_others m hm t hc.1)
    · cases h

theorem run_held (max_sharing : Nat) (acts : List Action) :
    ∀ m m1 : Machine, m.run max_sharing acts = some m1 → m.held → m1.held := by
  induction acts with
  | nil => intro m m1 h hs; simp only [Machine.run, Option.some.injEq] at h; subst h; exact hs
  | cons a rest ih =>
    intro m m1 h hs
    simp only [Machine.run] at h
    cases hn : m.next max_sharing a with
    | none => rw [hn] at h; simp at h
    | some m2 =>
      rw [hn] at h
      exact ih m2 m1 (by simpa using h) (next_held _ _ _ _ hn hs)

theorem init_held : Machine.init.held := by
  intro u hu
  rcases hu with hu | hu <;> cases hu

end ConditionalLock

/-! ## ConditionalLock: claims -/

/-- C15 (as stated, refuted): after access() and exclusive() by thread 1 on a
fresh lock, thread 1 is in exclusive mode (exclusive() has returned, share()
has not been called) and the sharing counter is 0, not 1. -/
theorem C15_exclusive_sharing_counterexample :
    ¬ (∀ (acts : List ConditionalLock.Action) (m : ConditionalLock.Machine) (t : Nat),
        ConditionalLock.Machine.init.run 0 acts = some m →
        m.pc t = ConditionalLock.Pc.converted → m.lock.sharing = 1) := by
  intro h
  have h1 := h [ConditionalLock.Action.access 1, ConditionalLock.Action.exclusive 1]
    ((ConditionalLock.Machine.init.run 0
      [ConditionalLock.Action.access 1, ConditionalLock.Action.exclusive 1]).get rfl) 1
    (Option.some_get _).symm rfl
  exact absurd h1 (by decide)

/-- C15 (amended): in every state reached from a freshly constructed
ConditionalLock, whenever exclusive() has returned to a thread and share() has
not yet been called by it (exclusive mode), that thread holds the mutex of the
lock and the sharing counter equals 0: the thread's own hold has been
withdrawn and no thread holds shared access. share() then sets sharing to 1
and gives up the mutex. -/
theorem C15_exclusive_sharing (max_sharing : Nat) (acts : List ConditionalLock.Action)
    (m : ConditionalLock.Machine) (t : Nat)
    (hrun : ConditionalLock.Machine.init.run max_sharing acts = some m)
    (hmode : m.pc t = ConditionalLock.Pc.converted) :
    m.lock.sharing = 0 ∧ m.mutex = some t ∧
    ∃ m1, m.next max_sharing (ConditionalLock.Action.share t) = some m1 ∧
      m1.lock.sharing = 1 ∧ m1.mutex = none ∧ m1.pc t = ConditionalLock.Pc.idle := by
  have hheld := ConditionalLock.run_held max_sharing acts _ _ hrun ConditionalLock.init_held
  obtain ⟨hmutex, hsharing⟩ := hheld t (Or.inr hmode)
  refine ⟨hsharing, hmutex, ?_⟩
  have hshare : m.lock.share = Step.ret { m.lock with sharing := 1 } () [] := by
    unfold ConditionalLock.share
    rw [if_neg (by simp [hsharing]), hsharing, rwlock.uinc_zero]
  refine ⟨{ lock := { m.lock with sharing := 1 }, mutex := none,
            pc := Function.update m.pc t ConditionalLock.Pc.idle }, ?_, rfl, rfl, ?_⟩
  · simp only [ConditionalLock.Machine.next]
    rw [if_pos ⟨hmutex, Or.inr hmode⟩, hshare]
    rfl
  · simp only [Function.update_same]

/-- C15 (amended) on the schedule access, access by threads 1 and 2, exclusive
by thread 1 (which parks), release by thread 2, wake-up of thread 1. -/
theorem C15_exclusive_sharing_witness :
    ∃ m, ConditionalLock.Machine.init.run 0
        [ConditionalLock.Action.access 1, ConditionalLock.Action.access 2,
          ConditionalLock.Action.exclusive 1, ConditionalLock.Action.release 2,
          ConditionalLock.Action.exclusiveWake 1] = some m ∧
      m.pc 1 = ConditionalLock.Pc.converted ∧ m.lock.sharing = 0 ∧ m.mutex = some 1 :=
  have h := C15_exclusive_sharing 0
    [ConditionalLock.Action.access 1, ConditionalLock.Action.access 2,
      ConditionalLock.Action.exclusive 1, ConditionalLock.Action.release 2,
      ConditionalLock.Action.exclusiveWake 1]
    ((ConditionalLock.Machine.init.run 0
      [ConditionalLock.Action.access 1, ConditionalLock.Action.access 2,
        ConditionalLock.Action.exclusive 1, ConditionalLock.Action.release 2,
        ConditionalLock.Action.exclusiveWake 1]).get rfl) 1
    (Option.some_get _).symm rfl
  ⟨_, (Option.some_get _).symm, rfl, h.1, h.2.1⟩

/-! ## semaphore release: claims -/

theorem semaphore.release_eq (s : semaphore) (h : s.used < UINT_MOD) :
    semaphore.release s =
      Step.ret { s with used := s.used - 1 } ()
        (if s.waits ≠ 0 then [Event.signal] else []) := by
  have hdec : s.used ≠ 0 → udec s.used = s.used - 1 := by
    intro h0
    unfold udec UINT_MOD at *
    omega
  unfold semaphore.release
  by_cases hu : s.used ≠ 0
  · simp only [if_pos hu, hdec hu]
    by_cases hw : s.waits ≠ 0
    · rw [if_pos hw, if_pos hw]
    · rw [if_neg hw, if_neg hw]
  · have hz : s.used = 0 := not_not.mp hu
    simp only [if_neg hu]
    have hs : ({ s with used := s.used - 1 } : semaphore) = s := by
      cases s; simp only [semaphore.mk.injEq, true_and] at hz ⊢; omega
    rw [hs]
    by_cases hw : s.waits ≠ 0
    · rw [if_pos hw, if_pos hw]
    · rw [if_neg hw, if_neg hw]

/-- C21: semaphore release is clamped. For every semaphore state (used an
unsigned) and every n, release(n) returns with used equal to used_before - n
clamped at 0, count and waits unchanged, and one signal issued for each of its
n calls of release() when waits > 0, none when waits == 0. -/
theorem C21_semaphore_release_n (n : Nat) :
    ∀ s : semaphore, s.used < UINT_MOD →
      semaphore.release_n n s =
        Step.ret { s with used := s.used - n } ()
          (if s.waits ≠ 0 then List.replicate n Event.signal else []) := by
  induction n with
  | zero =>
    intro s _
    simp only [semaphore.release_n, Nat.sub_zero, List.replicate_zero, ite_self]
  | succ n ih =>
    intro s h
    have h1 : s.used - 1 < UINT_MOD := by omega
    have hrec := ih { s with used := s.used - 1 } h1
    rw [semaphore.release_n, semaphore.release_eq s h, Step.seq, hrec]
    have hsub : s.used - 1 - n = s.used - (n + 1) := by omega
    by_cases hw : s.waits ≠ 0
    · simp only [if_pos hw, hsub, List.replicate_succ, List.singleton_append]
    · simp only [if_neg hw, hsub, List.append_nil]

/-- C21 at a semaphore with 2 units in use and one waiter: release(5) clamps
used at 0 and signals five times. -/
theorem C21_semaphore_release_n_witness :
    semaphore.release_n 5 { count := 4, waits := 1, used := 2 } =
      Step.ret { count := 4, waits := 1, used := 0 } ()
        (List.replicate 5 Event.signal) :=
  C21_semaphore_release_n 5 { count := 4, waits := 1, used := 2 } (by decide)

/-! ## Buffer: claims -/

/-- C22 (what the code does): the constructor computes the storage size from
the member count it has not yet set, never from its argument c: the size is
osize * count0 whatever c is. Buffer(4, 3) built where that member holds 0 has
a storage of 0 bytes and getSize() returns 0; where it holds 7, getSize()
returns 7. -/
theorem C22_buffer_size_ignores_capacity :
    (∀ osize c count0 block : Nat,
      (Buffer.init osize c count0 block).size = (osize * count0) % SIZE_MOD) ∧
    (Buffer.init 4 3 0 1000).size = 0 ∧ (Buffer.init 4 3 0 1000).getSize = 0 ∧
    (Buffer.init 4 3 7 1000).size = 28 ∧ (Buffer.init 4 3 7 1000).getSize = 7 :=
  ⟨fun _ _ _ _ => rfl, rfl, rfl, rfl, rfl⟩

/-- C23 (what the code does): on a Buffer of capacity 2 with one-byte elements
whose block is at address 1000, two puts make the buffer full (count is 2),
with head 1000 and tail 0; getCount() then returns 4294966298, not 2. And
whenever the two cursors coincide, as they would on a full buffer whose tail
had wrapped to buf, getCount() returns 0. -/
theorem C23_getCount_full :
    (∃ s1 s2, (Buffer.init 1 2 2 1000).put [7] = Step.ret s1 () [Event.signal] ∧
      s1.put [8] = Step.ret s2 () [Event.signal] ∧
      s2.count = 2 ∧ s2.limit = 2 ∧ s2.head = 1000 ∧ s2.tail = 0 ∧
      s2.getCount = 4294966298) ∧
    (∀ s : Buffer, Buffer.getCount { s with tail := s.head } = 0) := by
  refine ⟨⟨_, _, rfl, rfl, rfl, rfl, rfl, rfl, by decide⟩, fun s => ?_⟩
  unfold Buffer.getCount
  simp

/-- C24 (what the code does): on a Buffer of capacity 2 with one-byte elements
whose block is at address 1000, the put that fills the last slot sets the tail
cursor to 0 (NULL), not to buf; after the following get() and release(), a
further put copies through that null cursor and faults instead of storing its
element in slot 0. -/
theorem C24_put_tail_null :
    ∃ s1 s2 s3, (Buffer.init 1 2 2 1000).put [7] = Step.ret s1 () [Event.signal] ∧
      s1.tail = 1001 ∧
      s1.put [8] = Step.ret s2 () [Event.signal] ∧
      s2.buf = 1000 ∧ s2.tail = 0 ∧ s2.store = [7, 8] ∧
      s2.get = Step.ret s2 1000 [] ∧
      s2.release = Step.ret s3 () [Event.signal] ∧
      s3.head = 1001 ∧ s3.count = 1 ∧
      s3.put [9] = Step.abort ∧ s3.put_timeout [9] 0 = Step.abort :=
  ⟨_, _, _, rfl, rfl, rfl, rfl, rfl, rfl, rfl, rfl, rfl, rfl, rfl, rfl⟩

/-- C25 (what the code does): on a Buffer of capacity 1 with one-byte elements
whose block is at address 1000, put(d, 0) succeeds and fills the buffer, a
second put(d, 0) returns false and changes nothing, and after one get() and
release() (count is 0 again) put(d, 0) does not succeed: the tail cursor is 0
since the first put, and the copy through it faults. -/
theorem C25_put_after_release_faults :
    ∃ s1 s2, (Buffer.init 1 1 1 1000).put_timeout [7] 0 = Step.ret s1 true [Event.signal] ∧
      s1.count = 1 ∧ s1.limit = 1 ∧ s1.tail = 0 ∧
      s1.put_timeout [8] 0 = Step.ret s1 false [] ∧
      s1.get_timeout 0 = Step.ret s1 1000 [] ∧
      s1.release = Step.ret s2 () [Event.signal] ∧
      s2.count = 0 ∧ s2.head = 1000 ∧ s2.tail = 0 ∧
      s2.put_timeout [8] 0 = Step.abort :=
  ⟨_, _, rfl, rfl, rfl, rfl, rfl, rfl, rfl, rfl, rfl, rfl, rfl⟩

theorem Buffer.buffer_release_eq (s : Buffer) :
    s.release = Step.ret
      { s with head := (if s.head + s.objsize ≥ s.buf + s.size then s.buf else s.head + s.objsize), count := udec s.count }
      () [Event.signal] := rfl

theorem Buffer.get_timeout_nonempty (s : Buffer) (timeout : Nat) (h : s.count ≠ 0) :
    s.get_timeout timeout = Step.ret s s.head [] := by
  unfold Buffer.get_timeout Buffer.get_timeout_loop Buffer.get_timeout_exit
  rw [if_neg (fun hc => h hc.1), if_pos ⟨h, rfl⟩]

theorem Buffer.get_timeout_empty (s : Buffer) (h : s.count = 0) :
    s.get_timeout 0 = Step.ret s 0 [] := by
  have hinf : ¬ (0 = Timer.inf) := Timer.inf_ne_zero
  unfold Buffer.get_timeout Buffer.get_timeout_loop Buffer.get_timeout_exit
  rw [if_pos ⟨h, rfl⟩, if_neg hinf, if_neg (fun h0 : (0 : Nat) ≠ 0 => h0 rfl),
    if_neg (fun hc => by cases hc.2)]

/-- C26: peek-then-acknowledge. For every Buffer with count > 0, get() and
get(timeout) return the head cursor and leave the whole state (head, tail,
count) unchanged, so that a second get returns the same slot; release() then
decrements count by one, leaves tail alone and moves head from slot i to slot
(i + 1) mod C of a storage of C slots; get(0) on an empty buffer returns NULL
and changes nothing. -/
theorem C26_peek_then_acknowledge (s : Buffer) :
    (s.count ≠ 0 →
      s.get = Step.ret s s.head [] ∧ ∀ timeout, s.get_timeout timeout = Step.ret s s.head []) ∧
    (∀ s1 ev, s.release = Step.ret s1 () ev →
      s1.tail = s.tail ∧ s1.count = udec s.count ∧
      (0 < s.count → s.count < UINT_MOD → s1.count = s.count - 1) ∧
      (∀ c i, 0 < s.objsize → s.size = c * s.objsize → i < c →
        s.head = s.buf + i * s.objsize → s1.head = s.buf + ((i + 1) % c) * s.objsize)) ∧
    (s.count = 0 → s.get_timeout 0 = Step.ret s 0 []) := by
  refine ⟨fun h => ⟨?_, fun timeout => Buffer.get_timeout_nonempty s timeout h⟩,
    fun s1 ev hrel => ?_, Buffer.get_timeout_empty s⟩
  · unfold Buffer.get Buffer.get_loop
    rw [if_neg h]
  · rw [Buffer.buffer_release_eq] at hrel
    have h1 := (Step.ret.inj hrel).1
    subst h1
    refine ⟨rfl, rfl, fun hpos hlt => ?_, fun c i hobj hsize hi hhead => ?_⟩
    · show udec s.count = s.count - 1
      unfold udec UINT_MOD at *
      omega
    · show (if s.head + s.objsize ≥ s.buf + s.size then s.buf else s.head + s.objsize) =
        s.buf + ((i + 1) % c) * s.objsize
      have hnext : s.head + s.objsize = s.buf + (i + 1) * s.objsize := by
        rw [hhead, Nat.add_mul, Nat.one_mul, Nat.add_assoc]
      rcases Nat.lt_or_ge (i + 1) c with hlt | hge
      · have hmul : (i + 1) * s.objsize < c * s.objsize :=
          Nat.mul_lt_mul_of_pos_right hlt hobj
        rw [if_neg (by rw [hnext, hsize]; omega), hnext, Nat.mod_eq_of_lt hlt]
      · have hc : c = i + 1 := by omega
        rw [if_pos (by rw [hnext, hsize, hc]), hc, Nat.mod_self,
          Nat.zero_mul, Nat.add_zero]

/-- C26 at a Buffer of 3 two-byte slots at address 1000 holding two elements,
head at the last slot: get returns 1004 twice, release moves head to 1000. -/
theorem C26_peek_then_acknowledge_witness :
    Buffer.get (Buffer.mk 6 2 1000 1004 1002 2 3 [1, 1, 2, 2, 3, 3]) =
      Step.ret (Buffer.mk 6 2 1000 1004 1002 2 3 [1, 1, 2, 2, 3, 3]) 1004 [] ∧
    (∀ s1 ev, Buffer.release (Buffer.mk 6 2 1000 1004 1002 2 3 [1, 1, 2, 2, 3, 3]) = Step.ret s1 () ev →
      s1.count = 2 - 1 ∧ s1.head = 1000 + ((2 + 1) % 3) * 2) :=
  ⟨((C26_peek_then_acknowledge (Buffer.mk 6 2 1000 1004 1002 2 3 [1, 1, 2, 2, 3, 3])).1 (by decide)).1,
    fun s1 ev h =>
      ⟨((C26_peek_then_acknowledge (Buffer.mk 6 2 1000 1004 1002 2 3 [1, 1, 2, 2, 3, 3])).2.1 s1 ev h).2.2.1
          (by decide) (by decide),
        ((C26_peek_then_acknowledge (Buffer.mk 6 2 1000 1004 1002 2 3 [1, 1, 2, 2, 3, 3])).2.1 s1 ev h).2.2.2
          3 2 (by decide) rfl (by decide) rfl⟩⟩

/-! ## PooledThread: lemmas -/

theorem udec_eq (x : Nat) (h0 : 0 < x) (h : x < UINT_MOD) : udec x = x - 1 := by
  unfold udec UINT_MOD at *; omega

theorem uinc_eq (x : Nat) (h : x + 1 < UINT_MOD) : uinc x = x + 1 := by
  unfold uinc; exact Nat.mod_eq_of_lt h

namespace PooledThread

theorem wakeup_loop_zero (yield : PooledThread → PooledThread) (fuel : Nat) :
    ∀ (s : PooledThread) (w : Nat) (ev : List Event),
      wakeup_loop yield 0 fuel s w ev = none := by
  induction fuel with
  | zero => intro s w ev; rfl
  | succ fuel ih =>
    intro s w ev
    rw [wakeup_loop, if_pos (Nat.zero_le _)]
    exact ih _ _ _

theorem wakeup_loop_done (yield : PooledThread → PooledThread) (limit fuel : Nat)
    (s : PooledThread) (w : Nat) (ev : List Event) (h : s.waits < limit) :
    wakeup_loop yield limit (fuel + 1) s w ev = some (s, w, ev) := by
  rw [wakeup_loop, if_neg (by omega)]

theorem resumed_eq (s : PooledThread) :
    resumed s = { poolsize := s.poolsize, poolused := s.poolused, waits := udec s.waits } := rfl

theorem wakeup_loop_run (limit : Nat) (hlimit : 1 ≤ limit) (k : Nat) :
    ∀ (s : PooledThread) (w : Nat) (ev : List Event) (fuel : Nat),
      s.waits + 1 = limit + k → s.waits < UINT_MOD → w + k < UINT_MOD → k < fuel →
      wakeup_loop resumed limit fuel s w ev =
        some ({ s with waits := limit - 1 }, w + k, ev ++ List.replicate k Event.signal) := by
  induction k with
  | zero =>
    intro s w ev fuel hk _ _ hfuel
    obtain ⟨f, rfl⟩ : ∃ f, fuel = f + 1 := ⟨fuel - 1, by omega⟩
    rw [wakeup_loop_done _ _ _ _ _ _ (by omega)]
    have hs : ({ s with waits := limit - 1 } : PooledThread) = s := by
      cases s
      simp only [PooledThread.mk.injEq, true_and] at hk ⊢
      omega
    rw [hs]
    simp
  | succ k ih =>
    intro s w ev fuel hk hrange hw hfuel
    obtain ⟨f, rfl⟩ : ∃ f, fuel = f + 1 := ⟨fuel - 1, by omega⟩
    have hdec : udec s.waits = s.waits - 1 := udec_eq _ (by omega) hrange
    have hinc : uinc w = w + 1 := uinc_eq _ (by omega)
    rw [wakeup_loop, if_pos (by omega), hinc]
    have hrec := ih (resumed s) (w + 1) (ev ++ [Event.signal]) f
      (by show udec s.waits + 1 = limit + k; rw [hdec]; omega)
      (by show udec s.waits < UINT_MOD; rw [hdec]; omega) (by omega) (by omega)
    rw [hrec]
    have h1 : w + 1 + k = w + (k + 1) := by omega
    rw [h1, List.replicate_succ, List.append_assoc, List.singleton_append, resumed_eq]

end PooledThread

/-! ## PooledThread: claims -/

/-- C27 (as stated, refuted): with limit 0 the test `waits >= limit` of
wakeup holds for every value of waits, so the loop is never left, even on a
fresh pool with no suspended worker and although every signalled worker is
taken to resume. -/
theorem C27_wakeup_zero_counterexample :
    ¬ (∀ (limit : Nat) (s : PooledThread), s.waits < UINT_MOD →
        ∃ fuel, (PooledThread.wakeup PooledThread.resumed limit fuel s).isSome = true) := by
  intro h
  obtain ⟨fuel, hfuel⟩ := h 0 PooledThread.init (by decide)
  rw [PooledThread.wakeup, PooledThread.wakeup_loop_zero] at hfuel
  cases hfuel

/-- C27 (amended): PooledThread::wakeup(limit) terminates for every limit >= 1
and every number of suspended workers, provided each signalled worker resumes
and decrements the suspended count before the caller tests again: it makes
k = waits + 1 - limit passes when waits >= limit and none otherwise, leaves
fewer than limit workers suspended, issues k signals and returns k. -/
theorem C27_wakeup_terminates (limit : Nat) (s : PooledThread) (hlimit : 1 ≤ limit)
    (hrange : s.waits < UINT_MOD) :
    (∀ fuel, (if limit ≤ s.waits then s.waits + 1 - limit else 0) < fuel →
      PooledThread.wakeup PooledThread.resumed limit fuel s =
        some ({ s with waits := s.waits - (if limit ≤ s.waits then s.waits + 1 - limit else 0) },
          (if limit ≤ s.waits then s.waits + 1 - limit else 0),
          List.replicate (if limit ≤ s.waits then s.waits + 1 - limit else 0) Event.signal)) ∧
    s.waits - (if limit ≤ s.waits then s.waits + 1 - limit else 0) < limit := by
  by_cases hge : limit ≤ s.waits
  · simp only [if_pos hge]
    refine ⟨fun fuel hfuel => ?_, by omega⟩
    have hrun := PooledThread.wakeup_loop_run limit hlimit (s.waits + 1 - limit) s 0 [] fuel
      (by omega) hrange (by omega) hfuel
    rw [PooledThread.wakeup, hrun]
    have h1 : s.waits - (s.waits + 1 - limit) = limit - 1 := by omega
    rw [h1, Nat.zero_add, List.nil_append]
  · simp only [if_neg hge, Nat.sub_zero]
    refine ⟨fun fuel hfuel => ?_, by omega⟩
    obtain ⟨f, rfl⟩ : ∃ f, fuel = f + 1 := ⟨fuel - 1, by omega⟩
    rw [PooledThread.wakeup, PooledThread.wakeup_loop_done _ _ _ _ _ _ (by omega)]
    rfl

/-- C27 (amended) at a pool with three suspended workers: wakeup(1) makes three
passes and returns 3. -/
theorem C27_wakeup_terminates_witness :
    PooledThread.wakeup PooledThread.resumed 1 4 { poolsize := 3, poolused := 3, waits := 3 } =
      some ({ poolsize := 3, poolused := 3, waits := 0 }, 3, List.replicate 3 Event.signal) :=
  (C27_wakeup_terminates 1 { poolsize := 3, poolused := 3, waits := 3 } (by decide)
    (by decide)).1 4 (by decide)

/-- C28: PooledThread::sync rendezvous. With A >= 2 active workers
(poolused == A, an unsigned) and whatever poolsize: a call to sync() that finds
fewer than A - 1 workers arrived increments waits and parks, so from
waits == 0 the first A - 1 calls leave waits == A - 1; the A-th call broadcasts
and resets waits to 0, which is the initial state again. With fewer than 2
active workers sync() returns at once and changes no counter. -/
theorem C28_sync_rendezvous (p a : Nat) (ha : 2 ≤ a) (hrange : a < UINT_MOD) :
    (∀ k, k + 1 < a →
      PooledThread.sync { poolsize := p, poolused := a, waits := k } =
        Step.wait { poolsize := p, poolused := a, waits := k + 1 }) ∧
    (∀ j, j < a →
      PooledThread.rendezvous { poolsize := p, poolused := a, waits := 0 } j =
        some { poolsize := p, poolused := a, waits := j }) ∧
    PooledThread.sync { poolsize := p, poolused := a, waits := a - 1 } =
      Step.ret { poolsize := p, poolused := a, waits := 0 } () [Event.broadcast] ∧
    PooledThread.rendezvous { poolsize := p, poolused := a, waits := 0 } a =
      some { poolsize := p, poolused := a, waits := 0 } ∧
    (∀ s : PooledThread, s.poolused < 2 → PooledThread.sync s = Step.ret s () []) := by
  have hpark : ∀ k, k + 1 < a →
      PooledThread.sync { poolsize := p, poolused := a, waits := k } =
        Step.wait { poolsize := p, poolused := a, waits := k + 1 } := by
    intro k hk
    unfold PooledThread.sync
    rw [if_neg (by show ¬ a < 2; omega)]
    dsimp only
    rw [uinc_eq k (by omega), if_neg (by show ¬ k + 1 = a; omega)]
  have hlast : PooledThread.sync { poolsize := p, poolused := a, waits := a - 1 } =
      Step.ret { poolsize := p, poolused := a, waits := 0 } () [Event.broadcast] := by
    unfold PooledThread.sync
    rw [if_neg (by show ¬ a < 2; omega)]
    dsimp only
    rw [uinc_eq (a - 1) (by omega), if_pos (by show a - 1 + 1 = a; omega)]
  have hrun : ∀ j k, k + j < a →
      PooledThread.rendezvous { poolsize := p, poolused := a, waits := k } j =
        some { poolsize := p, poolused := a, waits := k + j } := by
    intro j
    induction j with
    | zero => intro k _; rfl
    | succ j ih =>
      intro k hk
      rw [PooledThread.rendezvous, hpark k (by omega)]
      simp only [Step.after?, Option.some_bind]
      rw [ih (k + 1) (by omega)]
      congr 2
      omega
  have hsplit : ∀ (j : Nat) (s : PooledThread), s.rendezvous (j + 1) =
      (s.rendezvous j).bind (fun s1 => s1.sync.after?) := by
    intro j
    induction j with
    | zero => intro s; simp [PooledThread.rendezvous]
    | succ j ih =>
      intro s
      rw [PooledThread.rendezvous]
      cases hs : s.sync.after? with
      | none => simp [PooledThread.rendezvous, hs]
      | some s1 =>
        simp only [Option.some_bind]
        rw [ih s1]
        conv_rhs => rw [PooledThread.rendezvous, hs]
        simp only [Option.some_bind]
  refine ⟨hpark, fun j hj => ?_, hlast, ?_, fun s hs => ?_⟩
  · have := hrun j 0 (by omega)
    rw [Nat.zero_add] at this
    exact this
  · obtain ⟨m, rfl⟩ : ∃ m, a = m + 1 := ⟨a - 1, by omega⟩
    have h0 := hrun m 0 (by omega)
    rw [Nat.zero_add] at h0
    rw [hsplit, h0]
    simp only [Option.some_bind]
    have h1 := hlast
    simp only [Nat.add_sub_cancel] at h1
    rw [h1]
    rfl
  · unfold PooledThread.sync
    rw [if_pos hs]

/-- C28 for three active workers in a pool of size 8. -/
theorem C28_sync_rendezvous_witness :
    PooledThread.rendezvous { poolsize := 8, poolused := 3, waits := 0 } 2 =
      some { poolsize := 8, poolused := 3, waits := 2 } ∧
    PooledThread.rendezvous { poolsize := 8, poolused := 3, waits := 0 } 3 =
      some { poolsize := 8, poolused := 3, waits := 0 } :=
  ⟨(C28_sync_rendezvous 8 3 (by decide) (by decide)).2.1 2 (by decide),
    (C28_sync_rendezvous 8 3 (by decide) (by decide)).2.2.2.1⟩

/-! ## LockedPointer: lemmas -/

namespace LockedPointer

theorem counts_append (refs : Nat → Nat) (ev1 ev2 : List Event) :
    Object.counts refs (ev1 ++ ev2) = Object.counts (Object.counts refs ev1) ev2 := by
  unfold Object.counts
  rw [List.foldl_append]

/-- A holder of one reference to `o`, besides the reference of the pointer
itself while it points to `o`, keeps it through any sequence of replace
calls. -/
theorem replaceAll_keeps (o : Nat) (objs : List Nat) :
    ∀ (p : LockedPointer) (refs : Nat → Nat),
      1 + (if p.pointer = some o then 1 else 0) ≤ refs o →
      ∃ p2 ev, replaceAll objs p = Step.ret p2 () ev ∧
        1 + (if p2.pointer = some o then 1 else 0) ≤ Object.counts refs ev o := by
  induction objs with
  | nil => intro p refs h; exact ⟨p, [], rfl, h⟩
  | cons x rest ih =>
    intro p refs h
    have hstep : ∃ ev1, replace x p = Step.ret { pointer := some x } () ev1 ∧
        1 + (if (some x : Option Nat) = some o then 1 else 0) ≤ Object.counts refs ev1 o := by
      cases hp : p.pointer with
      | none =>
        refine ⟨[Event.retain x], by simp only [replace, hp], ?_⟩
        rw [hp] at h
        simp only [Object.counts, List.foldl, Object.count, Function.update_apply,
          Option.some.injEq, reduceCtorEq, if_false] at h ⊢
        by_cases hx : x = o
        · subst hx; simp only [if_true]; omega
        · rw [if_neg hx, if_neg (fun h1 => hx h1.symm)]; omega
      | some old =>
        refine ⟨[Event.retain x, Event.release old], by simp only [replace, hp], ?_⟩
        rw [hp] at h
        simp only [Object.counts, List.foldl, Object.count, Function.update_apply,
          Option.some.injEq] at h ⊢
        by_cases hx : x = o <;> by_cases hold : old = o
        · subst hx; subst hold; simp only [if_true] at h ⊢; omega
        · subst hx
          simp only [if_true, if_neg hold, if_neg (fun h1 : x = old => hold h1.symm)] at h ⊢
          omega
        · subst hold
          simp only [if_true, if_neg hx, if_neg (fun h1 : old = x => hx h1.symm)] at h ⊢
          omega
        · simp only [if_neg hx, if_neg hold, if_neg (fun h1 : o = x => hx h1.symm),
            if_neg (fun h1 : o = old => hold h1.symm)] at h ⊢
          omega
    obtain ⟨ev1, h1, h2⟩ := hstep
    obtain ⟨p2, ev2, h3, h4⟩ := ih { pointer := some x } (Object.counts refs ev1) h2
    refine ⟨p2, ev1 ++ ev2, ?_, ?_⟩
    · rw [replaceAll, h1, Step.seq, h3]
    · rw [counts_append]; exact h4

end LockedPointer

/-! ## LockedPointer: claims -/

/-- C29: LockedPointer publication keeps old readers valid. replace(obj) adds
one reference to obj, drops one reference from the previous pointee if there is
one, and makes dup() return obj; dup() adds one reference to the object it
returns. Consequently, when the pointer holds a reference to o and a caller
obtains o from dup(), then after any number of later replace() calls (also
ones that are given o itself) the reference count of o is still at least 1. -/
theorem C29_locked_pointer_keeps_reference (refs : Nat → Nat) (p : LockedPointer) (o : Nat)
    (objs : List Nat) (hp : p.pointer = some o) (hown : 1 ≤ refs o) :
    p.dup = Step.ret p (some o) [Event.retain o] ∧
    (∀ x, LockedPointer.replace x p =
        Step.ret { pointer := some x } () [Event.retain x, Event.release o] ∧
      LockedPointer.replace x LockedPointer.init =
        Step.ret { pointer := some x } () [Event.retain x] ∧
      LockedPointer.dup { pointer := some x } =
        Step.ret { pointer := some x } (some x) [Event.retain x]) ∧
    Object.counts refs [Event.retain o] o = refs o + 1 ∧
    ∃ p2 ev, LockedPointer.replaceAll objs p = Step.ret p2 () ev ∧
      1 ≤ Object.counts (Object.counts refs [Event.retain o]) ev o := by
  have hdup : Object.counts refs [Event.retain o] o = refs o + 1 := by
    simp only [Object.counts, List.foldl, Object.count, Function.update_same]
  refine ⟨by simp only [LockedPointer.dup, hp], fun x => ⟨?_, rfl, rfl⟩, hdup, ?_⟩
  · simp only [LockedPointer.replace, hp]
  · obtain ⟨p2, ev, h1, h2⟩ := LockedPointer.replaceAll_keeps o objs p
      (Object.counts refs [Event.retain o]) (by rw [hdup, if_pos hp]; omega)
    exact ⟨p2, ev, h1, by omega⟩

/-- C29 for a pointer to object 5 with one reference, then replaced by 6, by 5
again and by 7: object 5 keeps the reference obtained from dup(). -/
theorem C29_locked_pointer_keeps_reference_witness :
    ∃ p2 ev, LockedPointer.replaceAll [6, 5, 7] { pointer := some 5 } = Step.ret p2 () ev ∧
      1 ≤ Object.counts (Object.counts (fun _ => 1) [Event.retain 5]) ev 5 :=
  (C29_locked_pointer_keeps_reference (fun _ => 1) { pointer := some 5 } 5 [6, 5, 7] rfl
    (Nat.le_refl 1)).2.2.2

/-! ## shared_release: lemmas -/

theorem ConditionalLock.access_free (max_sharing : Nat) (l : ConditionalLock)
    (hpending : l.pending = 0) (hrange : l.sharing + 1 < UINT_MOD)
    (hmax : max_sharing = 0 ∨ l.sharing < max_sharing) :
    l.access max_sharing = Step.ret { l with sharing := l.sharing + 1 } () [] := by
  have hA : ¬ (max_sharing ≠ 0 ∧ ¬ l.sharing < max_sharing) := by
    rintro ⟨h1, h2⟩
    rcases hmax with h | h
    · exact h1 h
    · exact h2 h
  unfold ConditionalLock.access ConditionalLock.access_loop
  rw [if_neg hA, if_neg (by simp [hpending]), uinc_eq _ hrange]

theorem ConditionalLock.release_shared (l : ConditionalLock) (n : Nat)
    (hpending : l.pending = 0) (hsharing : l.sharing = n + 1) (hrange : n + 1 < UINT_MOD) :
    l.release = Step.ret { l with sharing := n } ()
      (if l.waiting ≠ 0 then [Event.broadcast] else []) := by
  have hdec : udec l.sharing = n := by
    rw [hsharing, udec_eq _ (by omega) hrange]; rfl
  unfold ConditionalLock.release
  rw [if_neg (by omega)]
  dsimp only
  rw [hdec]
  by_cases hw : l.waiting ≠ 0
  · rw [if_pos ⟨hw, Or.inl hpending⟩, if_pos hw]
  · rw [if_neg (fun h => hw h.1), if_neg (fun h => h.1 hpending), if_neg hw]

/-! ## shared_release: claims -/

/-- C30: scoped shared guard is balanced. Constructing a shared_release over a
SharedPointer p with no exclusive conversion pending returns without waiting
and increments p's sharing counter by exactly one; the guard's release(), and
likewise its destruction, decrements it by exactly one and clears the guard;
destroying the guard after an explicit release() changes nothing more, so p is
back in the state it had before the guard was created. -/
theorem C30_shared_guard_balanced (max_sharing addr : Nat) (p : SharedPointer)
    (hpending : p.lock.pending = 0) (hrange : p.lock.sharing + 1 < UINT_MOD)
    (hmax : max_sharing = 0 ∨ p.lock.sharing < max_sharing) :
    ∃ p1 ev,
      shared_release.construct max_sharing addr p = Step.ret ({ ptr := some addr }, p1) () [] ∧
      p1.lock.sharing = p.lock.sharing + 1 ∧
      shared_release.release { ptr := some addr } p1 = Step.ret ({ ptr := none }, p) () ev ∧
      shared_release.destructor { ptr := some addr } p1 = Step.ret ({ ptr := none }, p) () ev ∧
      shared_release.destructor { ptr := none } p = Step.ret ({ ptr := none }, p) () [] := by
  have hacc := ConditionalLock.access_free max_sharing p.lock hpending hrange hmax
  have hrel := ConditionalLock.release_shared { p.lock with sharing := p.lock.sharing + 1 }
    p.lock.sharing hpending rfl hrange
  have hrelease : shared_release.release { ptr := some addr }
      { p with lock := { p.lock with sharing := p.lock.sharing + 1 } } =
      Step.ret ({ ptr := none }, p) ()
        (if p.lock.waiting ≠ 0 then [Event.broadcast] else []) := by
    simp only [shared_release.release, hrel, SharedPointer.lift, shared_release.bind]
  refine ⟨{ p with lock := { p.lock with sharing := p.lock.sharing + 1 } },
    if p.lock.waiting ≠ 0 then [Event.broadcast] else [], ?_, rfl, hrelease, hrelease, rfl⟩
  simp only [shared_release.construct, SharedPointer.share, hacc, SharedPointer.lift,
    shared_release.bind]

/-- C30 for a SharedPointer shared by two threads already. -/
theorem C30_shared_guard_balanced_witness :
    ∃ p1 ev,
      shared_release.construct 0 100 (SharedPointer.mk (ConditionalLock.mk 0 2 0) (some 9)) =
        Step.ret ({ ptr := some 100 }, p1) () [] ∧
      p1.lock.sharing = 2 + 1 ∧
      shared_release.release { ptr := some 100 } p1 =
        Step.ret ({ ptr := none }, SharedPointer.mk (ConditionalLock.mk 0 2 0) (some 9)) () ev ∧
      shared_release.destructor { ptr := some 100 } p1 =
        Step.ret ({ ptr := none }, SharedPointer.mk (ConditionalLock.mk 0 2 0) (some 9)) () ev ∧
      shared_release.destructor { ptr := none }
          (SharedPointer.mk (ConditionalLock.mk 0 2 0) (some 9)) =
        Step.ret ({ ptr := none }, SharedPointer.mk (ConditionalLock.mk 0 2 0) (some 9)) () [] :=
  C30_shared_guard_balanced 0 100 (SharedPointer.mk (ConditionalLock.mk 0 2 0) (some 9)) rfl
    (by decide) (Or.inl rfl)

/-! ## Conditional::gettimeout: lemmas -/

theorem Conditional.gettimeout_loop_done (ts : timespec) (h : ts.tv_nsec ≤ 1000000000) :
    Conditional.gettimeout_loop ts = ts := by
  rw [Conditional.gettimeout_loop, if_neg (by omega)]

theorem Conditional.gettimeout_loop_carry (ts : timespec) (h : 1000000000 < ts.tv_nsec) :
    Conditional.gettimeout_loop ts =
      Conditional.gettimeout_loop
        { tv_sec := ts.tv_sec + 1, tv_nsec := ts.tv_nsec - 1000000000 } := by
  rw [Conditional.gettimeout_loop, if_pos h]

/-- The value of `gettimeout` for a normalised current time: the loop runs at
most once, and it does not run when the sum of the nanoseconds is exactly one
second. -/
theorem Conditional.gettimeout_eq (now : timespec) (msec : Nat)
    (hnow : now.tv_nsec < 1000000000) :
    Conditional.gettimeout now msec =
      if now.tv_nsec + (msec % 1000) * 1000000 ≤ 1000000000 then
        { tv_sec := now.tv_sec + msec / 1000,
          tv_nsec := now.tv_nsec + (msec % 1000) * 1000000 }
      else
        { tv_sec := now.tv_sec + msec / 1000 + 1,
          tv_nsec := now.tv_nsec + (msec % 1000) * 1000000 - 1000000000 } := by
  have hms : msec % 1000 < 1000 := Nat.mod_lt _ (by decide)
  unfold Conditional.gettimeout
  by_cases h : now.tv_nsec + (msec % 1000) * 1000000 ≤ 1000000000
  · rw [if_pos h, Conditional.gettimeout_loop_done _ h]
  · rw [if_neg h,
      Conditional.gettimeout_loop_carry _
        (by show 1000000000 < now.tv_nsec + msec % 1000 * 1000000; omega),
      Conditional.gettimeout_loop_done _
        (by show now.tv_nsec + msec % 1000 * 1000000 - 1000000000 ≤ 1000000000; omega)]

/-- The deadline computed by `gettimeout` denotes the current time plus `msec`
milliseconds, and its `tv_nsec` is at most one second. -/
theorem Conditional.gettimeout_nanos (now : timespec) (msec : Nat)
    (hnow : now.tv_nsec < 1000000000) :
    (Conditional.gettimeout now msec).nanos = now.nanos + msec * 1000000 ∧
    (Conditional.gettimeout now msec).tv_nsec ≤ 1000000000 := by
  have hms : msec % 1000 < 1000 := Nat.mod_lt _ (by decide)
  have hdiv : msec = 1000 * (msec / 1000) + msec % 1000 := (Nat.div_add_mod msec 1000).symm
  rw [Conditional.gettimeout_eq now msec hnow]
  by_cases h : now.tv_nsec + (msec % 1000) * 1000000 ≤ 1000000000
  · rw [if_pos h]
    refine ⟨?_, h⟩
    unfold timespec.nanos
    show (now.tv_sec + msec / 1000) * 1000000000 + (now.tv_nsec + msec % 1000 * 1000000) = _
    omega
  · rw [if_neg h]
    refine ⟨?_, by
      show now.tv_nsec + msec % 1000 * 1000000 - 1000000000 ≤ 1000000000; omega⟩
    unfold timespec.nanos
    show (now.tv_sec + msec / 1000 + 1) * 1000000000 +
      (now.tv_nsec + msec % 1000 * 1000000 - 1000000000) = _
    omega

/-! ## Conditional::gettimeout: claim -/

/-- C31 (what the code does): the loop of Conditional::gettimeout tests
`tv_nsec > 1000000000`, so a sum of exactly 1,000,000,000 nanoseconds is not
carried. With the clock at 999,000,000 ns past any second and a timeout of
1 ms (plus any number of whole seconds) the deadline has tv_nsec equal to
1,000,000,000, which is not below 1,000,000,000: the timespec is not
normalised (it still denotes the current time plus msec milliseconds). -/
theorem C31_gettimeout_not_normalised :
    (∀ sec q : Nat,
      Conditional.gettimeout { tv_sec := sec, tv_nsec := 999000000 } (1000 * q + 1) =
        { tv_sec := sec + q, tv_nsec := 1000000000 }) ∧
    Conditional.gettimeout { tv_sec := 10, tv_nsec := 999000000 } 1 =
      { tv_sec := 10, tv_nsec := 1000000000 } ∧
    ¬ (Conditional.gettimeout { tv_sec := 10, tv_nsec := 999000000 } 1).tv_nsec < 1000000000 ∧
    (Conditional.gettimeout { tv_sec := 10, tv_nsec := 999000000 } 1).nanos =
      (timespec.mk 10 999000000).nanos + 1 * 1000000 := by
  have hgen : ∀ sec q : Nat,
      Conditional.gettimeout { tv_sec := sec, tv_nsec := 999000000 } (1000 * q + 1) =
        { tv_sec := sec + q, tv_nsec := 1000000000 } := by
    intro sec q
    have h1 : (1000 * q + 1) % 1000 = 1 := by omega
    have h2 : (1000 * q + 1) / 1000 = q := by omega
    rw [Conditional.gettimeout_eq _ _ (by show (999000000 : Nat) < 1000000000; decide)]
    show (if 999000000 + (1000 * q + 1) % 1000 * 1000000 ≤ 1000000000 then
        ({ tv_sec := sec + (1000 * q + 1) / 1000,
           tv_nsec := 999000000 + (1000 * q + 1) % 1000 * 1000000 } : timespec)
      else _) = _
    rw [h1, h2, if_pos (by decide)]
  have h10 := hgen 10 0
  have e : (1000 * 0 + 1 : Nat) = 1 := rfl
  rw [e] at h10
  refine ⟨hgen, h10, ?_, ?_⟩
  · rw [h10]; decide
  · rw [h10]; decide

/-! ## barrier: wake-up and timed wait -/

namespace barrier

theorem wait_timeout_park (n k : Nat) (hk : k + 1 < n) (hn : n < UINT_MOD) :
    wait_timeout { count := n, waits := k } = Step.wait { count := n, waits := k + 1 } := by
  have hinc : uinc k = k + 1 := by
    unfold uinc; exact Nat.mod_eq_of_lt (by omega)
  unfold wait_timeout
  rw [if_neg (by show ¬ n = 0; omega)]
  dsimp only
  rw [hinc, if_neg (by show ¬ k + 1 ≥ n; omega)]

theorem arrive_snoc (j : Nat) :
    ∀ s : barrier, s.arrive (j + 1) = (s.arrive j).bind (fun s1 => s1.wait.after?) := by
  induction j with
  | zero => intro s; simp [barrier.arrive]
  | succ j ih =>
    intro s
    rw [barrier.arrive]
    cases hs : s.wait.after? with
    | none => simp [barrier.arrive, hs]
    | some s1 =>
      simp only [Option.some_bind]
      rw [ih s1]
      conv_rhs => rw [barrier.arrive, hs]
      simp only [Option.some_bind]

end barrier

/-- C32 (what the code does): barrier::wait() and barrier::wait(timeout) call
the wait of the conditional once, outside any loop, and return when it
returns. A party parked at a barrier of two with only itself arrived
(waits is 1, count is 2) that is woken returns at once, with waits still 1:
it does not test the rendezvous again and does not block again. -/
theorem C32_wait_returns_on_wakeup :
    (∀ s : barrier, barrier.wait_resume s = Step.ret s () []) ∧
    (∀ s : barrier, barrier.wait_timeout_resume s true = Step.ret s true []) ∧
    barrier.wait (barrier.init 2) = Step.wait { count := 2, waits := 1 } ∧
    barrier.wait_resume { count := 2, waits := 1 } =
      Step.ret { count := 2, waits := 1 } () [] ∧
    barrier.wait_timeout (barrier.init 2) = Step.wait { count := 2, waits := 1 } ∧
    barrier.wait_timeout_resume { count := 2, waits := 1 } true =
      Step.ret { count := 2, waits := 1 } true [] :=
  ⟨fun _ => rfl, fun _ => rfl, barrier.wait_park 2 0 (by decide) (by decide), rfl,
    barrier.wait_timeout_park 2 0 (by decide) (by decide), rfl⟩

/-- C33: timed barrier wait leaves the arrival counted. On a barrier with
count n >= 2 and w parties arrived, w + 1 < n, wait(timeout) counts the caller
and parks; when the timeout elapses it returns false with waits still w + 1.
The next n - 2 - w arrivals park, and the one after them, the (n - 1 - w)-th
further arrival, finds waits == n - 1, resets it to 0 and broadcasts. -/
theorem C33_timed_wait_keeps_arrival (n w : Nat) (h2 : 2 ≤ n) (hw : w + 1 < n)
    (hn : n < UINT_MOD) :
    barrier.wait_timeout { count := n, waits := w } =
      Step.wait { count := n, waits := w + 1 } ∧
    barrier.wait_timeout_resume { count := n, waits := w + 1 } false =
      Step.ret { count := n, waits := w + 1 } false [] ∧
    barrier.arrive { count := n, waits := w + 1 } (n - 2 - w) =
      some { count := n, waits := n - 1 } ∧
    barrier.wait { count := n, waits := n - 1 } =
      Step.ret { count := n, waits := 0 } () [Event.broadcast] ∧
    barrier.arrive { count := n, waits := w + 1 } (n - 1 - w) =
      some { count := n, waits := 0 } := by
  have hpark : barrier.arrive { count := n, waits := w + 1 } (n - 2 - w) =
      some { count := n, waits := n - 1 } := by
    rw [barrier.arrive_park n hn (n - 2 - w) (w + 1) (by omega)]
    congr 2
    omega
  have hlast := barrier.wait_last n (by omega) hn
  refine ⟨barrier.wait_timeout_park n w hw hn, rfl, hpark, hlast, ?_⟩
  have hk : n - 1 - w = (n - 2 - w) + 1 := by omega
  rw [hk, barrier.arrive_snoc, hpark]
  simp only [Option.some_bind]
  rw [hlast]
  rfl

/-- C33 at a barrier of four with one party arrived: the call that times out
leaves waits at 2, and two further arrivals complete the rendezvous. -/
theorem C33_timed_wait_keeps_arrival_witness :
    barrier.wait_timeout { count := 4, waits := 1 } = Step.wait { count := 4, waits := 2 } ∧
    barrier.wait_timeout_resume { count := 4, waits := 2 } false =
      Step.ret { count := 4, waits := 2 } false [] ∧
    barrier.arrive { count := 4, waits := 2 } 2 = some { count := 4, waits := 0 } :=
  ⟨(C33_timed_wait_keeps_arrival 4 1 (by decide) (by decide) (by decide)).1,
    (C33_timed_wait_keeps_arrival 4 1 (by decide) (by decide) (by decide)).2.1,
    (C33_timed_wait_keeps_arrival 4 1 (by decide) (by decide) (by decide)).2.2.2.2⟩

/-! ## ConditionalLock: shared entry -/

/-- C34: ConvertibleLock shared entry conditions. For every lock state in which
the max_sharing assertion passes and sharing + 1 is an unsigned: access()
returns without waiting exactly when pending == 0, and parks otherwise;
protect() returns without waiting exactly when it is not the case that
pending > 0 and sharing == 0, and parks otherwise; a call that returns has
incremented sharing by one and left pending and waiting as they were. -/
theorem C34_shared_entry (max_sharing : Nat) (l : ConditionalLock)
    (hmax : max_sharing = 0 ∨ l.sharing < max_sharing)
    (hrange : l.sharing + 1 < UINT_MOD) :
    ((∃ l1 ev, l.access max_sharing = Step.ret l1 () ev) ↔ l.pending = 0) ∧
    ((∃ l1 ev, l.protect max_sharing = Step.ret l1 () ev) ↔
      ¬ (0 < l.pending ∧ l.sharing = 0)) ∧
    (l.pending = 0 →
      l.access max_sharing = Step.ret { l with sharing := l.sharing + 1 } () []) ∧
    (¬ (0 < l.pending ∧ l.sharing = 0) →
      l.protect max_sharing = Step.ret { l with sharing := l.sharing + 1 } () []) ∧
    (l.pending ≠ 0 →
      l.access max_sharing = Step.wait { l with waiting := uinc l.waiting }) ∧
    (0 < l.pending ∧ l.sharing = 0 →
      l.protect max_sharing = Step.wait { l with waiting := uinc l.waiting }) := by
  have hA : ¬ (max_sharing ≠ 0 ∧ ¬ l.sharing < max_sharing) := by
    rintro ⟨h1, h2⟩
    rcases hmax with h | h
    · exact h1 h
    · exact h2 h
  have hacc1 : l.pending = 0 →
      l.access max_sharing = Step.ret { l with sharing := l.sharing + 1 } () [] :=
    fun hp => ConditionalLock.access_free max_sharing l hp hrange hmax
  have hacc2 : l.pending ≠ 0 →
      l.access max_sharing = Step.wait { l with waiting := uinc l.waiting } := by
    intro hp
    unfold ConditionalLock.access ConditionalLock.access_loop
    rw [if_neg hA, if_pos hp]
  have hpro1 : ¬ (0 < l.pending ∧ l.sharing = 0) →
      l.protect max_sharing = Step.ret { l with sharing := l.sharing + 1 } () [] := by
    intro hp
    unfold ConditionalLock.protect ConditionalLock.protect_loop
    rw [if_neg hA, if_neg (fun h => hp ⟨Nat.pos_of_ne_zero h.1, h.2⟩), uinc_eq _ hrange]
  have hpro2 : 0 < l.pending ∧ l.sharing = 0 →
      l.protect max_sharing = Step.wait { l with waiting := uinc l.waiting } := by
    intro hp
    unfold ConditionalLock.protect ConditionalLock.protect_loop
    rw [if_neg hA, if_pos ⟨Nat.pos_iff_ne_zero.mp hp.1, hp.2⟩]
  refine ⟨⟨?_, fun hp => ⟨_, _, hacc1 hp⟩⟩, ⟨?_, fun hp => ⟨_, _, hpro1 hp⟩⟩,
    hacc1, hpro1, hacc2, hpro2⟩
  · rintro ⟨l1, ev, h⟩
    by_contra hp
    rw [hacc2 hp] at h
    cases h
  · rintro ⟨l1, ev, h⟩ hp
    rw [hpro2 hp] at h
    cases h

/-- C34 at a lock with one writer pending and two sharers: access() parks,
protect() enters and makes sharing 3. -/
theorem C34_shared_entry_witness :
    ConditionalLock.access 0 (ConditionalLock.mk 1 2 0) =
      Step.wait { ConditionalLock.mk 1 2 0 with waiting := uinc 0 } ∧
    ConditionalLock.protect 0 (ConditionalLock.mk 1 2 0) =
      Step.ret { ConditionalLock.mk 1 2 0 with sharing := 2 + 1 } () [] :=
  ⟨(C34_shared_entry 0 (ConditionalLock.mk 1 2 0) (Or.inl rfl) (by decide)).2.2.2.2.1
      (by decide),
    (C34_shared_entry 0 (ConditionalLock.mk 1 2 0) (Or.inl rfl) (by decide)).2.2.2.1
      (by decide)⟩

/-! ## shell::parse: claim -/

/-- C35 (what the code does): shell::parse sets `quote` when a quoted argument
opens and never clears it when the quote closes, and white space ends an
argument only while `quote` is 0. The input `"a b" c d` (34 is the double
quote) is left with quote still 34 and yields two arguments, [a b] and
[c d], with argc 2, not the three arguments [a b], [c], [d]. Input without
quotes is split on white space, and a quoted segment alone gives one argument
without its quotes. -/
theorem C35_parse_after_quote :
    shell.parsed ([34] ++ shell.bytes "a b" ++ [34] ++ shell.bytes " c d") =
      some (2, [shell.bytes "a b", shell.bytes "c d"]) ∧
    shell.parse_loop 10
        { mem := [34] ++ shell.bytes "a b" ++ [34] ++ shell.bytes " c d" ++ [0], cp := 0,
          quote := 0, active := false, _argc := 0, items := [] } =
      some (Step.ret
        { mem := [34] ++ shell.bytes "a b" ++ [0] ++ shell.bytes " c d" ++ [0], cp := 9,
          quote := 34, active := true, _argc := 2, items := [1, 6] } () []) ∧
    shell.parsed (shell.bytes "a b  c") =
      some (3, [shell.bytes "a", shell.bytes "b", shell.bytes "c"]) ∧
    shell.parsed ([34] ++ shell.bytes "a b" ++ [34]) = some (1, [shell.bytes "a b"]) :=
  ⟨by decide, by decide, by decide, by decide⟩

/-! ## The typed wrappers: claims -/

/-- C36 (what the code does): queueof<T>::post(obj, timeout) and
stackof<T>::push(obj, timeout) do not pass their timeout on: they behave as
queue::post(obj, 0) and stack::push(obj, 0). On a full queue or stack of
capacity 1, post and push with a timeout of 1000 ms or with Timer::inf park,
while the wrappers return false at once. -/
theorem C36_wrappers_drop_timeout :
    (∀ (q : queue) (obj timeout fresh : Nat),
      queueof.post q obj timeout fresh = queue.post q obj 0 fresh) ∧
    (∀ (s : stack) (obj timeout fresh : Nat),
      stackof.push s obj timeout fresh = stack.push s obj 0 fresh) ∧
    queue.post (queue.mk [⟨100, 7⟩] [] 1 1) 8 1000 200 = Step.wait (queue.mk [⟨100, 7⟩] [] 1 1) ∧
    queueof.post (queue.mk [⟨100, 7⟩] [] 1 1) 8 1000 200 =
      Step.ret (queue.mk [⟨100, 7⟩] [] 1 1) false [] ∧
    queue.post (queue.mk [⟨100, 7⟩] [] 1 1) 8 Timer.inf 200 =
      Step.wait (queue.mk [⟨100, 7⟩] [] 1 1) ∧
    queueof.post (queue.mk [⟨100, 7⟩] [] 1 1) 8 Timer.inf 200 =
      Step.ret (queue.mk [⟨100, 7⟩] [] 1 1) false [] ∧
    stack.push (stack.mk [⟨100, 7⟩] [] 1 1) 8 1000 200 = Step.wait (stack.mk [⟨100, 7⟩] [] 1 1) ∧
    stackof.push (stack.mk [⟨100, 7⟩] [] 1 1) 8 1000 200 =
      Step.ret (stack.mk [⟨100, 7⟩] [] 1 1) false [] :=
  ⟨fun _ _ _ _ => rfl, fun _ _ _ _ => rfl, by decide, by decide, by decide, by decide,
    by decide, by decide⟩

/-- C37 (what the code does): bufferof<T>::get() and bufferof<T>::put(obj) call
themselves, not the functions of Buffer: at every depth of nesting, for every
buffer state (also with count > 0, also not full), the innermost call has not
returned, so neither call terminates and neither reaches the Buffer. -/
theorem C37_bufferof_never_returns :
    (∀ (depth : Nat) (s : Buffer), bufferof.get depth s = none) ∧
    (∀ (depth : Nat) (s : Buffer) (obj : List Nat), bufferof.put depth s obj = none) ∧
    Buffer.get (Buffer.mk 2 1 1000 1000 1001 1 2 [7, 0]) =
      Step.ret (Buffer.mk 2 1 1000 1000 1001 1 2 [7, 0]) 1000 [] := by
  refine ⟨fun depth => ?_, fun depth => ?_, by decide⟩
  · induction depth with
    | zero => intro s; rfl
    | succ depth ih => intro s; rw [bufferof.get]; exact ih s
  · induction depth with
    | zero => intro s obj; rfl
    | succ depth ih => intro s obj; rw [bufferof.put]; exact ih s obj

/-! ## shared_release: copies -/

/-- C38 (what the code does): the copy constructor of shared_release copies
`ptr` and acquires nothing, and each guard's destructor releases. A guard g
over a fresh SharedPointer makes sharing 1; g's destructor brings it back to
0, and the destructor of the copy then releases a hold that was never
acquired: it fails the assertion `sharing` of ConditionalLock::release. With
one other thread sharing (sharing 1 before g), the two destructors leave
sharing at 0, one below the value before g was constructed. -/
theorem C38_copied_guard_unbalanced :
    shared_release.construct 0 100 SharedPointer.init =
      Step.ret ({ ptr := some 100 }, SharedPointer.mk (ConditionalLock.mk 0 1 0) none) () [] ∧
    shared_release.copy { ptr := some 100 } = { ptr := some 100 } ∧
    shared_release.destructor { ptr := some 100 }
        (SharedPointer.mk (ConditionalLock.mk 0 1 0) none) =
      Step.ret ({ ptr := none }, SharedPointer.init) () [] ∧
    shared_release.destructor (shared_release.copy { ptr := some 100 }) SharedPointer.init =
      Step.abort ∧
    shared_release.construct 0 100 (SharedPointer.mk (ConditionalLock.mk 0 1 0) none) =
      Step.ret ({ ptr := some 100 }, SharedPointer.mk (ConditionalLock.mk 0 2 0) none) () [] ∧
    shared_release.destructor { ptr := some 100 }
        (SharedPointer.mk (ConditionalLock.mk 0 2 0) none) =
      Step.ret ({ ptr := none }, SharedPointer.mk (ConditionalLock.mk 0 1 0) none) () [] ∧
    shared_release.destructor (shared_release.copy { ptr := some 100 })
        (SharedPointer.mk (ConditionalLock.mk 0 1 0) none) =
      Step.ret ({ ptr := none }, SharedPointer.mk (ConditionalLock.mk 0 0 0) none) () [] :=
  ⟨by decide, rfl, by decide, by decide, by decide, by decide, by decide⟩

/-! ## ReusableAllocator: claim -/

/-- C39 (what the code does): ReusableAllocator::release hands to enlist the
value of `freelist` as the address of the root pointer, not the address of
`freelist`. On a fresh allocator that value is NULL and the call faults. On
any allocator from which the call returns, `freelist` is what it was before;
with the object at 100 as the only free object, release(200) overwrites the
first word of that object with 200, and the chain from `freelist` is still
[100]: the object 200 is not in it. -/
theorem C39_release_misses_freelist :
    (∀ (next_offset obj : Nat) (heap : Nat → Nat),
      ReusableAllocator.release next_offset obj (ReusableAllocator.init heap) = Step.abort) ∧
    (∀ (next_offset obj : Nat) (s : ReusableAllocator),
      (ReusableAllocator.release next_offset obj s).state?.map ReusableAllocator.freelist =
        if s.freelist = 0 then none else some s.freelist) ∧
    (∃ s1, ReusableAllocator.release 8 200
        { freelist := 100, waiting := 0, heap := fun _ => 0 } =
          Step.ret s1 () [Event.retain 200, Event.release 200] ∧
      s1.freelist = 100 ∧ s1.heap 100 = 200 ∧ s1.heap 108 = 0 ∧
      ReusableAllocator.chain 8 s1.heap 3 s1.freelist = [100]) := by
  refine ⟨fun _ _ _ => rfl, fun next_offset obj s => ?_, ⟨_, rfl, rfl, ?_, ?_, ?_⟩⟩
  · unfold ReusableAllocator.release LinkedObject.enlist_heap
    by_cases h : s.freelist = 0
    · simp [h, Step.state?]
    · simp [h, Step.state?]
  · simp [Function.update]
  · simp [Function.update]
  · simp [ReusableAllocator.chain, Function.update]

end ucommon
